import Mathlib

/-!
# Workflow execution engine of Agentic-Backend

Shallow embedding of `src/app/services/workflowService.js` (`WorkflowService.getWorkflow`,
`WorkflowService.runWorkflow`, `WorkflowService.executeWorkflowStep`) and of the step
executor of `src/app/services/agentService.js` (`AgentService.executeAgent`,
`simulateLLMProcessing`, `determineOutputIntent`), and of the validators of
`src/app/core/models.js` (`AgentModel`, `ToolModel`, `WorkflowModel`,
`WorkflowRunModel`).

Conventions of the embedding:

* the Supabase tables are lists of rows inside `Db`; an `insert` appends a row, an
  `update(...).eq('id', x)` rewrites the rows whose `id` is `x`;
* in the workflow service, `AgentService.executeAgent` is a parameter (`StepExecutor`):
  it may fail, and it may depend on and change a state of its own (clock, remote
  services, the rows it logs) of type `σ`;
* every invocation of the executor is recorded in the ghost trace `World.calls`, and
  every write to `workflow_runs` in the ghost journal `Db.run_writes`;
* `async`/`await` is sequential composition; the `timestamp`, `started_at` and
  `completed_at` fields and `console.log` are left out; a thrown error is the
  `Except.error` result;
* in the agent service, the readings of the clock that end up in payloads are readings
  of a `Clock`, and `ToolService.executeTool` is a parameter.
-/

namespace AgenticBackend

/-! ## JavaScript values -/

/-- JavaScript values used as payloads (inputs and outputs of steps). Numbers are the
rational ones (`NaN` and the infinities are left out). -/
inductive JsValue where
  | undefined
  | null
  | bool (b : Bool)
  | number (n : ℚ)
  | string (s : String)
  | array (items : List JsValue)
  | object (fields : List (String × JsValue))

/-- Truthiness of a value: `undefined`, `null`, `false`, `0` and `''` are falsy. -/
def JsValue.truthy : JsValue → Bool
  | .undefined => false
  | .null => false
  | .bool b => b
  | .number n => n != 0
  | .string s => s != ""
  | .array _ => true
  | .object _ => true

/-- The operator `a || b` on values. -/
def JsValue.or (a b : JsValue) : JsValue :=
  if a.truthy then a else b

/-- The object literal `{}`. -/
def emptyObject : JsValue := .object []

/-- A thrown `Error`, identified by its `message`. -/
structure JsError where
  message : String
deriving DecidableEq, Repr

/-- The `TypeError` of reading `.name` of a `null` joined agent (`node.agents.name`). -/
def nullAgentError : JsError :=
  { message := "Cannot read properties of null (reading 'name')" }

/-- The error of `.single()` when the query does not select exactly one row. -/
def singleRowError : JsError :=
  { message := "JSON object requested, multiple (or no) rows returned" }

/-- The error thrown at line 141 of workflowService.js. -/
def noStartNodeError : JsError :=
  { message := "No starting node found in workflow" }

/-- `String.prototype.toLowerCase`, as a list of characters. Only the ASCII letters are
mapped: no other character lowercases to one of the letters of `router`, `stop` or
`routeragent`, so the tests below agree with the JavaScript ones. -/
def toLowerCase (s : String) : List Char :=
  s.toList.map Char.toLower

/-- `String.prototype.includes`: `pat` occurs in `s` as a contiguous substring. -/
def includes : List Char → List Char → Bool
  | [], pat => pat.isEmpty
  | c :: cs, pat => pat.isPrefixOf (c :: cs) || includes cs pat

/-! ## Rows and tables -/

/-- A row of `agents` (the columns the services read). -/
structure Agent where
  id : String
  name : String
  system_prompt : String := ""
  output_intents : List String := []
  tool_id : Option String := none

/-- A row of `workflow_nodes` with its joined agent (`select('*, agents(*)')`); the join
yields `null` (here `none`) when the node references no agent. -/
structure Node where
  id : String
  workflow_id : String
  node_type : String
  agents : Option Agent

/-- A row of `workflow_edges`. -/
structure Edge where
  workflow_id : String
  from_node_id : String
  to_node_id : String
  trigger_intent : String

/-- A row of `workflows`. -/
structure WorkflowRow where
  id : String
  name : String

/-- The value returned by `getWorkflow`: the row with its nodes and edges. -/
structure Workflow where
  id : String
  name : String
  nodes : List Node
  edges : List Edge

/-- What the step executor returns. -/
structure StepResult where
  output : JsValue
  output_intent : String

/-- An element of `executionPath` (lines 162-171). -/
structure StepRecord where
  step : Nat
  node_id : String
  agent_id : String
  agent_name : String
  input : JsValue
  output : JsValue
  output_intent : String

/-- A row of `workflow_runs`. -/
structure WorkflowRun where
  id : Nat
  workflow_id : String
  status : String
  input_data : JsValue
  output_data : Option JsValue := none
  execution_path : Option (List StepRecord) := none
  error_message : Option String := none

/-- The `details` object of a row of `logs`, by event. -/
inductive LogDetails where
  | workflow_start (workflow_id : String) (workflow_name : String) (input_data : JsValue)
  | workflow_step (step : Nat) (agent_name : String) (input : JsValue) (output : JsValue)
      (output_intent : String)
  | workflow_complete (workflow_id : String) (execution_path : List StepRecord)
      (final_output : JsValue) (total_steps : Nat)
  | workflow_error (workflow_id : String) (error : String)
  | workflow_step_manual (node_id : String) (agent_name : String) (input : JsValue)
      (output : JsValue) (output_intent : String)

/-- A row of `logs`. -/
structure LogEvent where
  event_type : String
  workflow_run_id : Option Nat
  details : LogDetails

/-- A write to `workflow_runs` (ghost journal). -/
inductive RunWrite where
  | insert (id : Nat) (status : String)
  | update (id : Nat) (status : String)
deriving DecidableEq, Repr

/-- The database: the tables the workflow service reads and writes. -/
structure Db where
  workflows : List WorkflowRow := []
  workflow_nodes : List Node := []
  workflow_edges : List Edge := []
  workflow_runs : List WorkflowRun := []
  logs : List LogEvent := []
  run_writes : List RunWrite := []

/-- One invocation of the step executor (ghost trace). -/
structure ExecCall where
  node : Node
  agent : Agent
  input : JsValue
  result : Except JsError StepResult

/-- The world a run acts on: the database, the executor's own state, and the trace of
executor invocations. -/
structure World (σ : Type) where
  db : Db
  agentState : σ
  calls : List ExecCall := []

/-- The step executor `AgentService.executeAgent(agent, input)`. -/
abbrev StepExecutor (σ : Type) := Agent → JsValue → σ → Except JsError StepResult × σ

/-- The value `runWorkflow` returns (lines 238-244). -/
structure RunResult where
  run_id : Nat
  status : String
  execution_path : List StepRecord
  final_output : JsValue
  total_steps : Nat

/-! ## `WorkflowService.getWorkflow` (lines 60-88) -/

/-- The rows a `.eq('id', id).single()` query on `workflows` selects, or its error. -/
def singleWorkflow (db : Db) (id : String) : Except JsError WorkflowRow :=
  match db.workflows.filter (fun row => row.id == id) with
  | [row] => .ok row
  | _ => .error singleRowError

/-- `getWorkflow(id)`: the workflow row, with the nodes and the edges of that workflow
in table order. -/
def getWorkflow (db : Db) (id : String) : Except JsError Workflow :=
  match singleWorkflow db id with
  | .error workflowError => .error workflowError
  | .ok row =>
    .ok { id := row.id
          name := row.name
          nodes := db.workflow_nodes.filter (fun node => node.workflow_id == id)
          edges := db.workflow_edges.filter (fun edge => edge.workflow_id == id) }

/-! ## `WorkflowService.runWorkflow` (lines 101-272) -/

/-- The constant `maxSteps` (line 148). -/
def maxSteps : Nat := 10

/-- The test of `workflow.nodes.find` at lines 134-138, on a node whose agent is `agent`. -/
def startCondition (agent : Agent) (node : Node) : Bool :=
  includes (toLowerCase agent.name) "router".toList ||
  node.node_type == "start" ||
  toLowerCase agent.name == "routeragent".toList

/-- `workflow.nodes.find(...)` of lines 134-138: the first node that passes the test;
reading `node.agents.name` throws on a node without agent met before one is found. -/
def findStartNode : List Node → Except JsError (Option Node)
  | [] => .ok none
  | node :: rest =>
    match node.agents with
    | none => .error nullAgentError
    | some agent => if startCondition agent node then .ok (some node) else findStartNode rest

/-- The stop test of lines 154-155, on a node whose agent is `agent`. -/
def stopCondition (agent : Agent) (node : Node) : Bool :=
  includes (toLowerCase agent.name) "stop".toList || node.node_type == "end"

/-- The completion test of lines 190-191. -/
def isCompletionIntent (intent : String) : Bool :=
  intent == "workflow_complete" || intent == "workflow_end"

/-- The edge test of lines 196-199. -/
def edgeMatches (node_id intent : String) (edge : Edge) : Bool :=
  edge.from_node_id == node_id && edge.trigger_intent == intent

/-- The local variables of the loop of `runWorkflow`. -/
structure LoopState where
  currentNode : Option Node
  currentInput : JsValue
  executionPath : List StepRecord
  stepCount : Nat

/-- How one pass through the loop body ends: at the end of the body (the loop test is
evaluated again) or by `break`. -/
inductive Flow where
  | next (st : LoopState)
  | brk (st : LoopState)

/-- Insert of a row into `logs`. -/
def insertLog (db : Db) (event : LogEvent) : Db :=
  { db with logs := db.logs ++ [event] }

/-- The record pushed on `executionPath` at lines 162-171. -/
def stepRecord (stepCount : Nat) (node : Node) (agent : Agent) (input : JsValue)
    (stepResult : StepResult) : StepRecord :=
  { step := stepCount
    node_id := node.id
    agent_id := agent.id
    agent_name := agent.name
    input := input
    output := stepResult.output
    output_intent := stepResult.output_intent }

/-- The `workflow_step` event of lines 174-187. -/
def stepEvent (runId stepCount : Nat) (agent : Agent) (input : JsValue)
    (stepResult : StepResult) : LogEvent :=
  { event_type := "workflow_step"
    workflow_run_id := some runId
    details := .workflow_step stepCount agent.name input stepResult.output
      stepResult.output_intent }

/-- The ghost record of the invocation `executeAgent(node.agents, input)`. -/
def callOf (node : Node) (agent : Agent) (input : JsValue)
    (result : Except JsError StepResult) : ExecCall :=
  { node := node, agent := agent, input := input, result := result }

/-- The world after an invocation of the executor that left it in state `s`. -/
def recordCall {σ : Type} (w : World σ) (call : ExecCall) (s : σ) : World σ :=
  { w with agentState := s, calls := w.calls ++ [call] }

/-- The world after an insert into `logs`. -/
def logEvent {σ : Type} (w : World σ) (event : LogEvent) : World σ :=
  { w with db := insertLog w.db event }

/-- The loop variables after `stepCount++` and `executionPath.push(record)`. -/
def pushStep (st : LoopState) (record : StepRecord) : LoopState :=
  { st with executionPath := st.executionPath ++ [record], stepCount := st.stepCount + 1 }

/-- The loop variables after lines 206-207. -/
def advanceTo (st : LoopState) (workflow : Workflow) (nextEdge : Edge)
    (stepResult : StepResult) : LoopState :=
  { st with
    currentNode := workflow.nodes.find? (fun n => n.id == nextEdge.to_node_id)
    currentInput := stepResult.output }

/-- The body of the `while` loop (lines 151-207), entered with current node `node`. -/
def loopBody {σ : Type} (exec : StepExecutor σ) (workflow : Workflow) (runId : Nat)
    (node : Node) (st : LoopState) (w : World σ) : Except JsError Flow × World σ :=
  match node.agents with
  | none => (.error nullAgentError, w)
  | some agent =>
    if stopCondition agent node then
      (.ok (.brk { st with stepCount := st.stepCount + 1 }), w)
    else
      match exec agent st.currentInput w.agentState with
      | (.error error, s) =>
        (.error error, recordCall w (callOf node agent st.currentInput (.error error)) s)
      | (.ok stepResult, s) =>
        let st1 := pushStep st
          (stepRecord (st.stepCount + 1) node agent st.currentInput stepResult)
        let w1 := logEvent
          (recordCall w (callOf node agent st.currentInput (.ok stepResult)) s)
          (stepEvent runId (st.stepCount + 1) agent st.currentInput stepResult)
        if isCompletionIntent stepResult.output_intent then
          (.ok (.brk st1), w1)
        else
          match workflow.edges.find? (edgeMatches node.id stepResult.output_intent) with
          | none => (.ok (.brk st1), w1)
          | some nextEdge => (.ok (.next (advanceTo st1 workflow nextEdge stepResult)), w1)

/-- The loop `while (currentNode && stepCount < maxSteps) { ... }` (line 150), run for
at most `fuel` passes; `none` when `fuel` passes do not end it. -/
def runLoop {σ : Type} (exec : StepExecutor σ) (workflow : Workflow) (runId : Nat) :
    Nat → LoopState → World σ → Option (Except JsError LoopState × World σ)
  | fuel, st, w =>
    match st.currentNode with
    | none => some (.ok st, w)
    | some node =>
      if st.stepCount < maxSteps then
        match fuel with
        | 0 => none
        | fuel + 1 =>
          match loopBody exec workflow runId node st w with
          | (.error error, w1) => some (.error error, w1)
          | (.ok (.brk st1), w1) => some (.ok st1, w1)
          | (.ok (.next st1), w1) => runLoop exec workflow runId fuel st1 w1
      else some (.ok st, w)

/-- The expression `executionPath[executionPath.length - 1]?.output || {}` (line 210). -/
def finalOutputOf (executionPath : List StepRecord) : JsValue :=
  match executionPath.getLast? with
  | none => emptyObject
  | some record => record.output.or emptyObject

/-- A key for a new row of `workflow_runs`, different from the keys in use. -/
def freshRunId (db : Db) : Nat :=
  db.workflow_runs.foldl (fun m row => max m (row.id + 1)) 0

/-- The insert into `workflow_runs` of lines 105-114. -/
def insertRun (db : Db) (workflowId : String) (initialInput : JsValue) : WorkflowRun × Db :=
  let run : WorkflowRun :=
    { id := freshRunId db, workflow_id := workflowId, status := "running",
      input_data := initialInput }
  (run, { db with workflow_runs := db.workflow_runs ++ [run]
                  run_writes := db.run_writes ++ [.insert run.id "running"] })

/-- The update of `workflow_runs` of lines 213-221. -/
def completeRun (db : Db) (runId : Nat) (finalOutput : JsValue)
    (executionPath : List StepRecord) : Db :=
  { db with
    workflow_runs := db.workflow_runs.map (fun row =>
      if row.id = runId then
        { row with status := "completed", output_data := some finalOutput,
                   execution_path := some executionPath }
      else row)
    run_writes := db.run_writes ++ [.update runId "completed"] }

/-- The update of `workflow_runs` of lines 248-255. -/
def failRun (db : Db) (runId : Nat) (error : JsError) : Db :=
  { db with
    workflow_runs := db.workflow_runs.map (fun row =>
      if row.id = runId then
        { row with status := "failed", error_message := some error.message }
      else row)
    run_writes := db.run_writes ++ [.update runId "failed"] }

/-- The `catch` block of lines 246-271: mark the run failed, log `workflow_error`,
rethrow. -/
def catchBlock {σ : Type} (workflowId : String) (runId : Nat) (error : JsError)
    (w : World σ) : Except JsError RunResult × World σ :=
  let db1 := failRun w.db runId error
  let db2 := insertLog db1
    { event_type := "workflow_error", workflow_run_id := some runId,
      details := .workflow_error workflowId error.message }
  (.error error, { w with db := db2 })

/-- Lines 210-244: compute the final output, mark the run completed, log
`workflow_complete`, return the summary. -/
def completion {σ : Type} (workflowId : String) (runId : Nat) (st : LoopState)
    (w : World σ) : Except JsError RunResult × World σ :=
  let finalOutput := finalOutputOf st.executionPath
  let db1 := completeRun w.db runId finalOutput st.executionPath
  let db2 := insertLog db1
    { event_type := "workflow_complete", workflow_run_id := some runId,
      details := .workflow_complete workflowId st.executionPath finalOutput st.stepCount }
  (.ok { run_id := runId, status := "completed", execution_path := st.executionPath,
         final_output := finalOutput, total_steps := st.stepCount },
   { w with db := db2 })

/-- How the `try` statement ends once the loop is over: by the `catch` block when the
loop threw, by lines 210-244 otherwise. -/
def settle {σ : Type} (workflowId : String) (runId : Nat) :
    Except JsError LoopState → World σ → Except JsError RunResult × World σ
  | .error error, w => catchBlock workflowId runId error w
  | .ok st, w => completion workflowId runId st w

/-- The default parameter `initialInput = {}`: `undefined` is replaced by `{}`. -/
def defaultInput : JsValue → JsValue
  | .undefined => emptyObject
  | v => v

/-- Lines 104-131: insert the run and log `workflow_start`; the new row and the world
after both writes. -/
def beginRun {σ : Type} (w : World σ) (workflowId : String) (workflow : Workflow)
    (initialInput : JsValue) : WorkflowRun × World σ :=
  let (run, db1) := insertRun w.db workflowId initialInput
  (run, logEvent { w with db := db1 }
    { event_type := "workflow_start", workflow_run_id := some run.id,
      details := .workflow_start workflowId workflow.name initialInput })

/-- The loop variables at line 147. -/
def initialState (startNode : Node) (initialInput : JsValue) : LoopState :=
  { currentNode := some startNode, currentInput := initialInput,
    executionPath := [], stepCount := 0 }

/-- The function `runWorkflow(workflowId, initialInput = {})`. The result is `none` only
if the loop is not over after `maxSteps` passes. -/
def runWorkflow {σ : Type} (exec : StepExecutor σ) (workflowId : String) (input : JsValue)
    (w : World σ) : Option (Except JsError RunResult × World σ) :=
  let initialInput := defaultInput input
  match getWorkflow w.db workflowId with
  | .error error => some (.error error, w)
  | .ok workflow =>
    let (run, w2) := beginRun w workflowId workflow initialInput
    match findStartNode workflow.nodes with
    | .error error => some (catchBlock workflowId run.id error w2)
    | .ok none => some (catchBlock workflowId run.id noStartNodeError w2)
    | .ok (some startNode) =>
      match runLoop exec workflow run.id maxSteps (initialState startNode initialInput) w2 with
      | none => none
      | some (r, w3) => some (settle workflowId run.id r w3)

/-! ## The runs of the loop, case by case -/

/-- The runs of the loop as a relation: `LoopRun exec workflow runId st w new r w1` says
that the loop entered with variables `st` in world `w` invokes the executor as listed
in `new` and ends with `r` (the final variables, or the error thrown) in world `w1`.
There is one rule for each way a pass through the loop can go. -/
inductive LoopRun {σ : Type} (exec : StepExecutor σ) (workflow : Workflow) (runId : Nat) :
    LoopState → World σ → List ExecCall → Except JsError LoopState → World σ → Prop
  | exit_none (st : LoopState) (w : World σ) :
      st.currentNode = none →
      LoopRun exec workflow runId st w [] (.ok st) w
  | exit_ceiling (st : LoopState) (w : World σ) (node : Node) :
      st.currentNode = some node → ¬ st.stepCount < maxSteps →
      LoopRun exec workflow runId st w [] (.ok st) w
  | unbound (st : LoopState) (w : World σ) (node : Node) :
      st.currentNode = some node → st.stepCount < maxSteps →
      node.agents = none →
      LoopRun exec workflow runId st w [] (.error nullAgentError) w
  | stop (st : LoopState) (w : World σ) (node : Node) (agent : Agent) :
      st.currentNode = some node → st.stepCount < maxSteps →
      node.agents = some agent → stopCondition agent node = true →
      LoopRun exec workflow runId st w [] (.ok { st with stepCount := st.stepCount + 1 }) w
  | exec_error (st : LoopState) (w : World σ) (node : Node) (agent : Agent)
      (error : JsError) (s : σ) :
      st.currentNode = some node → st.stepCount < maxSteps →
      node.agents = some agent → stopCondition agent node = false →
      exec agent st.currentInput w.agentState = (.error error, s) →
      LoopRun exec workflow runId st w [callOf node agent st.currentInput (.error error)]
        (.error error) (recordCall w (callOf node agent st.currentInput (.error error)) s)
  | complete (st : LoopState) (w : World σ) (node : Node) (agent : Agent)
      (stepResult : StepResult) (s : σ) :
      st.currentNode = some node → st.stepCount < maxSteps →
      node.agents = some agent → stopCondition agent node = false →
      exec agent st.currentInput w.agentState = (.ok stepResult, s) →
      isCompletionIntent stepResult.output_intent = true →
      LoopRun exec workflow runId st w [callOf node agent st.currentInput (.ok stepResult)]
        (.ok (pushStep st (stepRecord (st.stepCount + 1) node agent st.currentInput stepResult)))
        (logEvent (recordCall w (callOf node agent st.currentInput (.ok stepResult)) s)
          (stepEvent runId (st.stepCount + 1) agent st.currentInput stepResult))
  | dead_end (st : LoopState) (w : World σ) (node : Node) (agent : Agent)
      (stepResult : StepResult) (s : σ) :
      st.currentNode = some node → st.stepCount < maxSteps →
      node.agents = some agent → stopCondition agent node = false →
      exec agent st.currentInput w.agentState = (.ok stepResult, s) →
      isCompletionIntent stepResult.output_intent = false →
      workflow.edges.find? (edgeMatches node.id stepResult.output_intent) = none →
      LoopRun exec workflow runId st w [callOf node agent st.currentInput (.ok stepResult)]
        (.ok (pushStep st (stepRecord (st.stepCount + 1) node agent st.currentInput stepResult)))
        (logEvent (recordCall w (callOf node agent st.currentInput (.ok stepResult)) s)
          (stepEvent runId (st.stepCount + 1) agent st.currentInput stepResult))
  | advance (st : LoopState) (w : World σ) (node : Node) (agent : Agent)
      (stepResult : StepResult) (s : σ) (nextEdge : Edge) (new : List ExecCall)
      (r : Except JsError LoopState) (w1 : World σ) :
      st.currentNode = some node → st.stepCount < maxSteps →
      node.agents = some agent → stopCondition agent node = false →
      exec agent st.currentInput w.agentState = (.ok stepResult, s) →
      isCompletionIntent stepResult.output_intent = false →
      workflow.edges.find? (edgeMatches node.id stepResult.output_intent) = some nextEdge →
      LoopRun exec workflow runId
        (advanceTo
          (pushStep st (stepRecord (st.stepCount + 1) node agent st.currentInput stepResult))
          workflow nextEdge stepResult)
        (logEvent (recordCall w (callOf node agent st.currentInput (.ok stepResult)) s)
          (stepEvent runId (st.stepCount + 1) agent st.currentInput stepResult))
        new r w1 →
      LoopRun exec workflow runId st w
        (callOf node agent st.currentInput (.ok stepResult) :: new) r w1

/-- The records pushed on `executionPath` by the successful invocations of a trace, the
first of which is step `k + 1`. -/
def recordsOf : Nat → List ExecCall → List StepRecord
  | _, [] => []
  | k, call :: rest =>
    match call.result with
    | .ok stepResult =>
      stepRecord (k + 1) call.node call.agent call.input stepResult :: recordsOf (k + 1) rest
    | .error _ => recordsOf (k + 1) rest

/-- The `workflow_step` events logged for the successful invocations of a trace. -/
def eventsOf (runId : Nat) : Nat → List ExecCall → List LogEvent
  | _, [] => []
  | k, call :: rest =>
    match call.result with
    | .ok stepResult =>
      stepEvent runId (k + 1) call.agent call.input stepResult :: eventsOf runId (k + 1) rest
    | .error _ => eventsOf runId (k + 1) rest

/-! ## Example data -/

/-- An agent named `RouterAgent`. -/
def routerAgent : Agent := { id := "agent-router", name := "RouterAgent" }

/-- An agent named `AuthAgent`. -/
def authAgent : Agent := { id := "agent-auth", name := "AuthAgent" }

/-- An agent named `StopAgent`. -/
def stopAgent : Agent := { id := "agent-stop", name := "StopAgent" }

/-- A node bound to `RouterAgent`. -/
def routerNode : Node :=
  { id := "node-router", workflow_id := "wf", node_type := "agent", agents := some routerAgent }

/-- A node bound to `AuthAgent`. -/
def authNode : Node :=
  { id := "node-auth", workflow_id := "wf", node_type := "agent", agents := some authAgent }

/-- A node bound to `StopAgent`. -/
def stopNode : Node :=
  { id := "node-stop", workflow_id := "wf", node_type := "agent", agents := some stopAgent }

/-- An edge of the workflow `wf`. -/
def edge (from_node_id to_node_id trigger_intent : String) : Edge :=
  { workflow_id := "wf", from_node_id := from_node_id, to_node_id := to_node_id,
    trigger_intent := trigger_intent }

/-- A world with one workflow `wf` made of the given nodes and edges, no run, no log. -/
def exampleWorld (nodes : List Node) (edges : List Edge) : World Unit :=
  { db := { workflows := [{ id := "wf", name := "Example" }]
            workflow_nodes := nodes
            workflow_edges := edges }
    agentState := () }

/-- The workflow `getWorkflow` loads from `exampleWorld nodes edges`, for nodes and edges
of workflow `wf`. -/
def exampleWorkflow (nodes : List Node) (edges : List Edge) : Workflow :=
  { id := "wf", name := "Example", nodes := nodes, edges := edges }

/-- An executor that always succeeds with the same output and intent. -/
def constExec (output : JsValue) (intent : String) : StepExecutor Unit :=
  fun _ _ s => (.ok { output := output, output_intent := intent }, s)

/-- An executor that succeeds with intent `go` on every agent but `AuthAgent`, on which
it throws. -/
def failingExec : StepExecutor Unit :=
  fun agent _ s =>
    if agent.name == "AuthAgent" then (.error { message := "executor failed" }, s)
    else (.ok { output := .string "routed", output_intent := "go" }, s)

/-- An executor whose intent depends on its input: on `RouterAgent` it answers `go`,
except on a number, where it answers `unknown`; on the other agents it answers `back`
with output `1`. -/
def inputExec : StepExecutor Unit :=
  fun agent input s =>
    if agent.name == "RouterAgent" then
      match input with
      | .number _ => (.ok { output := .string "lost", output_intent := "unknown" }, s)
      | _ => (.ok { output := .string "routed", output_intent := "go" }, s)
    else (.ok { output := .number 1, output_intent := "back" }, s)

/-! ## Hypotheses of the claims, in the words of the specification -/

/-- The hypothesis of the step-ceiling property, on the situations `S k node input s`
a run can be in before its step `k + 1` (current node, current input, state of the
executor): below the ceiling, the step on such a situation succeeds with an intent that
is no completion marker and that matches an edge, whose target exists, has an agent, is
neither a stop node nor an end node, and forms with the output the next situation. -/
def StepsGoOn {σ : Type} (exec : StepExecutor σ) (workflow : Workflow)
    (S : Nat → Node → JsValue → σ → Prop) : Prop :=
  ∀ k node input s, k < maxSteps → S k node input s →
    ∃ agent stepResult s1 nextEdge nextNode nextAgent,
      node.agents = some agent ∧
      exec agent input s = (.ok stepResult, s1) ∧
      stepResult.output_intent ≠ "workflow_complete" ∧
      stepResult.output_intent ≠ "workflow_end" ∧
      workflow.edges.find? (edgeMatches node.id stepResult.output_intent) = some nextEdge ∧
      workflow.nodes.find? (fun n => n.id == nextEdge.to_node_id) = some nextNode ∧
      nextNode.agents = some nextAgent ∧
      stopCondition nextAgent nextNode = false ∧
      S (k + 1) nextNode stepResult.output s1

/-- The edges of a cycle between the router node and the auth node, on intent `go`. -/
def cycleEdges : List Edge :=
  [edge "node-router" "node-auth" "go", edge "node-auth" "node-router" "go"]

/-- A world whose workflow `wf` is a cycle between the router node and the auth node. -/
def cycleWorld : World Unit := exampleWorld [routerNode, authNode] cycleEdges

/-- The workflow loaded from `cycleWorld`. -/
def cycleWorkflow : Workflow := exampleWorkflow [routerNode, authNode] cycleEdges

/-- The situations of a run on the cycle: the current node is one of its two nodes. -/
def onCycle (_ : Nat) (node : Node) (_ : JsValue) (_ : Unit) : Prop :=
  node = routerNode ∨ node = authNode

/-- In the words of the specification: `nextEdge` is the first edge, in the order of
`edges`, whose `from_node_id` is `node_id` and whose `trigger_intent` is `intent`. -/
def IsFirstMatch (edges : List Edge) (node_id intent : String) (nextEdge : Edge) : Prop :=
  ∃ before after, edges = before ++ nextEdge :: after ∧
    (∀ e ∈ before, ¬ (e.from_node_id = node_id ∧ e.trigger_intent = intent)) ∧
    nextEdge.from_node_id = node_id ∧ nextEdge.trigger_intent = intent

/-- Two edges with the same source and trigger: the first to the auth node, the second
to the stop node. -/
def duplicateEdges : List Edge :=
  [edge "node-router" "node-auth" "go", edge "node-router" "node-stop" "go"]

/-- A world whose workflow `wf` has the edges `duplicateEdges`. -/
def duplicateWorld : World Unit := exampleWorld [routerNode, authNode, stopNode] duplicateEdges

/-- The workflow loaded from `duplicateWorld`. -/
def duplicateWorkflow : Workflow :=
  exampleWorkflow [routerNode, authNode, stopNode] duplicateEdges

/-- The edges of a workflow that comes back to the router node: router to auth on `go`,
auth to router on `back`. -/
def revisitEdges : List Edge :=
  [edge "node-router" "node-auth" "go", edge "node-auth" "node-router" "back"]

/-- A world whose workflow `wf` has the edges `revisitEdges`. -/
def revisitWorld : World Unit := exampleWorld [routerNode, authNode] revisitEdges

/-- The workflow loaded from `revisitWorld`. -/
def revisitWorkflow : Workflow := exampleWorkflow [routerNode, authNode] revisitEdges

/-- A world whose workflow `wf` has an edge from the router node to the auth node with
trigger `workflow_complete`. -/
def completeWorld : World Unit :=
  exampleWorld [routerNode, authNode] [edge "node-router" "node-auth" "workflow_complete"]

/-- A world whose workflow `wf` routes the router node to the stop node on `go`. -/
def stopWorld : World Unit :=
  exampleWorld [routerNode, stopNode] [edge "node-router" "node-stop" "go"]

/-- The workflow loaded from `stopWorld`. -/
def stopWorkflow : Workflow :=
  exampleWorkflow [routerNode, stopNode] [edge "node-router" "node-stop" "go"]

/-- In the words of the specification: a node qualifies as entry node when its type is
`start`, or the lowercased name of its agent contains `router`, or that lowercased name
is `routeragent`. -/
def Qualifies (node : Node) : Prop :=
  node.node_type = "start" ∨
  ∃ agent, node.agents = some agent ∧
    (includes (toLowerCase agent.name) "router".toList = true ∨
      toLowerCase agent.name = "routeragent".toList)

/-- In the words of the specification: `startNode` is the first node, in the order of
`nodes`, that qualifies as entry node. -/
def IsFirstQualifying (nodes : List Node) (startNode : Node) : Prop :=
  ∃ before after, nodes = before ++ startNode :: after ∧
    (∀ node ∈ before, ¬ Qualifies node) ∧ Qualifies startNode

/-! ## The writes of a run, by outcome -/

/-- The `workflow_start` event of a run (lines 120-131). -/
def startEvent (runId : Nat) (workflowId workflowName : String) (initialInput : JsValue) :
    LogEvent :=
  { event_type := "workflow_start", workflow_run_id := some runId,
    details := .workflow_start workflowId workflowName initialInput }

/-- The last event of a run: `workflow_complete` with the returned summary when the call
returns (lines 224-236), `workflow_error` with the message when it throws (lines
258-268). -/
def finalEvent (runId : Nat) (workflowId : String) : Except JsError RunResult → LogEvent
  | .ok res =>
    { event_type := "workflow_complete", workflow_run_id := some runId,
      details := .workflow_complete workflowId res.execution_path res.final_output
        res.total_steps }
  | .error error =>
    { event_type := "workflow_error", workflow_run_id := some runId,
      details := .workflow_error workflowId error.message }

/-- The row of a run after its terminal update: `completed` with the returned final
output and path when the call returns (lines 213-221), `failed` with the message when
it throws (lines 248-255). -/
def finalRow (runId : Nat) (workflowId : String) (initialInput : JsValue) :
    Except JsError RunResult → WorkflowRun
  | .ok res =>
    { id := runId, workflow_id := workflowId, status := "completed",
      input_data := initialInput, output_data := some res.final_output,
      execution_path := some res.execution_path }
  | .error error =>
    { id := runId, workflow_id := workflowId, status := "failed",
      input_data := initialInput, error_message := some error.message }

/-- The status written by the terminal update of a run. -/
def finalStatus : Except JsError RunResult → String
  | .ok _ => "completed"
  | .error _ => "failed"

/-- The node the loop is to visit next, after the invocations `new` of a loop entered
on `current`: `current` itself when there was no invocation; otherwise the node the last
invocation is routed to, if it succeeded with an intent that is no completion marker and
matches an edge whose target exists. -/
def nextToVisit (workflow : Workflow) (current : Option Node) (new : List ExecCall) :
    Option Node :=
  match new.getLast? with
  | none => current
  | some call =>
    match call.result with
    | .error _ => none
    | .ok stepResult =>
      if isCompletionIntent stepResult.output_intent then none
      else
        match workflow.edges.find? (edgeMatches call.node.id stepResult.output_intent) with
        | none => none
        | some nextEdge => workflow.nodes.find? (fun n => n.id == nextEdge.to_node_id)

/-- In the words of the specification: the run ended by visiting a stop node or an end
node. After the invocations `new`, fewer than `maxSteps`, the loop visits a node whose
agent has a name containing `stop` or whose type is `end`. -/
def EndsOnStop (workflow : Workflow) (startNode : Node) (new : List ExecCall) : Prop :=
  new.length < maxSteps ∧
  ∃ node agent, nextToVisit workflow (some startNode) new = some node ∧
    node.agents = some agent ∧
    (includes (toLowerCase agent.name) "stop".toList = true ∨ node.node_type = "end")

/-! ## `WorkflowService.executeWorkflowStep` (lines 274-319) -/

/-- The `TypeError` of `executeAgent(null, input)`, which reads `agent.id` first. -/
def nullAgentIdError : JsError :=
  { message := "Cannot read properties of null (reading 'id')" }

/-- The row a `.eq('id', runId).single()` query on `workflow_runs` selects, or its
error. -/
def singleRun (db : Db) (runId : Nat) : Except JsError WorkflowRun :=
  match db.workflow_runs.filter (fun row => row.id == runId) with
  | [row] => .ok row
  | _ => .error singleRowError

/-- The row a `.eq('id', nodeId).single()` query on `workflow_nodes` selects, or its
error. -/
def singleNode (db : Db) (nodeId : String) : Except JsError Node :=
  match db.workflow_nodes.filter (fun node => node.id == nodeId) with
  | [node] => .ok node
  | _ => .error singleRowError

/-- The value `executeWorkflowStep` returns (lines 312-318). -/
structure ManualStepResult where
  node_id : String
  agent_name : String
  input : JsValue
  output : JsValue
  output_intent : String

/-- The `workflow_step_manual` event of lines 297-310. -/
def manualStepEvent (runId : Nat) (nodeId : String) (agent : Agent) (input : JsValue)
    (result : StepResult) : LogEvent :=
  { event_type := "workflow_step_manual"
    workflow_run_id := some runId
    details := .workflow_step_manual nodeId agent.name input result.output
      result.output_intent }

/-- The function `executeWorkflowStep(runId, nodeId, input)`: look the run up, look the
node up, invoke the executor on the agent of the node, log `workflow_step_manual`,
return the result of the step. On a node without agent, `executeAgent(null, input)`
throws. -/
def executeWorkflowStep {σ : Type} (exec : StepExecutor σ) (runId : Nat) (nodeId : String)
    (input : JsValue) (w : World σ) : Except JsError ManualStepResult × World σ :=
  match singleRun w.db runId with
  | .error runError => (.error runError, w)
  | .ok _ =>
    match singleNode w.db nodeId with
    | .error nodeError => (.error nodeError, w)
    | .ok node =>
      match node.agents with
      | none => (.error nullAgentIdError, w)
      | some agent =>
        match exec agent input w.agentState with
        | (.error error, s) =>
          (.error error, recordCall w (callOf node agent input (.error error)) s)
        | (.ok result, s) =>
          (.ok { node_id := nodeId, agent_name := agent.name, input := input,
                 output := result.output, output_intent := result.output_intent },
           logEvent (recordCall w (callOf node agent input (.ok result)) s)
             (manualStepEvent runId nodeId agent input result))

/-! ## `AgentService.executeAgent` (agentService.js, lines 86-226) -/

/-- The `TypeError` of reading property `key` of `null` or `undefined`. -/
def propertyError (base key : String) : JsError :=
  { message := "Cannot read properties of " ++ base ++ " (reading '" ++ key ++ "')" }

/-- The property read `value.key`: the field of an object (the first with that key in
the list of fields), `undefined` when the object has no such field or the value is a
primitive or an array (none of the keys read here is a property of those), and a
`TypeError` on `null` and `undefined`. -/
def JsValue.get (value : JsValue) (key : String) : Except JsError JsValue :=
  match value with
  | .null => .error (propertyError "null" key)
  | .undefined => .error (propertyError "undefined" key)
  | .object fields =>
    match fields.find? (fun field => field.1 == key) with
    | some field => .ok field.2
    | none => .ok .undefined
  | _ => .ok .undefined

/-- The test `value !== undefined`. -/
def JsValue.isDefined : JsValue → Bool
  | .undefined => false
  | _ => true

/-- The expression `agent.output_intents[0] || 'workflow_complete'`. -/
def firstOutputIntent (agent : Agent) : String :=
  match agent.output_intents.head? with
  | some intent => if intent = "" then "workflow_complete" else intent
  | none => "workflow_complete"

/-- The function `determineOutputIntent(agent, toolResult)` (lines 212-226). -/
def determineOutputIntent (agent : Agent) (toolResult : JsValue) : Except JsError String :=
  match toolResult.get "authenticated" with
  | .error error => .error error
  | .ok authenticated =>
    if authenticated.truthy then .ok "need_balance_info"
    else
      match toolResult.get "balance" with
      | .error error => .error error
      | .ok balance =>
        if balance.isDefined then .ok "workflow_complete"
        else
          match toolResult.get "error" with
          | .error error => .error error
          | .ok err =>
            if err.truthy then .ok "workflow_error"
            else .ok (firstOutputIntent agent)

/-- A row written to `logs` by the agent service (`agent_execution_start`,
`agent_execution_complete`, `agent_execution_error`); these rows carry no run id. -/
structure AgentLog where
  event_type : String
  agent_id : String
  agent_name : String
  input : JsValue
  output : Option JsValue := none
  output_intent : Option String := none
  error : Option String := none

/-- The state the agent service acts on: the number of readings of the clock made so
far (`Date.now()`, `new Date()`), and the rows it wrote to `logs`. -/
structure AgentState where
  clockReads : Nat := 0
  logs : List AgentLog := []

/-- The clock and the date formatting the agent service relies on: `now k` is the
reading number `k` of the clock, in milliseconds, and `toISOString` is
`Date.prototype.toISOString` on such a reading. -/
structure Clock where
  now : Nat → Nat
  toISOString : Nat → String

/-- `ToolService.executeTool(toolId, parameters)`, taken as given. -/
abbrev ToolExecutor := String → JsValue → AgentState → Except JsError JsValue × AgentState

/-- One reading of the clock. -/
def readClock (clock : Clock) (s : AgentState) : Nat × AgentState :=
  (clock.now s.clockReads, { s with clockReads := s.clockReads + 1 })

/-- The function `simulateLLMProcessing(agent, input)` (lines 151-210). -/
def simulateLLMProcessing (clock : Clock) (agent : Agent) (input : JsValue)
    (s : AgentState) : Except JsError StepResult × AgentState :=
  let agentName := toLowerCase agent.name
  if agentName = "routeragent".toList then
    match input.get "query", input.get "message" with
    | .error error, _ => (.error error, s)
    | .ok query, message =>
      if query.truthy then
        (.ok { output := .object
                 [("message", .string "Routing request to authentication"),
                  ("user_query", query),
                  ("routing_decision", .string "authenticate_user")],
               output_intent := "need_authentication" }, s)
      else
        match message with
        | .error error => (.error error, s)
        | .ok message =>
          (.ok { output := .object
                   [("message", .string "Routing request to authentication"),
                    ("user_query", message.or (.string "User request")),
                    ("routing_decision", .string "authenticate_user")],
                 output_intent := "need_authentication" }, s)
  else if agentName = "authagent".toList then
    match input.get "user_id" with
    | .error error => (.error error, s)
    | .ok user_id =>
      let (now, s1) := readClock clock s
      (.ok { output := .object
               [("message", .string "User authenticated successfully"),
                ("user_id", user_id.or (.string "user_123")),
                ("authenticated", .bool true),
                ("session_token", .string ("session_" ++ toString now))],
             output_intent := "need_balance_info" }, s1)
  else if agentName = "postpaidbalanceagent".toList then
    match input.get "user_id", input.get "customer_id" with
    | .error error, _ => (.error error, s)
    | .ok user_id, customer_id =>
      let customer : Except JsError JsValue :=
        if user_id.truthy then .ok user_id
        else
          match customer_id with
          | .error error => .error error
          | .ok customer_id => .ok (customer_id.or (.string "user_123"))
      match customer with
      | .error error => (.error error, s)
      | .ok customer =>
        let (now, s1) := readClock clock s
        (.ok { output := .object
                 [("message", .string "Balance retrieved successfully"),
                  ("customer_id", customer),
                  ("balance", .number (171 / 2)),
                  ("currency", .string "USD"),
                  ("last_updated", .string (clock.toISOString now))],
               output_intent := "workflow_complete" }, s1)
  else if agentName = "stopagent".toList then
    let (now, s1) := readClock clock s
    (.ok { output := .object
             [("message", .string "Workflow completed successfully"),
              ("final_result", input),
              ("completed_at", .string (clock.toISOString now))],
           output_intent := "workflow_end" }, s1)
  else
    (.ok { output := .object
             [("message", .string ("Agent " ++ agent.name ++ " processed request")),
              ("processed_data", input),
              ("agent_response", .string ("Processed by " ++ agent.name ++
                " using prompt: " ++ agent.system_prompt.take 100 ++ "..."))],
           output_intent := firstOutputIntent agent }, s)

/-- The row `agent_execution_start` (lines 89-99). -/
def agentStartLog (agent : Agent) (input : JsValue) : AgentLog :=
  { event_type := "agent_execution_start", agent_id := agent.id, agent_name := agent.name,
    input := input }

/-- The row `agent_execution_complete` (lines 117-129). -/
def agentCompleteLog (agent : Agent) (input : JsValue) (result : StepResult) : AgentLog :=
  { event_type := "agent_execution_complete", agent_id := agent.id,
    agent_name := agent.name, input := input, output := some result.output,
    output_intent := some result.output_intent }

/-- The row `agent_execution_error` (lines 134-145). -/
def agentErrorLog (agent : Agent) (input : JsValue) (error : JsError) : AgentLog :=
  { event_type := "agent_execution_error", agent_id := agent.id, agent_name := agent.name,
    input := input, error := some error.message }

/-- The agent state after an insert into `logs`. -/
def agentLog (s : AgentState) (row : AgentLog) : AgentState :=
  { s with logs := s.logs ++ [row] }

/-- The body of the `try` statement of `executeAgent`, after the first insert (lines
101-114): the tool of the agent when it has one, the simulation otherwise. -/
def agentResult (clock : Clock) (executeTool : ToolExecutor) (agent : Agent)
    (input : JsValue) (s : AgentState) : Except JsError StepResult × AgentState :=
  match agent.tool_id with
  | none => simulateLLMProcessing clock agent input s
  | some toolId =>
    if toolId = "" then simulateLLMProcessing clock agent input s
    else
      match executeTool toolId input s with
      | (.error error, s1) => (.error error, s1)
      | (.ok toolResult, s1) =>
        match determineOutputIntent agent toolResult with
        | .error error => (.error error, s1)
        | .ok intent => (.ok { output := toolResult, output_intent := intent }, s1)

/-- The function `executeAgent(agent, input)` (lines 86-149), as a step executor. -/
def executeAgent (clock : Clock) (executeTool : ToolExecutor) : StepExecutor AgentState :=
  fun agent input s =>
    match agentResult clock executeTool agent input (agentLog s (agentStartLog agent input)) with
    | (.ok result, s1) => (.ok result, agentLog s1 (agentCompleteLog agent input result))
    | (.error error, s1) => (.error error, agentLog s1 (agentErrorLog agent input error))

/-! ## The scenario of the specification -/

/-- The agent `PostpaidBalanceAgent`. -/
def balanceAgent : Agent := { id := "agent-balance", name := "PostpaidBalanceAgent" }

/-- A node bound to `PostpaidBalanceAgent`. -/
def balanceNode : Node :=
  { id := "node-balance", workflow_id := "wf", node_type := "agent",
    agents := some balanceAgent }

/-- The nodes of the scenario: Router, Auth, Balance, Stop. -/
def scenarioNodes : List Node := [routerNode, authNode, balanceNode, stopNode]

/-- The edges of the scenario: Router to Auth on `need_authentication`, Auth to Balance
on `need_balance_info`. -/
def scenarioEdges : List Edge :=
  [edge "node-router" "node-auth" "need_authentication",
   edge "node-auth" "node-balance" "need_balance_info"]

/-- The world of the scenario, with the agent service in state `s`. -/
def scenarioWorld (s : AgentState) : World AgentState :=
  { db := { workflows := [{ id := "wf", name := "Customer Service" }]
            workflow_nodes := scenarioNodes
            workflow_edges := scenarioEdges }
    agentState := s }

/-- The input of the scenario, `{query: "balance?"}`. -/
def scenarioInput : JsValue := .object [("query", .string "balance?")]

/-- A world whose workflow `wf` has an edge from the router node to a node that does not
exist. -/
def danglingWorld : World Unit :=
  exampleWorld [routerNode] [edge "node-router" "node-missing" "go"]

/-- The workflow loaded from `danglingWorld`. -/
def danglingWorkflow : Workflow :=
  exampleWorkflow [routerNode] [edge "node-router" "node-missing" "go"]

/-! ## The validators of `src/app/core/models.js` -/

/-- The error thrown when required fields are missing: the message lists `missing`,
joined by `', '`. -/
def missingError (missing : List String) : JsError :=
  { message := "Missing required fields: " ++ ", ".intercalate missing }

/-- The error thrown at line 53 of models.js. -/
def arraysError : JsError :=
  { message := "Nodes and edges must be arrays" }

/-- The property read `data[key]` where it cannot throw (`data` is neither `null` nor
`undefined`): the value read, `undefined` when there is no such field. -/
def JsValue.prop (value : JsValue) (key : String) : JsValue :=
  match value.get key with
  | .ok v => v
  | .error _ => .undefined

/-- The expression `required.filter(field => !data[field])`: the required fields whose
value in `data` is falsy, in the order of `required`; the first read throws when
`data` is `null` or `undefined`. -/
def missingFields : List String → JsValue → Except JsError (List String)
  | [], _ => .ok []
  | field :: rest, data =>
    match data.get field with
    | .error error => .error error
    | .ok value =>
      match missingFields rest data with
      | .error error => .error error
      | .ok missing => .ok (if value.truthy then missing else field :: missing)

/-- The test `Array.isArray(value)`. -/
def JsValue.isArray : JsValue → Bool
  | .array _ => true
  | _ => false

/-- The test `value !== false`. -/
def JsValue.notFalse : JsValue → Bool
  | .bool false => false
  | _ => true

/-- The required fields of `AgentModel` (line 4). -/
def AgentModel.required : List String := ["name", "system_prompt", "model_name"]

/-- The function `AgentModel.validate(data)` (lines 3-21). -/
def AgentModel.validate (data : JsValue) : Except JsError JsValue :=
  match missingFields AgentModel.required data with
  | .error error => .error error
  | .ok missing =>
    if missing.length > 0 then .error (missingError missing)
    else
      .ok (.object
        [("name", data.prop "name"),
         ("description", (data.prop "description").or (.string "")),
         ("system_prompt", data.prop "system_prompt"),
         ("model_name", data.prop "model_name"),
         ("input_intents", (data.prop "input_intents").or (.array [])),
         ("output_intents", (data.prop "output_intents").or (.array [])),
         ("tool_id", (data.prop "tool_id").or .null),
         ("is_active", .bool (data.prop "is_active").notFalse)])

/-- The required fields of `ToolModel` (line 26). -/
def ToolModel.required : List String := ["name", "function_code"]

/-- The function `ToolModel.validate(data)` (lines 25-40). -/
def ToolModel.validate (data : JsValue) : Except JsError JsValue :=
  match missingFields ToolModel.required data with
  | .error error => .error error
  | .ok missing =>
    if missing.length > 0 then .error (missingError missing)
    else
      .ok (.object
        [("name", data.prop "name"),
         ("description", (data.prop "description").or (.string "")),
         ("function_code", data.prop "function_code"),
         ("parameters", (data.prop "parameters").or (.object [])),
         ("is_active", .bool (data.prop "is_active").notFalse)])

/-- The required fields of `WorkflowModel` (line 45). -/
def WorkflowModel.required : List String := ["name", "nodes", "edges"]

/-- The function `WorkflowModel.validate(data)` (lines 44-63). -/
def WorkflowModel.validate (data : JsValue) : Except JsError JsValue :=
  match missingFields WorkflowModel.required data with
  | .error error => .error error
  | .ok missing =>
    if missing.length > 0 then .error (missingError missing)
    else if !(data.prop "nodes").isArray || !(data.prop "edges").isArray then
      .error arraysError
    else
      .ok (.object
        [("name", data.prop "name"),
         ("description", (data.prop "description").or (.string "")),
         ("nodes", data.prop "nodes"),
         ("edges", data.prop "edges"),
         ("is_active", .bool (data.prop "is_active").notFalse)])

/-- The required fields of `WorkflowRunModel` (line 68). -/
def WorkflowRunModel.required : List String := ["workflow_id"]

/-- The function `WorkflowRunModel.validate(data)` (lines 67-80). -/
def WorkflowRunModel.validate (data : JsValue) : Except JsError JsValue :=
  match missingFields WorkflowRunModel.required data with
  | .error error => .error error
  | .ok missing =>
    if missing.length > 0 then .error (missingError missing)
    else
      .ok (.object
        [("workflow_id", data.prop "workflow_id"),
         ("input_data", (data.prop "input_data").or (.object [])),
         ("status", (data.prop "status").or (.string "pending"))])

/-- In the words of the specification: the required fields that have a falsy value in
`data` (absent, `null`, empty string, `0`, `false`), in the order of declaration. -/
def falsyFields (required : List String) (data : JsValue) : List String :=
  required.filter (fun field => !(data.prop field).truthy)

/-- In the words of the specification: `validate` throws `Missing required fields: ...`
on `data` if and only if at least one required field has a falsy value in `data`, and
then the message lists exactly those fields, in the order of declaration, joined by
`', '`. -/
def MissingFieldsContract (validate : JsValue → Except JsError JsValue)
    (required : List String) (data : JsValue) : Prop :=
  ((∃ names, validate data = .error (missingError names)) ↔
    ∃ field ∈ required, (data.prop field).truthy = false) ∧
  ((∃ field ∈ required, (data.prop field).truthy = false) →
    validate data = .error (missingError (falsyFields required data)))

/-! ## The loop: termination and case analysis -/

/-- The loop function follows the rules of `LoopRun`. -/
theorem runLoop_sound {σ : Type} (exec : StepExecutor σ) (workflow : Workflow) (runId : Nat) :
    ∀ (fuel : Nat) (st : LoopState) (w : World σ) (r : Except JsError LoopState)
      (w1 : World σ),
      runLoop exec workflow runId fuel st w = some (r, w1) →
      ∃ new, LoopRun exec workflow runId st w new r w1 := by
  intro fuel
  induction fuel with
  | zero =>
    intro st w r w1 h
    unfold runLoop at h
    cases hn : st.currentNode with
    | none =>
      simp only [hn] at h
      cases h
      exact ⟨[], LoopRun.exit_none st w hn⟩
    | some node =>
      simp only [hn] at h
      by_cases hlt : st.stepCount < maxSteps
      · simp [hlt] at h
      · simp only [hlt, if_false] at h
        cases h
        exact ⟨[], LoopRun.exit_ceiling st w node hn hlt⟩
  | succ fuel ih =>
    intro st w r w1 h
    unfold runLoop at h
    cases hn : st.currentNode with
    | none =>
      simp only [hn] at h
      cases h
      exact ⟨[], LoopRun.exit_none st w hn⟩
    | some node =>
      simp only [hn] at h
      by_cases hlt : st.stepCount < maxSteps
      · simp only [hlt, if_true] at h
        unfold loopBody at h
        cases ha : node.agents with
        | none =>
          simp only [ha] at h
          cases h
          exact ⟨[], LoopRun.unbound st w node hn hlt ha⟩
        | some agent =>
          simp only [ha] at h
          cases hs : stopCondition agent node with
          | true =>
            simp only [hs, if_true] at h
            cases h
            exact ⟨[], LoopRun.stop st w node agent hn hlt ha hs⟩
          | false =>
            simp only [hs] at h
            rcases he : exec agent st.currentInput w.agentState with ⟨res, s⟩
            cases res with
            | error error =>
              simp only [he] at h
              cases h
              exact ⟨_, LoopRun.exec_error st w node agent error s hn hlt ha hs he⟩
            | ok stepResult =>
              simp only [he] at h
              cases hc : isCompletionIntent stepResult.output_intent with
              | true =>
                simp only [hc, if_true] at h
                cases h
                exact ⟨_, LoopRun.complete st w node agent stepResult s hn hlt ha hs he hc⟩
              | false =>
                simp only [hc] at h
                cases hf : workflow.edges.find?
                    (edgeMatches node.id stepResult.output_intent) with
                | none =>
                  simp only [hf] at h
                  cases h
                  exact ⟨_, LoopRun.dead_end st w node agent stepResult s hn hlt ha hs he hc hf⟩
                | some nextEdge =>
                  simp only [hf] at h
                  obtain ⟨new, hrun⟩ := ih _ _ _ _ h
                  exact ⟨_, LoopRun.advance st w node agent stepResult s nextEdge new r w1
                    hn hlt ha hs he hc hf hrun⟩
      · simp only [hlt, if_false] at h
        cases h
        exact ⟨[], LoopRun.exit_ceiling st w node hn hlt⟩

/-- A pass that reaches the end of the body has counted one more step. -/
theorem loopBody_next_stepCount {σ : Type} (exec : StepExecutor σ) (workflow : Workflow)
    (runId : Nat) (node : Node) (st st1 : LoopState) (w w1 : World σ)
    (h : loopBody exec workflow runId node st w = (.ok (.next st1), w1)) :
    st1.stepCount = st.stepCount + 1 := by
  unfold loopBody at h
  split at h
  · cases h
  · split at h
    · cases h
    · split at h
      · cases h
      · split at h
        · cases h
        · split at h
          · cases h
          · cases h
            rfl

/-- Termination of the loop: with `maxSteps - stepCount` passes allowed, the loop ends. -/
theorem runLoop_total {σ : Type} (exec : StepExecutor σ) (workflow : Workflow) (runId : Nat) :
    ∀ (fuel : Nat) (st : LoopState) (w : World σ), maxSteps ≤ st.stepCount + fuel →
      ∃ out, runLoop exec workflow runId fuel st w = some out := by
  intro fuel
  induction fuel with
  | zero =>
    intro st w hle
    unfold runLoop
    cases hn : st.currentNode with
    | none => exact ⟨_, rfl⟩
    | some node =>
      have hlt : ¬ st.stepCount < maxSteps := by omega
      simp only [hlt, if_false]
      exact ⟨_, rfl⟩
  | succ fuel ih =>
    intro st w hle
    unfold runLoop
    cases hn : st.currentNode with
    | none => exact ⟨_, rfl⟩
    | some node =>
      by_cases hlt : st.stepCount < maxSteps
      · simp only [hlt, if_true]
        rcases hb : loopBody exec workflow runId node st w with ⟨res, w1⟩
        cases res with
        | error error => exact ⟨_, rfl⟩
        | ok flow =>
          cases flow with
          | brk st1 => exact ⟨_, rfl⟩
          | next st1 =>
            have hcount := loopBody_next_stepCount exec workflow runId node st st1 w w1 hb
            exact ih st1 w1 (by omega)
      · simp only [hlt, if_false]
        exact ⟨_, rfl⟩

/-! ## What a run of the loop leaves behind -/

/-- The loop appends its invocations to the trace, writes nothing but its `workflow_step`
events, and leaves the executor state to the executor. -/
theorem LoopRun.frame {σ : Type} {exec : StepExecutor σ} {workflow : Workflow} {runId : Nat}
    {st : LoopState} {w : World σ} {new : List ExecCall} {r : Except JsError LoopState}
    {w1 : World σ} (h : LoopRun exec workflow runId st w new r w1) :
    w1.calls = w.calls ++ new ∧
    w1.db.logs = w.db.logs ++ eventsOf runId st.stepCount new ∧
    w1.db.workflow_runs = w.db.workflow_runs ∧
    w1.db.run_writes = w.db.run_writes := by
  induction h with
  | exit_none st w _ => simp [eventsOf]
  | exit_ceiling st w node _ _ => simp [eventsOf]
  | unbound st w node _ _ _ => simp [eventsOf]
  | stop st w node agent _ _ _ _ => simp [eventsOf]
  | exec_error st w node agent error s _ _ _ _ _ =>
    simp [eventsOf, recordCall, callOf]
  | complete st w node agent stepResult s _ _ _ _ _ _ =>
    simp [eventsOf, recordCall, callOf, logEvent, insertLog]
  | dead_end st w node agent stepResult s _ _ _ _ _ _ _ =>
    simp [eventsOf, recordCall, callOf, logEvent, insertLog]
  | advance st w node agent stepResult s nextEdge new r w1 _ _ _ _ _ _ _ _ ih =>
    obtain ⟨h1, h2, h3, h4⟩ := ih
    refine ⟨?_, ?_, ?_, ?_⟩
    · rw [h1]; simp [recordCall, callOf, logEvent]
    · rw [h2]; simp [eventsOf, recordCall, callOf, logEvent, insertLog, advanceTo, pushStep]
    · rw [h3]; simp [recordCall, logEvent, insertLog]
    · rw [h4]; simp [recordCall, logEvent, insertLog]

/-- The loop invokes the executor at most `maxSteps - stepCount` times. -/
theorem LoopRun.calls_le {σ : Type} {exec : StepExecutor σ} {workflow : Workflow}
    {runId : Nat} {st : LoopState} {w : World σ} {new : List ExecCall}
    {r : Except JsError LoopState} {w1 : World σ}
    (h : LoopRun exec workflow runId st w new r w1) :
    new.length ≤ maxSteps - st.stepCount := by
  induction h with
  | exit_none st w _ => simp
  | exit_ceiling st w node _ _ => simp
  | unbound st w node _ _ _ => simp
  | stop st w node agent _ _ _ _ => simp
  | exec_error st w node agent error s _ hlt _ _ _ => simp; omega
  | complete st w node agent stepResult s _ hlt _ _ _ _ => simp; omega
  | dead_end st w node agent stepResult s _ hlt _ _ _ _ _ => simp; omega
  | advance st w node agent stepResult s nextEdge new r w1 _ hlt _ _ _ _ _ _ ih =>
    simp only [advanceTo, pushStep] at ih
    simp only [List.length_cons]
    omega

/-- A loop that ends normally has pushed the records of its invocations, all of them
successful. -/
theorem LoopRun.path_eq {σ : Type} {exec : StepExecutor σ} {workflow : Workflow}
    {runId : Nat} {st : LoopState} {w : World σ} {new : List ExecCall}
    {r : Except JsError LoopState} {w1 : World σ}
    (h : LoopRun exec workflow runId st w new r w1) :
    ∀ st1, r = .ok st1 →
      st1.executionPath = st.executionPath ++ recordsOf st.stepCount new ∧
      (∀ call ∈ new, ∃ stepResult, call.result = .ok stepResult) ∧
      st.stepCount + new.length ≤ st1.stepCount ∧
      st1.stepCount ≤ st.stepCount + new.length + 1 := by
  induction h with
  | exit_none st w _ => intro st1 h; cases h; simp [recordsOf]
  | exit_ceiling st w node _ _ => intro st1 h; cases h; simp [recordsOf]
  | unbound st w node _ _ _ => intro st1 h; cases h
  | stop st w node agent _ _ _ _ => intro st1 h; cases h; simp [recordsOf]
  | exec_error st w node agent error s _ _ _ _ _ => intro st1 h; cases h
  | complete st w node agent stepResult s _ _ _ _ _ _ =>
    intro st1 h; cases h; simp [recordsOf, callOf, pushStep]
  | dead_end st w node agent stepResult s _ _ _ _ _ _ _ =>
    intro st1 h; cases h; simp [recordsOf, callOf, pushStep]
  | advance st w node agent stepResult s nextEdge new r w1 _ _ _ _ _ _ _ _ ih =>
    intro st1 h
    obtain ⟨h1, h2, h3, h4⟩ := ih st1 h
    simp only [advanceTo, pushStep] at h1 h3 h4
    refine ⟨?_, ?_, ?_, ?_⟩
    · rw [h1]; simp [recordsOf, callOf]
    · intro call hc
      rcases List.mem_cons.mp hc with rfl | hc
      · exact ⟨stepResult, rfl⟩
      · exact h2 call hc
    · simp only [List.length_cons]; omega
    · simp only [List.length_cons]; omega

/-! ## The run record -/

/-- The fold of `freshRunId` is above its start value and above every key met. -/
theorem foldl_max_id_bound (rows : List WorkflowRun) :
    ∀ m : Nat, m ≤ rows.foldl (fun m row => max m (row.id + 1)) m ∧
      ∀ row ∈ rows, row.id < rows.foldl (fun m row => max m (row.id + 1)) m := by
  induction rows with
  | nil => intro m; simp
  | cons row rows ih =>
    intro m
    obtain ⟨h1, h2⟩ := ih (max m (row.id + 1))
    refine ⟨?_, ?_⟩
    · simp only [List.foldl_cons]; omega
    · intro x hx
      simp only [List.foldl_cons]
      rcases List.mem_cons.mp hx with rfl | hx
      · omega
      · exact h2 x hx

/-- The key of the inserted run is the key of no row already in `workflow_runs`. -/
theorem freshRunId_fresh (db : Db) : ∀ row ∈ db.workflow_runs, row.id ≠ freshRunId db := by
  intro row hrow
  have h := (foldl_max_id_bound db.workflow_runs 0).2 row hrow
  unfold freshRunId
  omega

/-- An update by key leaves a table without that key as it is. -/
theorem map_update_fresh (rows : List WorkflowRun) (runId : Nat)
    (f : WorkflowRun → WorkflowRun) (h : ∀ row ∈ rows, row.id ≠ runId) :
    rows.map (fun row => if row.id = runId then f row else row) = rows := by
  induction rows with
  | nil => rfl
  | cons row rows ih =>
    have h1 : row.id ≠ runId := h row (List.mem_cons_self _ _)
    have h2 := ih (fun x hx => h x (List.mem_cons_of_mem _ hx))
    simp only [List.map_cons, h1, if_false, h2]

/-- The row inserted by `runWorkflow`. -/
theorem beginRun_fst {σ : Type} (w : World σ) (workflowId : String) (workflow : Workflow)
    (initialInput : JsValue) :
    (beginRun w workflowId workflow initialInput).1 =
      { id := freshRunId w.db, workflow_id := workflowId, status := "running",
        input_data := initialInput } := rfl

/-- The world after the insert of the run and the `workflow_start` event. -/
theorem beginRun_snd {σ : Type} (w : World σ) (workflowId : String) (workflow : Workflow)
    (initialInput : JsValue) :
    (beginRun w workflowId workflow initialInput).2.calls = w.calls ∧
    (beginRun w workflowId workflow initialInput).2.agentState = w.agentState ∧
    (beginRun w workflowId workflow initialInput).2.db.workflow_runs =
      w.db.workflow_runs ++
        [{ id := freshRunId w.db, workflow_id := workflowId, status := "running",
           input_data := initialInput }] ∧
    (beginRun w workflowId workflow initialInput).2.db.logs =
      w.db.logs ++
        [{ event_type := "workflow_start", workflow_run_id := some (freshRunId w.db),
           details := .workflow_start workflowId workflow.name initialInput }] ∧
    (beginRun w workflowId workflow initialInput).2.db.run_writes =
      w.db.run_writes ++ [.insert (freshRunId w.db) "running"] :=
  ⟨rfl, rfl, rfl, rfl, rfl⟩

/-- The table `workflow_runs` after the update of the `catch` block, when the run was
inserted by this call and the loop wrote nothing to the table. -/
theorem failRun_runs (db db3 : Db) (workflowId : String) (initialInput : JsValue)
    (error : JsError)
    (h : db3.workflow_runs = db.workflow_runs ++
      [{ id := freshRunId db, workflow_id := workflowId, status := "running",
         input_data := initialInput }]) :
    (failRun db3 (freshRunId db) error).workflow_runs = db.workflow_runs ++
      [{ id := freshRunId db, workflow_id := workflowId, status := "failed",
         input_data := initialInput, error_message := some error.message }] := by
  simp only [failRun, h, List.map_append, List.map_cons, List.map_nil, if_true]
  rw [map_update_fresh _ _ _ (freshRunId_fresh db)]

/-- The table `workflow_runs` after the update of lines 213-221, when the run was
inserted by this call and the loop wrote nothing to the table. -/
theorem completeRun_runs (db db3 : Db) (workflowId : String) (initialInput : JsValue)
    (finalOutput : JsValue) (executionPath : List StepRecord)
    (h : db3.workflow_runs = db.workflow_runs ++
      [{ id := freshRunId db, workflow_id := workflowId, status := "running",
         input_data := initialInput }]) :
    (completeRun db3 (freshRunId db) finalOutput executionPath).workflow_runs =
      db.workflow_runs ++
      [{ id := freshRunId db, workflow_id := workflowId, status := "completed",
         input_data := initialInput, output_data := some finalOutput,
         execution_path := some executionPath }] := by
  simp only [completeRun, h, List.map_append, List.map_cons, List.map_nil, if_true]
  rw [map_update_fresh _ _ _ (freshRunId_fresh db)]

/-! ## `runWorkflow`, case by case -/

/-- When the workflow cannot be loaded, `runWorkflow` rethrows and does nothing else. -/
theorem runWorkflow_load_error {σ : Type} (exec : StepExecutor σ) (workflowId : String)
    (input : JsValue) (w : World σ) (error : JsError)
    (hwf : getWorkflow w.db workflowId = .error error) :
    runWorkflow exec workflowId input w = some (.error error, w) := by
  simp only [runWorkflow, hwf]

/-- When the search for the start node throws, the `catch` block runs. -/
theorem runWorkflow_start_error {σ : Type} (exec : StepExecutor σ) (workflowId : String)
    (input : JsValue) (w : World σ) (workflow : Workflow) (error : JsError)
    (hwf : getWorkflow w.db workflowId = .ok workflow)
    (hs : findStartNode workflow.nodes = .error error) :
    runWorkflow exec workflowId input w =
      some (catchBlock workflowId (freshRunId w.db) error
        (beginRun w workflowId workflow (defaultInput input)).2) := by
  simp only [runWorkflow, hwf, hs]
  rfl

/-- When no start node is found, the `catch` block runs with the error of line 141. -/
theorem runWorkflow_no_start {σ : Type} (exec : StepExecutor σ) (workflowId : String)
    (input : JsValue) (w : World σ) (workflow : Workflow)
    (hwf : getWorkflow w.db workflowId = .ok workflow)
    (hs : findStartNode workflow.nodes = .ok none) :
    runWorkflow exec workflowId input w =
      some (catchBlock workflowId (freshRunId w.db) noStartNodeError
        (beginRun w workflowId workflow (defaultInput input)).2) := by
  simp only [runWorkflow, hwf, hs]
  rfl

/-- When a start node is found, the loop runs to its end and the `try` statement is
settled on its result. -/
theorem runWorkflow_started {σ : Type} (exec : StepExecutor σ) (workflowId : String)
    (input : JsValue) (w : World σ) (workflow : Workflow) (startNode : Node)
    (hwf : getWorkflow w.db workflowId = .ok workflow)
    (hs : findStartNode workflow.nodes = .ok (some startNode)) :
    ∃ new r w3,
      LoopRun exec workflow (freshRunId w.db) (initialState startNode (defaultInput input))
        (beginRun w workflowId workflow (defaultInput input)).2 new r w3 ∧
      runWorkflow exec workflowId input w =
        some (settle workflowId (freshRunId w.db) r w3) := by
  obtain ⟨⟨r, w3⟩, hloop⟩ := runLoop_total exec workflow (freshRunId w.db) maxSteps
    (initialState startNode (defaultInput input))
    (beginRun w workflowId workflow (defaultInput input)).2 (by simp [initialState])
  obtain ⟨new, hrun⟩ := runLoop_sound exec workflow (freshRunId w.db) _ _ _ _ _ hloop
  refine ⟨new, r, w3, hrun, ?_⟩
  simp only [runWorkflow, hwf, hs]
  have hid : (beginRun w workflowId workflow (defaultInput input)).1.id = freshRunId w.db := rfl
  rw [← hid] at hloop ⊢
  simp only [hloop]

/-- What the `catch` block does to a world whose `workflow_runs` holds the run inserted
by this call. -/
theorem catchBlock_spec {σ : Type} (w w3 : World σ) (workflowId : String)
    (initialInput : JsValue) (error : JsError)
    (h : w3.db.workflow_runs = w.db.workflow_runs ++
      [{ id := freshRunId w.db, workflow_id := workflowId, status := "running",
         input_data := initialInput }]) :
    (catchBlock workflowId (freshRunId w.db) error w3).1 = .error error ∧
    (catchBlock workflowId (freshRunId w.db) error w3).2.calls = w3.calls ∧
    (catchBlock workflowId (freshRunId w.db) error w3).2.agentState = w3.agentState ∧
    (catchBlock workflowId (freshRunId w.db) error w3).2.db.workflow_runs =
      w.db.workflow_runs ++
        [{ id := freshRunId w.db, workflow_id := workflowId, status := "failed",
           input_data := initialInput, error_message := some error.message }] ∧
    (catchBlock workflowId (freshRunId w.db) error w3).2.db.logs =
      w3.db.logs ++
        [{ event_type := "workflow_error", workflow_run_id := some (freshRunId w.db),
           details := .workflow_error workflowId error.message }] ∧
    (catchBlock workflowId (freshRunId w.db) error w3).2.db.run_writes =
      w3.db.run_writes ++ [.update (freshRunId w.db) "failed"] := by
  refine ⟨rfl, rfl, rfl, ?_, rfl, rfl⟩
  exact failRun_runs w.db w3.db workflowId initialInput error h

/-- What lines 210-244 do to a world whose `workflow_runs` holds the run inserted by
this call. -/
theorem completion_spec {σ : Type} (w w3 : World σ) (workflowId : String)
    (initialInput : JsValue) (st : LoopState)
    (h : w3.db.workflow_runs = w.db.workflow_runs ++
      [{ id := freshRunId w.db, workflow_id := workflowId, status := "running",
         input_data := initialInput }]) :
    (completion workflowId (freshRunId w.db) st w3).1 =
      .ok { run_id := freshRunId w.db, status := "completed",
            execution_path := st.executionPath,
            final_output := finalOutputOf st.executionPath,
            total_steps := st.stepCount } ∧
    (completion workflowId (freshRunId w.db) st w3).2.calls = w3.calls ∧
    (completion workflowId (freshRunId w.db) st w3).2.agentState = w3.agentState ∧
    (completion workflowId (freshRunId w.db) st w3).2.db.workflow_runs =
      w.db.workflow_runs ++
        [{ id := freshRunId w.db, workflow_id := workflowId, status := "completed",
           input_data := initialInput,
           output_data := some (finalOutputOf st.executionPath),
           execution_path := some st.executionPath }] ∧
    (completion workflowId (freshRunId w.db) st w3).2.db.logs =
      w3.db.logs ++
        [{ event_type := "workflow_complete", workflow_run_id := some (freshRunId w.db),
           details := .workflow_complete workflowId st.executionPath
             (finalOutputOf st.executionPath) st.stepCount }] ∧
    (completion workflowId (freshRunId w.db) st w3).2.db.run_writes =
      w3.db.run_writes ++ [.update (freshRunId w.db) "completed"] := by
  refine ⟨rfl, rfl, rfl, ?_, rfl, rfl⟩
  exact completeRun_runs w.db w3.db workflowId initialInput _ _ h

/-! ## The start node -/

/-- A name that lowercases to `routeragent` contains `router`. -/
theorem includes_router_of_routeragent (name : String)
    (h : toLowerCase name = "routeragent".toList) :
    includes (toLowerCase name) "router".toList = true := by
  rw [h]
  decide

/-- The search finds nothing when every node has an agent and fails the test. -/
theorem findStartNode_none (nodes : List Node)
    (h : ∀ node ∈ nodes, ∃ agent, node.agents = some agent ∧
      startCondition agent node = false) :
    findStartNode nodes = .ok none := by
  induction nodes with
  | nil => rfl
  | cons node rest ih =>
    obtain ⟨agent, ha, hc⟩ := h node (List.mem_cons_self _ _)
    have hrest := ih (fun x hx => h x (List.mem_cons_of_mem _ hx))
    simp only [findStartNode, ha, hc, hrest]
    rfl

/-- The test of the search, in words: the type is `start` or the name contains
`router`. The third disjunct of the source is covered by the second. -/
theorem startCondition_eq_false (agent : Agent) (node : Node)
    (htype : node.node_type ≠ "start")
    (hname : includes (toLowerCase agent.name) "router".toList = false) :
    startCondition agent node = false := by
  have h3 : (toLowerCase agent.name == "routeragent".toList) = false := by
    cases hb : (toLowerCase agent.name == "routeragent".toList) with
    | false => rfl
    | true =>
      have := includes_router_of_routeragent agent.name (by simpa using hb)
      rw [hname] at this
      cases this
  have h2 : (node.node_type == "start") = false := by simpa using htype
  simp only [startCondition, hname, h2, h3, Bool.or_self]

/-! ## C1: a workflow without entry node -/

/-- C1, amended: for a workflow whose nodes all have an agent and none of which is of
type `start` or has a name containing `router`, `runWorkflow` fails with the error of
line 141, raised inside the `try` statement: the run record was inserted before, with
status `running`, and the `catch` block marks it `failed` with that message and logs
`workflow_error`; the executor is not invoked. -/
theorem runWorkflow_no_entry {σ : Type} (exec : StepExecutor σ) (workflowId : String)
    (input : JsValue) (w : World σ) (workflow : Workflow)
    (hwf : getWorkflow w.db workflowId = .ok workflow)
    (hbound : ∀ node ∈ workflow.nodes, node.agents ≠ none)
    (hno : ∀ node ∈ workflow.nodes, node.node_type ≠ "start" ∧
      ∀ agent, node.agents = some agent →
        includes (toLowerCase agent.name) "router".toList = false) :
    ∃ w1, runWorkflow exec workflowId input w = some (.error noStartNodeError, w1) ∧
      w1.db.workflow_runs = w.db.workflow_runs ++
        [{ id := freshRunId w.db, workflow_id := workflowId, status := "failed",
           input_data := defaultInput input,
           error_message := some "No starting node found in workflow" }] ∧
      w1.db.run_writes = w.db.run_writes ++
        [.insert (freshRunId w.db) "running", .update (freshRunId w.db) "failed"] ∧
      w1.db.logs = w.db.logs ++
        [{ event_type := "workflow_start", workflow_run_id := some (freshRunId w.db),
           details := .workflow_start workflowId workflow.name (defaultInput input) },
         { event_type := "workflow_error", workflow_run_id := some (freshRunId w.db),
           details := .workflow_error workflowId "No starting node found in workflow" }] ∧
      w1.calls = w.calls := by
  have hnone : findStartNode workflow.nodes = .ok none := by
    apply findStartNode_none
    intro node hnode
    cases ha : node.agents with
    | none => exact absurd ha (hbound node hnode)
    | some agent =>
      exact ⟨agent, rfl, startCondition_eq_false agent node (hno node hnode).1
        ((hno node hnode).2 agent ha)⟩
  have hrun := runWorkflow_no_start exec workflowId input w workflow hwf hnone
  obtain ⟨b1, b2, b3, b4, b5⟩ := beginRun_snd w workflowId workflow (defaultInput input)
  obtain ⟨c1, c2, c3, c4, c5, c6⟩ := catchBlock_spec w
    (beginRun w workflowId workflow (defaultInput input)).2 workflowId (defaultInput input)
    noStartNodeError b3
  refine ⟨(catchBlock workflowId (freshRunId w.db) noStartNodeError
    (beginRun w workflowId workflow (defaultInput input)).2).2, ?_, ?_, ?_, ?_, ?_⟩
  · rw [hrun, ← c1]
  · rw [c4]; rfl
  · rw [c6, b5]; simp
  · rw [c5, b4]; simp; rfl
  · rw [c2, b1]

/-- C1, witness: the workflow made of one `AuthAgent` node. -/
theorem runWorkflow_no_entry_witness :
    ∃ w1, runWorkflow (constExec .null "go") "wf" emptyObject (exampleWorld [authNode] []) =
        some (.error noStartNodeError, w1) ∧
      w1.db.workflow_runs = (exampleWorld [authNode] []).db.workflow_runs ++
        [{ id := freshRunId (exampleWorld [authNode] []).db, workflow_id := "wf",
           status := "failed", input_data := defaultInput emptyObject,
           error_message := some "No starting node found in workflow" }] ∧
      w1.db.run_writes = (exampleWorld [authNode] []).db.run_writes ++
        [.insert (freshRunId (exampleWorld [authNode] []).db) "running",
         .update (freshRunId (exampleWorld [authNode] []).db) "failed"] ∧
      w1.db.logs = (exampleWorld [authNode] []).db.logs ++
        [{ event_type := "workflow_start",
           workflow_run_id := some (freshRunId (exampleWorld [authNode] []).db),
           details := .workflow_start "wf" (exampleWorkflow [authNode] []).name
             (defaultInput emptyObject) },
         { event_type := "workflow_error",
           workflow_run_id := some (freshRunId (exampleWorld [authNode] []).db),
           details := .workflow_error "wf" "No starting node found in workflow" }] ∧
      w1.calls = (exampleWorld [authNode] []).calls :=
  runWorkflow_no_entry (constExec .null "go") "wf" emptyObject (exampleWorld [authNode] [])
    (exampleWorkflow [authNode] []) rfl
    (by intro node hnode
        simp only [exampleWorkflow, List.mem_singleton] at hnode
        subst hnode
        simp [authNode])
    (by intro node hnode
        simp only [exampleWorkflow, List.mem_singleton] at hnode
        subst hnode
        refine ⟨by decide, ?_⟩
        intro agent hagent
        simp only [authNode, Option.some.injEq] at hagent
        subst hagent
        decide)

/-- C1, counterexample: the workflow made of one `AuthAgent` node has no entry node, and
`runWorkflow` fails on it with the error of line 141, but `workflow_runs`, empty before
the call, holds one row after it. -/
theorem runWorkflow_no_entry_counterexample :
    getWorkflow (exampleWorld [authNode] []).db "wf" = .ok (exampleWorkflow [authNode] []) ∧
    (∀ node ∈ (exampleWorkflow [authNode] []).nodes, node.node_type ≠ "start" ∧
      ∀ agent, node.agents = some agent →
        includes (toLowerCase agent.name) "router".toList = false) ∧
    ∃ w1, runWorkflow (constExec .null "go") "wf" emptyObject (exampleWorld [authNode] []) =
        some (.error noStartNodeError, w1) ∧
      (exampleWorld [authNode] []).db.workflow_runs.length = 0 ∧
      w1.db.workflow_runs.length = 1 := by
  refine ⟨rfl, ?_, _, rfl, rfl, rfl⟩
  intro node hnode
  simp only [exampleWorkflow, List.mem_singleton] at hnode
  subst hnode
  refine ⟨by decide, ?_⟩
  intro agent hagent
  simp only [authNode, Option.some.injEq] at hagent
  subst hagent
  decide

/-! ## C2: termination and the step ceiling -/

/-- Settling the `try` statement invokes no executor. -/
theorem settle_calls {σ : Type} (workflowId : String) (runId : Nat)
    (r : Except JsError LoopState) (w : World σ) :
    (settle workflowId runId r w).2.calls = w.calls := by
  cases r <;> rfl

/-- What `runWorkflow` returns when the loop ends normally. -/
theorem settle_ok {σ : Type} (workflowId : String) (runId : Nat) (st : LoopState)
    (w : World σ) :
    (settle workflowId runId (.ok st) w).1 =
      .ok { run_id := runId, status := "completed", execution_path := st.executionPath,
            final_output := finalOutputOf st.executionPath, total_steps := st.stepCount } :=
  rfl

/-- What `runWorkflow` throws when the loop throws. -/
theorem settle_error {σ : Type} (workflowId : String) (runId : Nat) (error : JsError)
    (w : World σ) :
    (settle workflowId runId (.error error) w).1 = .error error :=
  rfl

/-- A trace yields at most one record for each invocation. -/
theorem recordsOf_length_le (new : List ExecCall) :
    ∀ k, (recordsOf k new).length ≤ new.length := by
  induction new with
  | nil => intro k; simp [recordsOf]
  | cons call rest ih =>
    intro k
    have := ih (k + 1)
    unfold recordsOf
    split
    · simp only [List.length_cons]; omega
    · simp only [List.length_cons]; omega

/-- C2: for every workflow id, input, executor and world, `runWorkflow` ends (the loop
is over within `maxSteps` passes, also on a cyclic graph); the executor is invoked at
most 10 times, at most 10 records are pushed on `executionPath`, and a returned
`execution_path` is made of those records. -/
theorem runWorkflow_terminates {σ : Type} (exec : StepExecutor σ) (workflowId : String)
    (input : JsValue) (w : World σ) :
    ∃ r w1 new, runWorkflow exec workflowId input w = some (r, w1) ∧
      w1.calls = w.calls ++ new ∧
      new.length ≤ 10 ∧
      (recordsOf 0 new).length ≤ 10 ∧
      ∀ res, r = .ok res →
        res.execution_path = recordsOf 0 new ∧ res.execution_path.length ≤ 10 := by
  cases hwf : getWorkflow w.db workflowId with
  | error error =>
    refine ⟨.error error, w, [], runWorkflow_load_error exec workflowId input w error hwf,
      by simp, by simp, by simp [recordsOf], ?_⟩
    intro res h; cases h
  | ok workflow =>
    cases hs : findStartNode workflow.nodes with
    | error error =>
      refine ⟨_, _, [], runWorkflow_start_error exec workflowId input w workflow error hwf hs,
        by simp [catchBlock, beginRun, logEvent], by simp, by simp [recordsOf], ?_⟩
      intro res h; cases h
    | ok found =>
      cases found with
      | none =>
        refine ⟨_, _, [], runWorkflow_no_start exec workflowId input w workflow hwf hs,
          by simp [catchBlock, beginRun, logEvent], by simp, by simp [recordsOf], ?_⟩
        intro res h; cases h
      | some startNode =>
        obtain ⟨new, r, w3, hloop, hrun⟩ :=
          runWorkflow_started exec workflowId input w workflow startNode hwf hs
        have hcalls := hloop.frame.1
        have hle := hloop.calls_le
        have hle10 : new.length ≤ 10 := by
          simp only [initialState, maxSteps] at hle
          omega
        have hrec := recordsOf_length_le new 0
        refine ⟨(settle workflowId (freshRunId w.db) r w3).1,
          (settle workflowId (freshRunId w.db) r w3).2, new, hrun, ?_, hle10, by omega, ?_⟩
        · rw [settle_calls, hcalls]
          rfl
        · intro res hres
          cases r with
          | error error => rw [settle_error] at hres; cases hres
          | ok st =>
            rw [settle_ok] at hres
            cases hres
            have hp := (hloop.path_eq st rfl).1
            simp only [initialState, List.nil_append] at hp
            refine ⟨hp, ?_⟩
            show st.executionPath.length ≤ 10
            rw [hp]
            omega

/-! ## C3: the step ceiling -/

/-- The completion test, in words. -/
theorem isCompletionIntent_eq_false (intent : String)
    (h1 : intent ≠ "workflow_complete") (h2 : intent ≠ "workflow_end") :
    isCompletionIntent intent = false := by
  simp [isCompletionIntent, h1, h2]

/-- The completion test, in words. -/
theorem isCompletionIntent_eq_true (intent : String) :
    isCompletionIntent intent = true ↔
      intent = "workflow_complete" ∨ intent = "workflow_end" := by
  simp [isCompletionIntent]

/-- When every invocation of a trace succeeded, there is one record for each, and the
steps of the records count up from `k + 1`. -/
theorem recordsOf_ok (new : List ExecCall) :
    ∀ k, (∀ call ∈ new, ∃ stepResult, call.result = .ok stepResult) →
      (recordsOf k new).length = new.length ∧
      ∀ i record, (recordsOf k new)[i]? = some record → record.step = k + i + 1 := by
  induction new with
  | nil => intro k _; simp [recordsOf]
  | cons call rest ih =>
    intro k hok
    obtain ⟨stepResult, hres⟩ := hok call (List.mem_cons_self _ _)
    obtain ⟨h1, h2⟩ := ih (k + 1) (fun c hc => hok c (List.mem_cons_of_mem _ hc))
    simp only [recordsOf, hres, List.length_cons, h1, true_and]
    intro i record hget
    cases i with
    | zero =>
      simp only [List.getElem?_cons_zero, Option.some.injEq] at hget
      subst hget
      rfl
    | succ i =>
      simp only [List.getElem?_cons_succ] at hget
      have := h2 i record hget
      omega

/-- Under the hypothesis of the step ceiling, the loop runs up to the ceiling. -/
theorem LoopRun.ceiling {σ : Type} {exec : StepExecutor σ} {workflow : Workflow}
    {runId : Nat} {S : Nat → Node → JsValue → σ → Prop} (hS : StepsGoOn exec workflow S)
    {st : LoopState} {w : World σ} {new : List ExecCall} {r : Except JsError LoopState}
    {w1 : World σ} (h : LoopRun exec workflow runId st w new r w1) :
    ∀ node agent, st.currentNode = some node → node.agents = some agent →
      stopCondition agent node = false → st.stepCount ≤ maxSteps →
      S st.stepCount node st.currentInput w.agentState →
      ∃ st1, r = .ok st1 ∧ st1.stepCount = maxSteps ∧
        new.length = maxSteps - st.stepCount := by
  induction h with
  | exit_none st w hn => intro node agent hnode; rw [hn] at hnode; cases hnode
  | exit_ceiling st w node' hn hlt =>
    intro node agent _ _ _ hle _
    exact ⟨st, rfl, by omega, by simp; omega⟩
  | unbound st w node' hn hlt ha =>
    intro node agent hnode hagent
    rw [hn] at hnode; cases hnode
    rw [ha] at hagent; cases hagent
  | stop st w node' agent' hn hlt ha hstop =>
    intro node agent hnode hagent hs
    rw [hn] at hnode; cases hnode
    rw [ha] at hagent; cases hagent
    rw [hstop] at hs; cases hs
  | exec_error st w node' agent' error s hn hlt ha hstop he =>
    intro node agent hnode hagent _ _ hsit
    rw [hn] at hnode; cases hnode
    obtain ⟨a, sr, s1, e, n1, a1, h1, h2, _⟩ := hS _ _ _ _ hlt hsit
    rw [ha] at h1; cases h1
    rw [he] at h2; cases h2
  | complete st w node' agent' stepResult s hn hlt ha hstop he hc =>
    intro node agent hnode hagent _ _ hsit
    rw [hn] at hnode; cases hnode
    obtain ⟨a, sr, s1, e, n1, a1, h1, h2, h3, h4, _⟩ := hS _ _ _ _ hlt hsit
    rw [ha] at h1; cases h1
    rw [he] at h2; cases h2
    rw [isCompletionIntent_eq_false _ h3 h4] at hc; cases hc
  | dead_end st w node' agent' stepResult s hn hlt ha hstop he hc hf =>
    intro node agent hnode hagent _ _ hsit
    rw [hn] at hnode; cases hnode
    obtain ⟨a, sr, s1, e, n1, a1, h1, h2, h3, h4, h5, _⟩ := hS _ _ _ _ hlt hsit
    rw [ha] at h1; cases h1
    rw [he] at h2; cases h2
    rw [hf] at h5; cases h5
  | advance st w node' agent' stepResult s nextEdge new r w1 hn hlt ha hstop he hc hf
      hrun ih =>
    intro node agent hnode hagent _ _ hsit
    rw [hn] at hnode; cases hnode
    obtain ⟨a, sr, s1, e, n1, a1, h1, h2, h3, h4, h5, h6, h7, h8, h9⟩ := hS _ _ _ _ hlt hsit
    rw [ha] at h1; cases h1
    rw [he] at h2; cases h2
    rw [hf] at h5; cases h5
    obtain ⟨st1, hr, hcount, hlen⟩ := ih n1 a1 h6 h7 h8
      (by simp only [advanceTo, pushStep]; omega) h9
    refine ⟨st1, hr, hcount, ?_⟩
    simp only [advanceTo, pushStep] at hlen
    simp only [List.length_cons]
    omega

/-- The last element of a path of ten records is its tenth element. -/
theorem getLast?_of_length_ten (path : List StepRecord) (h : path.length = 10) :
    ∃ last, path.getLast? = some last ∧ path[9]? = some last := by
  have h9 : 9 < path.length := by omega
  refine ⟨path[9], ?_, List.getElem?_eq_getElem h9⟩
  rw [List.getLast?_eq_getElem?, h]
  exact List.getElem?_eq_getElem h9

/-- The final output, from the last record of the path. -/
theorem finalOutputOf_of_getLast? (path : List StepRecord) (last : StepRecord)
    (h : path.getLast? = some last) :
    (last.output.truthy = true → finalOutputOf path = last.output) ∧
    (last.output.truthy = false → finalOutputOf path = emptyObject) := by
  simp only [finalOutputOf, h, JsValue.or]
  constructor
  · intro ht; simp [ht]
  · intro hf; simp [hf]

/-- C3, amended: when the run starts on an entry node that has an agent and is neither a
stop node nor an end node, and every executed step succeeds with an intent that is
neither `workflow_complete` nor `workflow_end` and whose first matching edge leads to
an existing node that is neither a stop node nor an end node, `runWorkflow` returns
status `completed` with exactly 10 records, `total_steps = 10`, and a final output that
is the output of the 10th step when that output is truthy and `{}` when it is falsy. -/
theorem runWorkflow_step_ceiling {σ : Type} (exec : StepExecutor σ) (workflowId : String)
    (input : JsValue) (w : World σ) (workflow : Workflow) (startNode : Node)
    (startAgent : Agent) (S : Nat → Node → JsValue → σ → Prop)
    (hwf : getWorkflow w.db workflowId = .ok workflow)
    (hstart : findStartNode workflow.nodes = .ok (some startNode))
    (hagent : startNode.agents = some startAgent)
    (hnostop : stopCondition startAgent startNode = false)
    (h0 : S 0 startNode (defaultInput input) w.agentState)
    (hS : StepsGoOn exec workflow S) :
    ∃ res w1 last, runWorkflow exec workflowId input w = some (.ok res, w1) ∧
      res.status = "completed" ∧
      res.execution_path.length = 10 ∧
      res.total_steps = 10 ∧
      res.execution_path.getLast? = some last ∧
      last.step = 10 ∧
      (last.output.truthy = true → res.final_output = last.output) ∧
      (last.output.truthy = false → res.final_output = emptyObject) := by
  obtain ⟨new, r, w3, hloop, hrun⟩ :=
    runWorkflow_started exec workflowId input w workflow startNode hwf hstart
  obtain ⟨st1, hr, hcount, hlen⟩ := hloop.ceiling hS startNode startAgent rfl hagent hnostop
    (by simp [initialState]) h0
  subst hr
  obtain ⟨hpath, hok, _, _⟩ := hloop.path_eq st1 rfl
  simp only [initialState, List.nil_append] at hpath
  obtain ⟨hreclen, hsteps⟩ := recordsOf_ok new 0 hok
  have hplen : st1.executionPath.length = 10 := by
    rw [hpath, hreclen, hlen]
    rfl
  obtain ⟨last, hlast, h9⟩ := getLast?_of_length_ten st1.executionPath hplen
  have hstep : last.step = 10 := by
    rw [hpath] at h9
    have := hsteps 9 last h9
    omega
  obtain ⟨ht, hf⟩ := finalOutputOf_of_getLast? st1.executionPath last hlast
  exact ⟨_, (settle workflowId (freshRunId w.db) (.ok st1) w3).2, last, hrun, rfl, hplen,
    hcount, hlast, hstep, ht, hf⟩

/-- The intent `go` is not `workflow_complete`. -/
theorem go_ne_complete : ("go" : String) ≠ "workflow_complete" := by decide

/-- The intent `go` is not `workflow_end`. -/
theorem go_ne_end : ("go" : String) ≠ "workflow_end" := by decide

/-- On the cycle, with an executor that always answers `go`, every step goes on. -/
theorem cycle_stepsGoOn (output : JsValue) :
    StepsGoOn (constExec output "go") cycleWorkflow onCycle := by
  intro k node input s _ hnode
  rcases hnode with rfl | rfl
  · exact ⟨routerAgent, { output := output, output_intent := "go" }, (),
      edge "node-router" "node-auth" "go", authNode, authAgent,
      rfl, rfl, go_ne_complete, go_ne_end, rfl, rfl, rfl, rfl, Or.inr rfl⟩
  · exact ⟨authAgent, { output := output, output_intent := "go" }, (),
      edge "node-auth" "node-router" "go", routerNode, routerAgent,
      rfl, rfl, go_ne_complete, go_ne_end, rfl, rfl, rfl, rfl, Or.inl rfl⟩

/-- C3, witness: the cycle between the router node and the auth node, with an executor
that always answers `go` with output `null`. -/
theorem runWorkflow_step_ceiling_witness :
    ∃ res w1 last, runWorkflow (constExec .null "go") "wf" emptyObject cycleWorld =
        some (.ok res, w1) ∧
      res.status = "completed" ∧
      res.execution_path.length = 10 ∧
      res.total_steps = 10 ∧
      res.execution_path.getLast? = some last ∧
      last.step = 10 ∧
      (last.output.truthy = true → res.final_output = last.output) ∧
      (last.output.truthy = false → res.final_output = emptyObject) :=
  runWorkflow_step_ceiling (constExec .null "go") "wf" emptyObject cycleWorld cycleWorkflow
    routerNode routerAgent onCycle rfl rfl rfl rfl (Or.inl rfl) (cycle_stepsGoOn .null)

/-- C3, counterexample: on the cycle, with an executor that always answers `go` with
output `null`, every step goes on and the run returns 10 records, the last of which has
output `null`, but the final output is `{}`. -/
theorem runWorkflow_step_ceiling_counterexample :
    StepsGoOn (constExec .null "go") cycleWorkflow onCycle ∧
    ∃ res w1 last, runWorkflow (constExec .null "go") "wf" emptyObject cycleWorld =
        some (.ok res, w1) ∧
      res.execution_path.length = 10 ∧
      res.execution_path.getLast? = some last ∧
      last.output = .null ∧
      res.final_output = .object [] ∧
      res.final_output ≠ last.output := by
  refine ⟨cycle_stepsGoOn .null, _, _, _, rfl, rfl, rfl, rfl, rfl, ?_⟩
  intro h
  cases h

/-! ## Every outcome of `runWorkflow` -/

/-- Every outcome of `runWorkflow` comes from one of three paths: the workflow does not
load; the search for the start node throws or finds nothing; the loop runs and the
`try` statement is settled on its result. -/
theorem runWorkflow_inv {σ : Type} {exec : StepExecutor σ} {workflowId : String}
    {input : JsValue} {w : World σ} {r : Except JsError RunResult} {w1 : World σ}
    (h : runWorkflow exec workflowId input w = some (r, w1)) :
    (∃ error, getWorkflow w.db workflowId = .error error ∧ r = .error error ∧ w1 = w) ∨
    (∃ workflow error, getWorkflow w.db workflowId = .ok workflow ∧
      (findStartNode workflow.nodes = .error error ∨
        (findStartNode workflow.nodes = .ok none ∧ error = noStartNodeError)) ∧
      (r, w1) = catchBlock workflowId (freshRunId w.db) error
        (beginRun w workflowId workflow (defaultInput input)).2) ∨
    (∃ workflow startNode new rl w3, getWorkflow w.db workflowId = .ok workflow ∧
      findStartNode workflow.nodes = .ok (some startNode) ∧
      LoopRun exec workflow (freshRunId w.db) (initialState startNode (defaultInput input))
        (beginRun w workflowId workflow (defaultInput input)).2 new rl w3 ∧
      (r, w1) = settle workflowId (freshRunId w.db) rl w3) := by
  cases hwf : getWorkflow w.db workflowId with
  | error error =>
    rw [runWorkflow_load_error exec workflowId input w error hwf] at h
    cases h
    exact Or.inl ⟨error, rfl, rfl, rfl⟩
  | ok workflow =>
    cases hs : findStartNode workflow.nodes with
    | error error =>
      rw [runWorkflow_start_error exec workflowId input w workflow error hwf hs] at h
      exact Or.inr (Or.inl ⟨workflow, error, rfl, Or.inl hs, (Option.some.inj h).symm⟩)
    | ok found =>
      cases found with
      | none =>
        rw [runWorkflow_no_start exec workflowId input w workflow hwf hs] at h
        exact Or.inr (Or.inl ⟨workflow, noStartNodeError, rfl, Or.inr ⟨hs, rfl⟩,
          (Option.some.inj h).symm⟩)
      | some startNode =>
        obtain ⟨new, rl, w3, hloop, hrun⟩ :=
          runWorkflow_started exec workflowId input w workflow startNode hwf hs
        rw [hrun] at h
        exact Or.inr (Or.inr ⟨workflow, startNode, new, rl, w3, rfl, hs, hloop,
          (Option.some.inj h).symm⟩)

/-- The invocations of a run are those of its loop: when the trace grew by `new` and
`new` is not empty, the loop ran and invoked the executor as listed in `new`. -/
theorem runWorkflow_calls_inv {σ : Type} {exec : StepExecutor σ} {workflowId : String}
    {input : JsValue} {w : World σ} {r : Except JsError RunResult} {w1 : World σ}
    {new : List ExecCall}
    (h : runWorkflow exec workflowId input w = some (r, w1))
    (hnew : w1.calls = w.calls ++ new) (hne : new ≠ []) :
    ∃ workflow startNode rl w3, getWorkflow w.db workflowId = .ok workflow ∧
      findStartNode workflow.nodes = .ok (some startNode) ∧
      LoopRun exec workflow (freshRunId w.db) (initialState startNode (defaultInput input))
        (beginRun w workflowId workflow (defaultInput input)).2 new rl w3 ∧
      (r, w1) = settle workflowId (freshRunId w.db) rl w3 := by
  rcases runWorkflow_inv h with ⟨error, _, _, hw⟩ | ⟨workflow, error, _, _, hc⟩ |
    ⟨workflow, startNode, new', rl, w3, hwf, hs, hloop, hsettle⟩
  · subst hw
    exact absurd (List.self_eq_append_right.mp hnew) hne
  · have hw : w1 = (catchBlock workflowId (freshRunId w.db) error
        (beginRun w workflowId workflow (defaultInput input)).2).2 := by rw [← hc]
    have hcalls : w1.calls = w.calls := by rw [hw]; rfl
    rw [hcalls] at hnew
    exact absurd (List.self_eq_append_right.mp hnew) hne
  · have hw : w1 = (settle workflowId (freshRunId w.db) rl w3).2 := by rw [← hsettle]
    have hcalls : w1.calls = w.calls ++ new' := by
      rw [hw, settle_calls, hloop.frame.1]
      rfl
    rw [hcalls] at hnew
    have : new' = new := List.append_cancel_left hnew
    subst this
    exact ⟨workflow, startNode, rl, w3, hwf, hs, hloop, hsettle⟩

/-- A run that returns went through the loop, which ended normally. -/
theorem runWorkflow_ok_inv {σ : Type} {exec : StepExecutor σ} {workflowId : String}
    {input : JsValue} {w : World σ} {res : RunResult} {w1 : World σ}
    (h : runWorkflow exec workflowId input w = some (.ok res, w1)) :
    ∃ workflow startNode new st w3, getWorkflow w.db workflowId = .ok workflow ∧
      findStartNode workflow.nodes = .ok (some startNode) ∧
      LoopRun exec workflow (freshRunId w.db) (initialState startNode (defaultInput input))
        (beginRun w workflowId workflow (defaultInput input)).2 new (.ok st) w3 ∧
      res = { run_id := freshRunId w.db, status := "completed",
              execution_path := st.executionPath,
              final_output := finalOutputOf st.executionPath,
              total_steps := st.stepCount } ∧
      w1 = (completion workflowId (freshRunId w.db) st w3).2 ∧
      w1.calls = w.calls ++ new := by
  rcases runWorkflow_inv h with ⟨error, _, hr, _⟩ | ⟨workflow, error, _, _, hc⟩ |
    ⟨workflow, startNode, new, rl, w3, hwf, hs, hloop, hsettle⟩
  · cases hr
  · have hr : Except.ok res = (catchBlock workflowId (freshRunId w.db) error
        (beginRun w workflowId workflow (defaultInput input)).2).1 := by rw [← hc]
    cases hr
  · cases rl with
    | error error =>
      have hr : Except.ok res = (settle workflowId (freshRunId w.db) (.error error) w3).1 := by
        rw [← hsettle]
      cases hr
    | ok st =>
      have hr : Except.ok res = (settle workflowId (freshRunId w.db) (.ok st) w3).1 := by
        rw [← hsettle]
      have hw : w1 = (settle workflowId (freshRunId w.db) (.ok st) w3).2 := by
        rw [← hsettle]
      rw [settle_ok] at hr
      refine ⟨workflow, startNode, new, st, w3, hwf, hs, hloop, Except.ok.inj hr, hw, ?_⟩
      rw [hw, settle_calls, hloop.frame.1]
      rfl

/-! ## C4: the step ordinals -/

/-- C4: in the `execution_path` a run of `runWorkflow` returns, the record at position
`i` (counted from 0) has `step = i + 1`: the ordinals start at 1 and go up by 1. -/
theorem runWorkflow_steps_contiguous {σ : Type} (exec : StepExecutor σ)
    (workflowId : String) (input : JsValue) (w : World σ) (res : RunResult) (w1 : World σ)
    (h : runWorkflow exec workflowId input w = some (.ok res, w1)) :
    ∀ i record, res.execution_path[i]? = some record → record.step = i + 1 := by
  obtain ⟨workflow, startNode, new, st, w3, _, _, hloop, hres, _, _⟩ := runWorkflow_ok_inv h
  obtain ⟨hpath, hok, _, _⟩ := hloop.path_eq st rfl
  simp only [initialState, List.nil_append] at hpath
  intro i record hget
  rw [hres] at hget
  simp only [hpath] at hget
  have := (recordsOf_ok new 0 hok).2 i record hget
  omega

/-- C4, witness: the run of ten steps on the cycle; its second record has step 2. -/
theorem runWorkflow_steps_contiguous_witness :
    ∃ res w1 record, runWorkflow (constExec .null "go") "wf" emptyObject cycleWorld =
        some (.ok res, w1) ∧
      res.execution_path[1]? = some record ∧ record.step = 1 + 1 :=
  ⟨_, _, _, rfl, rfl,
    runWorkflow_steps_contiguous (constExec .null "go") "wf" emptyObject cycleWorld _ _ rfl
      1 _ rfl⟩

/-! ## C5: routing by the first matching edge -/

/-- How the invocations of a loop run are linked: the first one is on the current node
with the current input; each is on a node that has that agent and passes the stop
test; and between two consecutive ones, the earlier succeeded with an intent that is no
completion marker, whose first matching edge leads to the node of the later one, which
got the output of the earlier as its input. -/
theorem LoopRun.links {σ : Type} {exec : StepExecutor σ} {workflow : Workflow}
    {runId : Nat} {st : LoopState} {w : World σ} {new : List ExecCall}
    {r : Except JsError LoopState} {w1 : World σ}
    (h : LoopRun exec workflow runId st w new r w1) :
    (∀ call, new[0]? = some call →
      st.currentNode = some call.node ∧ call.input = st.currentInput) ∧
    (∀ call ∈ new, call.node.agents = some call.agent ∧
      stopCondition call.agent call.node = false) ∧
    (∀ i c1 c2, new[i]? = some c1 → new[i + 1]? = some c2 →
      ∃ stepResult nextEdge, c1.result = .ok stepResult ∧
        isCompletionIntent stepResult.output_intent = false ∧
        workflow.edges.find? (edgeMatches c1.node.id stepResult.output_intent) =
          some nextEdge ∧
        workflow.nodes.find? (fun n => n.id == nextEdge.to_node_id) = some c2.node ∧
        c2.input = stepResult.output) := by
  induction h with
  | exit_none st w _ => simp
  | exit_ceiling st w node _ _ => simp
  | unbound st w node _ _ _ => simp
  | stop st w node agent _ _ _ _ => simp
  | exec_error st w node agent error s hn _ ha hstop _ =>
    refine ⟨?_, ?_, ?_⟩
    · intro call hc
      simp only [List.getElem?_cons_zero, Option.some.injEq] at hc
      subst hc
      exact ⟨hn, rfl⟩
    · intro call hc
      simp only [List.mem_singleton] at hc
      subst hc
      exact ⟨ha, hstop⟩
    · intro i c1 c2 _ h2
      simp at h2
  | complete st w node agent stepResult s hn _ ha hstop _ _ =>
    refine ⟨?_, ?_, ?_⟩
    · intro call hc
      simp only [List.getElem?_cons_zero, Option.some.injEq] at hc
      subst hc
      exact ⟨hn, rfl⟩
    · intro call hc
      simp only [List.mem_singleton] at hc
      subst hc
      exact ⟨ha, hstop⟩
    · intro i c1 c2 _ h2
      simp at h2
  | dead_end st w node agent stepResult s hn _ ha hstop _ _ _ =>
    refine ⟨?_, ?_, ?_⟩
    · intro call hc
      simp only [List.getElem?_cons_zero, Option.some.injEq] at hc
      subst hc
      exact ⟨hn, rfl⟩
    · intro call hc
      simp only [List.mem_singleton] at hc
      subst hc
      exact ⟨ha, hstop⟩
    · intro i c1 c2 _ h2
      simp at h2
  | advance st w node agent stepResult s nextEdge new r w1 hn _ ha hstop _ hc hf _ ih =>
    obtain ⟨ih1, ih2, ih3⟩ := ih
    refine ⟨?_, ?_, ?_⟩
    · intro call hcall
      simp only [List.getElem?_cons_zero, Option.some.injEq] at hcall
      subst hcall
      exact ⟨hn, rfl⟩
    · intro call hcall
      rcases List.mem_cons.mp hcall with rfl | hcall
      · exact ⟨ha, hstop⟩
      · exact ih2 call hcall
    · intro i c1 c2 h1 h2
      cases i with
      | zero =>
        simp only [List.getElem?_cons_zero, Option.some.injEq] at h1
        subst h1
        simp only [Nat.zero_add, List.getElem?_cons_succ] at h2
        obtain ⟨hnode, hinput⟩ := ih1 c2 h2
        simp only [advanceTo, pushStep] at hnode hinput
        exact ⟨stepResult, nextEdge, rfl, hc, hf, hnode, hinput⟩
      | succ i =>
        simp only [List.getElem?_cons_succ] at h1 h2
        exact ih3 i c1 c2 h1 h2

/-- When every invocation of a trace succeeded, the record at position `i` is the record
of the invocation at position `i`. -/
theorem recordsOf_getElem? (new : List ExecCall) :
    ∀ k, (∀ call ∈ new, ∃ stepResult, call.result = .ok stepResult) →
      ∀ i record, (recordsOf k new)[i]? = some record →
        ∃ call stepResult, new[i]? = some call ∧ call.result = .ok stepResult ∧
          record = stepRecord (k + i + 1) call.node call.agent call.input stepResult := by
  induction new with
  | nil => intro k _ i record h; simp [recordsOf] at h
  | cons call rest ih =>
    intro k hok i record hget
    obtain ⟨stepResult, hres⟩ := hok call (List.mem_cons_self _ _)
    simp only [recordsOf, hres] at hget
    cases i with
    | zero =>
      simp only [List.getElem?_cons_zero, Option.some.injEq] at hget
      exact ⟨call, stepResult, List.getElem?_cons_zero, hres, hget.symm⟩
    | succ i =>
      simp only [List.getElem?_cons_succ] at hget
      obtain ⟨c, sr, h1, h2, h3⟩ :=
        ih (k + 1) (fun c hc => hok c (List.mem_cons_of_mem _ hc)) i record hget
      refine ⟨c, sr, by simpa using h1, h2, ?_⟩
      rw [h3]
      congr 1
      omega

/-- The edge found by the lookup of lines 196-199 is the first matching edge. -/
theorem isFirstMatch_of_find? (edges : List Edge) (node_id intent : String)
    (nextEdge : Edge) (h : edges.find? (edgeMatches node_id intent) = some nextEdge) :
    IsFirstMatch edges node_id intent nextEdge := by
  obtain ⟨hmatch, before, after, hsplit, hbefore⟩ := List.find?_eq_some.mp h
  simp only [edgeMatches, Bool.and_eq_true, beq_iff_eq] at hmatch
  refine ⟨before, after, hsplit, ?_, hmatch.1, hmatch.2⟩
  intro e he hboth
  have := hbefore e he
  simp [edgeMatches, hboth.1, hboth.2] at this

/-- In a returned path, the node of each record but the first is the target of the edge
the lookup finds for the record before it. -/
theorem runWorkflow_next_record {σ : Type} {exec : StepExecutor σ} {workflowId : String}
    {input : JsValue} {w : World σ} {res : RunResult} {w1 : World σ} {workflow : Workflow}
    (h : runWorkflow exec workflowId input w = some (.ok res, w1))
    (hwf : getWorkflow w.db workflowId = .ok workflow) :
    ∀ i r1 r2, res.execution_path[i]? = some r1 → res.execution_path[i + 1]? = some r2 →
      ∃ nextEdge, workflow.edges.find? (edgeMatches r1.node_id r1.output_intent) =
          some nextEdge ∧
        r2.node_id = nextEdge.to_node_id := by
  obtain ⟨workflow', startNode, new, st, w3, hwf', _, hloop, hres, _, _⟩ :=
    runWorkflow_ok_inv h
  rw [hwf] at hwf'
  cases hwf'
  obtain ⟨hpath, hok, _, _⟩ := hloop.path_eq st rfl
  simp only [initialState, List.nil_append] at hpath
  obtain ⟨_, _, hlink⟩ := hloop.links
  intro i r1 r2 h1 h2
  rw [hres] at h1 h2
  simp only [hpath] at h1 h2
  obtain ⟨c1, sr1, hc1, hr1, hrec1⟩ := recordsOf_getElem? new 0 hok i r1 h1
  obtain ⟨c2, sr2, hc2, hr2, hrec2⟩ := recordsOf_getElem? new 0 hok (i + 1) r2 h2
  obtain ⟨sr, nextEdge, hsr, _, hfind, hnode, _⟩ := hlink i c1 c2 hc1 hc2
  rw [hr1] at hsr
  cases hsr
  refine ⟨nextEdge, ?_, ?_⟩
  · rw [hrec1]
    exact hfind
  · rw [hrec2]
    have := List.find?_some hnode
    simpa [stepRecord] using this

/-- C5: in the `execution_path` a run returns, the node of each record after the first
is the target of the first edge, in the order of `workflow.edges`, that leaves the node
of the record before it with that record's intent as trigger; edges further down with
the same source and trigger are not taken, and two records with the same node and intent
are followed by records on the same node. -/
theorem runWorkflow_first_match {σ : Type} (exec : StepExecutor σ) (workflowId : String)
    (input : JsValue) (w : World σ) (res : RunResult) (w1 : World σ) (workflow : Workflow)
    (h : runWorkflow exec workflowId input w = some (.ok res, w1))
    (hwf : getWorkflow w.db workflowId = .ok workflow) :
    (∀ i r1 r2, res.execution_path[i]? = some r1 → res.execution_path[i + 1]? = some r2 →
      ∃ nextEdge, IsFirstMatch workflow.edges r1.node_id r1.output_intent nextEdge ∧
        r2.node_id = nextEdge.to_node_id) ∧
    (∀ i j r1 r2 r3 r4, res.execution_path[i]? = some r1 →
      res.execution_path[i + 1]? = some r2 → res.execution_path[j]? = some r3 →
      res.execution_path[j + 1]? = some r4 →
      r1.node_id = r3.node_id → r1.output_intent = r3.output_intent →
      r2.node_id = r4.node_id) := by
  have hnext := runWorkflow_next_record h hwf
  refine ⟨?_, ?_⟩
  · intro i r1 r2 h1 h2
    obtain ⟨nextEdge, hfind, hnode⟩ := hnext i r1 r2 h1 h2
    exact ⟨nextEdge, isFirstMatch_of_find? _ _ _ _ hfind, hnode⟩
  · intro i j r1 r2 r3 r4 h1 h2 h3 h4 hn hi
    obtain ⟨e1, hf1, hn1⟩ := hnext i r1 r2 h1 h2
    obtain ⟨e2, hf2, hn2⟩ := hnext j r3 r4 h3 h4
    rw [hn, hi, hf2] at hf1
    cases hf1
    rw [hn1, hn2]

/-- C5, witness: with two edges from the router node on intent `go`, the run goes to
the target of the first one. -/
theorem runWorkflow_first_match_witness :
    ∃ res w1, runWorkflow (constExec (.string "done") "go") "wf" emptyObject duplicateWorld =
        some (.ok res, w1) ∧
      res.execution_path.map (fun record => record.node_id) = ["node-router", "node-auth"] ∧
      (∀ i r1 r2, res.execution_path[i]? = some r1 → res.execution_path[i + 1]? = some r2 →
        ∃ nextEdge,
          IsFirstMatch duplicateWorkflow.edges r1.node_id r1.output_intent nextEdge ∧
          r2.node_id = nextEdge.to_node_id) ∧
      (∀ i j r1 r2 r3 r4, res.execution_path[i]? = some r1 →
        res.execution_path[i + 1]? = some r2 → res.execution_path[j]? = some r3 →
        res.execution_path[j + 1]? = some r4 →
        r1.node_id = r3.node_id → r1.output_intent = r3.output_intent →
        r2.node_id = r4.node_id) :=
  ⟨_, _, rfl, rfl,
    runWorkflow_first_match (constExec (.string "done") "go") "wf" emptyObject duplicateWorld
      _ _ duplicateWorkflow rfl rfl⟩

/-! ## C6 and C7: the step that ends the loop -/

/-- A successful step whose intent is a completion marker, or matches no edge, is the
last pass of the loop: no invocation follows it, the loop ends normally, and the record
of that step is the last of the path. -/
theorem LoopRun.terminal_step {σ : Type} {exec : StepExecutor σ} {workflow : Workflow}
    {runId : Nat} {st : LoopState} {w : World σ} {new : List ExecCall}
    {r : Except JsError LoopState} {w1 : World σ}
    (h : LoopRun exec workflow runId st w new r w1) :
    ∀ i call stepResult, new[i]? = some call → call.result = .ok stepResult →
      (isCompletionIntent stepResult.output_intent = true ∨
        workflow.edges.find? (edgeMatches call.node.id stepResult.output_intent) = none) →
      new.length = i + 1 ∧
      ∃ st1, r = .ok st1 ∧ st1.stepCount = st.stepCount + (i + 1) ∧
        st1.executionPath.length = st.executionPath.length + (i + 1) ∧
        st1.executionPath.getLast? =
          some (stepRecord (st.stepCount + (i + 1)) call.node call.agent call.input
            stepResult) := by
  induction h with
  | exit_none st w _ => intro i call sr hc; simp at hc
  | exit_ceiling st w node _ _ => intro i call sr hc; simp at hc
  | unbound st w node _ _ _ => intro i call sr hc; simp at hc
  | stop st w node agent _ _ _ _ => intro i call sr hc; simp at hc
  | exec_error st w node agent error s _ _ _ _ _ =>
    intro i call sr hc hres
    cases i with
    | zero =>
      simp only [List.getElem?_cons_zero, Option.some.injEq] at hc
      subst hc
      simp [callOf] at hres
    | succ i => simp at hc
  | complete st w node agent stepResult s _ _ _ _ _ _ =>
    intro i call sr hc hres _
    cases i with
    | zero =>
      simp only [List.getElem?_cons_zero, Option.some.injEq] at hc
      subst hc
      simp only [callOf, Except.ok.injEq] at hres
      subst hres
      exact ⟨rfl, _, rfl, rfl, by simp [pushStep], by simp [pushStep, callOf]⟩
    | succ i => simp at hc
  | dead_end st w node agent stepResult s _ _ _ _ _ _ _ =>
    intro i call sr hc hres _
    cases i with
    | zero =>
      simp only [List.getElem?_cons_zero, Option.some.injEq] at hc
      subst hc
      simp only [callOf, Except.ok.injEq] at hres
      subst hres
      exact ⟨rfl, _, rfl, rfl, by simp [pushStep], by simp [pushStep, callOf]⟩
    | succ i => simp at hc
  | advance st w node agent stepResult s nextEdge new r w1 _ _ _ _ _ hcompl hf _ ih =>
    intro i call sr hc hres hend
    cases i with
    | zero =>
      simp only [List.getElem?_cons_zero, Option.some.injEq] at hc
      subst hc
      simp only [callOf, Except.ok.injEq] at hres
      subst hres
      simp only [callOf] at hend
      rcases hend with hend | hend
      · rw [hcompl] at hend; cases hend
      · rw [hf] at hend; cases hend
    | succ i =>
      simp only [List.getElem?_cons_succ] at hc
      obtain ⟨hlen, st1, hr, hcount, hplen, hlast⟩ := ih i call sr hc hres hend
      simp only [advanceTo, pushStep] at hcount hplen hlast
      refine ⟨by simp only [List.length_cons]; omega, st1, hr, by omega, ?_, ?_⟩
      · simp only [List.length_append, List.length_singleton] at hplen
        omega
      · rw [hlast]
        congr 2
        omega

/-- The table `workflow_runs` and the summary after a run that returns: the row of the
run is marked `completed` and holds the returned path and final output. -/
theorem runWorkflow_ok_runs {σ : Type} {exec : StepExecutor σ} {workflowId : String}
    {input : JsValue} {w : World σ} {res : RunResult} {w1 : World σ}
    (h : runWorkflow exec workflowId input w = some (.ok res, w1)) :
    res.run_id = freshRunId w.db ∧ res.status = "completed" ∧
    w1.db.workflow_runs = w.db.workflow_runs ++
      [{ id := freshRunId w.db, workflow_id := workflowId, status := "completed",
         input_data := defaultInput input, output_data := some res.final_output,
         execution_path := some res.execution_path }] := by
  obtain ⟨workflow, startNode, new, st, w3, _, _, hloop, hres, hw, _⟩ := runWorkflow_ok_inv h
  have hruns : w3.db.workflow_runs = w.db.workflow_runs ++
      [{ id := freshRunId w.db, workflow_id := workflowId, status := "running",
         input_data := defaultInput input }] := by
    rw [hloop.frame.2.2.1]
    rfl
  obtain ⟨_, _, _, c4, _, _⟩ := completion_spec w w3 workflowId (defaultInput input) st hruns
  rw [hres, hw]
  exact ⟨rfl, rfl, c4⟩

/-- The lookup of lines 196-199 finds nothing when no edge has that source and that
trigger. -/
theorem find?_edgeMatches_none (edges : List Edge) (node_id intent : String)
    (h : ∀ e ∈ edges, ¬ (e.from_node_id = node_id ∧ e.trigger_intent = intent)) :
    edges.find? (edgeMatches node_id intent) = none := by
  rw [List.find?_eq_none]
  intro e he hmatch
  simp only [edgeMatches, Bool.and_eq_true, beq_iff_eq] at hmatch
  exact h e he hmatch

/-- A path of one record is that record. -/
theorem eq_singleton_of_getLast? (path : List StepRecord) (record : StepRecord)
    (hlen : path.length = 1) (hlast : path.getLast? = some record) : path = [record] := by
  match path, hlen, hlast with
  | [x], _, hlast =>
    simp only [List.getLast?_singleton, Option.some.injEq] at hlast
    rw [hlast]

/-- C6, amended: when a step of a run succeeds with an intent (a completion marker or
not) and no edge leaves its node with that intent as trigger, the executor is not
invoked again, `runWorkflow` raises no error and returns status `completed`, the run is
stored as `completed`, and the record of that step is the last of `execution_path`;
when that step is the first step of the run, `execution_path` is that one record. -/
theorem runWorkflow_unmatched_intent {σ : Type} (exec : StepExecutor σ)
    (workflowId : String) (input : JsValue) (w : World σ) (r : Except JsError RunResult)
    (w1 : World σ) (workflow : Workflow) (new : List ExecCall) (i : Nat) (call : ExecCall)
    (stepResult : StepResult)
    (h : runWorkflow exec workflowId input w = some (r, w1))
    (hwf : getWorkflow w.db workflowId = .ok workflow)
    (hnew : w1.calls = w.calls ++ new)
    (hcall : new[i]? = some call)
    (hok : call.result = .ok stepResult)
    (hnone : ∀ e ∈ workflow.edges,
      ¬ (e.from_node_id = call.node.id ∧ e.trigger_intent = stepResult.output_intent)) :
    new.length = i + 1 ∧
    ∃ res, r = .ok res ∧ res.status = "completed" ∧
      w1.db.workflow_runs = w.db.workflow_runs ++
        [{ id := freshRunId w.db, workflow_id := workflowId, status := "completed",
           input_data := defaultInput input, output_data := some res.final_output,
           execution_path := some res.execution_path }] ∧
      res.execution_path.getLast? =
        some (stepRecord (i + 1) call.node call.agent call.input stepResult) ∧
      res.execution_path.length = i + 1 ∧
      (i = 0 → res.execution_path =
        [stepRecord 1 call.node call.agent call.input stepResult]) := by
  have hne : new ≠ [] := by
    intro hnil
    rw [hnil] at hcall
    simp at hcall
  obtain ⟨workflow', startNode, rl, w3, hwf', _, hloop, hsettle⟩ :=
    runWorkflow_calls_inv h hnew hne
  rw [hwf] at hwf'
  cases hwf'
  obtain ⟨hlen, st1, hrl, _, hplen, hlast⟩ := hloop.terminal_step i call stepResult hcall hok
    (Or.inr (find?_edgeMatches_none _ _ _ hnone))
  subst hrl
  have hr : r = (settle workflowId (freshRunId w.db) (.ok st1) w3).1 := by rw [← hsettle]
  rw [settle_ok] at hr
  subst hr
  obtain ⟨_, _, hruns⟩ := runWorkflow_ok_runs h
  simp only [initialState, List.length_nil, Nat.zero_add] at hplen hlast
  refine ⟨hlen, _, rfl, rfl, hruns, hlast, hplen, ?_⟩
  intro hi
  subst hi
  exact eq_singleton_of_getLast? _ _ hplen hlast

/-- C6, witness: a workflow made of the router node alone, without edges; the first step
answers `go`, which no edge matches. -/
theorem runWorkflow_unmatched_intent_witness :
    ∃ (r : Except JsError RunResult) (w1 : World Unit) (new : List ExecCall)
      (call : ExecCall) (stepResult : StepResult),
      runWorkflow (constExec (.string "done") "go") "wf" emptyObject
        (exampleWorld [routerNode] []) = some (r, w1) ∧
      w1.calls = (exampleWorld [routerNode] []).calls ++ new ∧
      new[0]? = some call ∧ call.result = .ok stepResult ∧
      new.length = 0 + 1 ∧
      ∃ res, r = .ok res ∧ res.status = "completed" ∧
        w1.db.workflow_runs = (exampleWorld [routerNode] []).db.workflow_runs ++
          [{ id := freshRunId (exampleWorld [routerNode] []).db, workflow_id := "wf",
             status := "completed", input_data := defaultInput emptyObject,
             output_data := some res.final_output,
             execution_path := some res.execution_path }] ∧
        res.execution_path.getLast? =
          some (stepRecord (0 + 1) call.node call.agent call.input stepResult) ∧
        res.execution_path.length = 0 + 1 ∧
        (0 = 0 → res.execution_path =
          [stepRecord 1 call.node call.agent call.input stepResult]) :=
  ⟨_, _, _, _, _, rfl, rfl, rfl, rfl,
    runWorkflow_unmatched_intent (constExec (.string "done") "go") "wf" emptyObject
      (exampleWorld [routerNode] []) _ _ (exampleWorkflow [routerNode] []) _ 0 _ _
      rfl rfl rfl rfl rfl (by simp [exampleWorkflow])⟩

/-- C6, counterexample: the run goes from the router node, the entry node, to the auth
node and back; the third step, on the entry node, answers `unknown`, which no edge
matches; the run ends there with three records, not one. -/
theorem runWorkflow_unmatched_intent_counterexample :
    findStartNode revisitWorkflow.nodes = .ok (some routerNode) ∧
    ∃ res w1 call stepResult,
      runWorkflow inputExec "wf" emptyObject revisitWorld = some (.ok res, w1) ∧
      w1.calls[2]? = some call ∧ call.result = .ok stepResult ∧
      stepResult.output_intent = "unknown" ∧
      (∀ e ∈ revisitWorkflow.edges,
        ¬ (e.from_node_id = call.node.id ∧ e.trigger_intent = stepResult.output_intent)) ∧
      call.node = routerNode ∧
      res.execution_path.length = 3 := by
  refine ⟨rfl, _, _, _, _, rfl, rfl, rfl, rfl, ?_, rfl, rfl⟩
  decide

/-- C7, amended: when a step of a run succeeds with intent `workflow_complete` or
`workflow_end`, whatever its output and whatever the edges of the workflow, the
executor is not invoked again and `runWorkflow` returns status `completed`, the record
of that step being the last of `execution_path`; the final output is the output of that
step when it is truthy, and `{}` when it is falsy. -/
theorem runWorkflow_completion_intent {σ : Type} (exec : StepExecutor σ)
    (workflowId : String) (input : JsValue) (w : World σ) (r : Except JsError RunResult)
    (w1 : World σ) (new : List ExecCall) (i : Nat) (call : ExecCall)
    (stepResult : StepResult)
    (h : runWorkflow exec workflowId input w = some (r, w1))
    (hnew : w1.calls = w.calls ++ new)
    (hcall : new[i]? = some call)
    (hok : call.result = .ok stepResult)
    (hc : stepResult.output_intent = "workflow_complete" ∨
      stepResult.output_intent = "workflow_end") :
    new.length = i + 1 ∧
    ∃ res, r = .ok res ∧ res.status = "completed" ∧
      res.execution_path.getLast? =
        some (stepRecord (i + 1) call.node call.agent call.input stepResult) ∧
      (stepResult.output.truthy = true → res.final_output = stepResult.output) ∧
      (stepResult.output.truthy = false → res.final_output = emptyObject) := by
  have hne : new ≠ [] := by
    intro hnil
    rw [hnil] at hcall
    simp at hcall
  obtain ⟨workflow, startNode, rl, w3, _, _, hloop, hsettle⟩ :=
    runWorkflow_calls_inv h hnew hne
  obtain ⟨hlen, st1, hrl, _, _, hlast⟩ := hloop.terminal_step i call stepResult hcall hok
    (Or.inl ((isCompletionIntent_eq_true _).mpr hc))
  subst hrl
  have hr : r = (settle workflowId (freshRunId w.db) (.ok st1) w3).1 := by rw [← hsettle]
  rw [settle_ok] at hr
  subst hr
  simp only [initialState, Nat.zero_add] at hlast
  obtain ⟨ht, hf⟩ := finalOutputOf_of_getLast? st1.executionPath _ hlast
  exact ⟨hlen, _, rfl, rfl, hlast, ht, hf⟩

/-- C7, witness: the router node answers `workflow_complete` with output `0`, and an
edge leaves it with that trigger. -/
theorem runWorkflow_completion_intent_witness :
    ∃ (r : Except JsError RunResult) (w1 : World Unit) (new : List ExecCall)
      (call : ExecCall) (stepResult : StepResult),
      runWorkflow (constExec (.number 0) "workflow_complete") "wf" emptyObject
        completeWorld = some (r, w1) ∧
      w1.calls = completeWorld.calls ++ new ∧
      new[0]? = some call ∧ call.result = .ok stepResult ∧
      new.length = 0 + 1 ∧
      ∃ res, r = .ok res ∧ res.status = "completed" ∧
        res.execution_path.getLast? =
          some (stepRecord (0 + 1) call.node call.agent call.input stepResult) ∧
        (stepResult.output.truthy = true → res.final_output = stepResult.output) ∧
        (stepResult.output.truthy = false → res.final_output = emptyObject) :=
  ⟨_, _, _, _, _, rfl, rfl, rfl, rfl,
    runWorkflow_completion_intent (constExec (.number 0) "workflow_complete") "wf"
      emptyObject completeWorld _ _ _ 0 _ _ rfl rfl rfl rfl (Or.inl rfl)⟩

/-- C7, counterexample: the step on the router node succeeds with intent
`workflow_complete` and output `0`; the run returns with final output `{}`, not `0`. -/
theorem runWorkflow_completion_intent_counterexample :
    ∃ res w1 call stepResult,
      runWorkflow (constExec (.number 0) "workflow_complete") "wf" emptyObject
        completeWorld = some (.ok res, w1) ∧
      w1.calls[0]? = some call ∧ call.result = .ok stepResult ∧
      stepResult.output_intent = "workflow_complete" ∧
      stepResult.output = .number 0 ∧
      res.final_output = .object [] ∧
      res.final_output ≠ stepResult.output := by
  refine ⟨_, _, _, _, rfl, rfl, rfl, rfl, rfl, rfl, ?_⟩
  intro h
  cases h

/-! ## C8: stop nodes and end nodes -/

/-- The stop test, in words. -/
theorem stopCondition_eq_true (agent : Agent) (node : Node) :
    stopCondition agent node = true ↔
      (includes (toLowerCase agent.name) "stop".toList = true ∨ node.node_type = "end") := by
  simp [stopCondition]

/-- The stop test, in words. -/
theorem stopCondition_eq_false (agent : Agent) (node : Node) :
    stopCondition agent node = false ↔
      ¬ (includes (toLowerCase agent.name) "stop".toList = true ∨ node.node_type = "end") := by
  rw [← stopCondition_eq_true]
  simp

/-- A loop entered on a stop node or an end node invokes no executor, pushes no record,
writes nothing and ends normally. -/
theorem LoopRun.at_stop {σ : Type} {exec : StepExecutor σ} {workflow : Workflow}
    {runId : Nat} {st : LoopState} {w : World σ} {new : List ExecCall}
    {r : Except JsError LoopState} {w1 : World σ}
    (h : LoopRun exec workflow runId st w new r w1) :
    ∀ node agent, st.currentNode = some node → node.agents = some agent →
      stopCondition agent node = true →
      new = [] ∧ w1 = w ∧ ∃ st1, r = .ok st1 ∧ st1.executionPath = st.executionPath := by
  induction h with
  | exit_none st w hn => intro node agent hnode; rw [hn] at hnode; cases hnode
  | exit_ceiling st w node' hn hlt => intro node agent _ _ _; exact ⟨rfl, rfl, st, rfl, rfl⟩
  | unbound st w node' hn hlt ha =>
    intro node agent hnode hagent
    rw [hn] at hnode; cases hnode
    rw [ha] at hagent; cases hagent
  | stop st w node' agent' hn hlt ha hstop =>
    intro node agent _ _ _
    exact ⟨rfl, rfl, _, rfl, rfl⟩
  | exec_error st w node' agent' error s hn hlt ha hstop he =>
    intro node agent hnode hagent hs
    rw [hn] at hnode; cases hnode
    rw [ha] at hagent; cases hagent
    rw [hstop] at hs; cases hs
  | complete st w node' agent' stepResult s hn hlt ha hstop he hc =>
    intro node agent hnode hagent hs
    rw [hn] at hnode; cases hnode
    rw [ha] at hagent; cases hagent
    rw [hstop] at hs; cases hs
  | dead_end st w node' agent' stepResult s hn hlt ha hstop he hc hf =>
    intro node agent hnode hagent hs
    rw [hn] at hnode; cases hnode
    rw [ha] at hagent; cases hagent
    rw [hstop] at hs; cases hs
  | advance st w node' agent' stepResult s nextEdge new r w1 hn hlt ha hstop he hc hf hrun _ =>
    intro node agent hnode hagent hs
    rw [hn] at hnode; cases hnode
    rw [ha] at hagent; cases hagent
    rw [hstop] at hs; cases hs

/-- A successful step that is routed to a stop node or an end node is the last pass that
invokes the executor: the loop ends normally and the record of that step is the last of
the path. -/
theorem LoopRun.before_stop {σ : Type} {exec : StepExecutor σ} {workflow : Workflow}
    {runId : Nat} {st : LoopState} {w : World σ} {new : List ExecCall}
    {r : Except JsError LoopState} {w1 : World σ}
    (h : LoopRun exec workflow runId st w new r w1) :
    ∀ i call stepResult nextEdge nextNode nextAgent,
      new[i]? = some call → call.result = .ok stepResult →
      isCompletionIntent stepResult.output_intent = false →
      workflow.edges.find? (edgeMatches call.node.id stepResult.output_intent) =
        some nextEdge →
      workflow.nodes.find? (fun n => n.id == nextEdge.to_node_id) = some nextNode →
      nextNode.agents = some nextAgent → stopCondition nextAgent nextNode = true →
      new.length = i + 1 ∧
      ∃ st1, r = .ok st1 ∧
        st1.executionPath.length = st.executionPath.length + (i + 1) ∧
        st1.executionPath.getLast? =
          some (stepRecord (st.stepCount + (i + 1)) call.node call.agent call.input
            stepResult) := by
  induction h with
  | exit_none st w _ => intro i call sr e n a hc; simp at hc
  | exit_ceiling st w node _ _ => intro i call sr e n a hc; simp at hc
  | unbound st w node _ _ _ => intro i call sr e n a hc; simp at hc
  | stop st w node agent _ _ _ _ => intro i call sr e n a hc; simp at hc
  | exec_error st w node agent error s _ _ _ _ _ =>
    intro i call sr e n a hc hres
    cases i with
    | zero =>
      simp only [List.getElem?_cons_zero, Option.some.injEq] at hc
      subst hc
      simp [callOf] at hres
    | succ i => simp at hc
  | complete st w node agent stepResult s _ _ _ _ _ hcompl =>
    intro i call sr e n a hc hres hnc
    cases i with
    | zero =>
      simp only [List.getElem?_cons_zero, Option.some.injEq] at hc
      subst hc
      simp only [callOf, Except.ok.injEq] at hres
      subst hres
      rw [hcompl] at hnc; cases hnc
    | succ i => simp at hc
  | dead_end st w node agent stepResult s _ _ _ _ _ _ hf =>
    intro i call sr e n a hc hres _ hfind
    cases i with
    | zero =>
      simp only [List.getElem?_cons_zero, Option.some.injEq] at hc
      subst hc
      simp only [callOf, Except.ok.injEq] at hres
      subst hres
      simp only [callOf] at hfind
      rw [hf] at hfind; cases hfind
    | succ i => simp at hc
  | advance st w node agent stepResult s nextEdge new r w1 _ _ _ _ _ _ hf hrun ih =>
    intro i call sr e n a hc hres hnc hfind hnode hagent hstop
    cases i with
    | zero =>
      simp only [List.getElem?_cons_zero, Option.some.injEq] at hc
      subst hc
      simp only [callOf, Except.ok.injEq] at hres
      subst hres
      simp only [callOf] at hfind
      rw [hf] at hfind
      cases hfind
      obtain ⟨hnil, _, st1, hr, hpath⟩ := hrun.at_stop n a hnode hagent hstop
      subst hnil
      refine ⟨rfl, st1, hr, ?_, ?_⟩
      · rw [hpath]; simp [advanceTo, pushStep]
      · rw [hpath]; simp [advanceTo, pushStep, callOf]
    | succ i =>
      simp only [List.getElem?_cons_succ] at hc
      obtain ⟨hlen, st1, hr, hplen, hlast⟩ := ih i call sr e n a hc hres hnc hfind hnode
        hagent hstop
      simp only [advanceTo, pushStep] at hplen hlast
      refine ⟨by simp only [List.length_cons]; omega, st1, hr, ?_, ?_⟩
      · simp only [List.length_append, List.length_singleton] at hplen
        omega
      · rw [hlast]
        congr 2
        omega

/-- The first matching edge is the edge the lookup of lines 196-199 finds. -/
theorem find?_of_isFirstMatch (edges : List Edge) (node_id intent : String)
    (nextEdge : Edge) (h : IsFirstMatch edges node_id intent nextEdge) :
    edges.find? (edgeMatches node_id intent) = some nextEdge := by
  obtain ⟨before, after, hsplit, hbefore, hfrom, htrigger⟩ := h
  rw [List.find?_eq_some]
  refine ⟨by simp [edgeMatches, hfrom, htrigger], before, after, hsplit, ?_⟩
  intro e he
  have := hbefore e he
  simp only [edgeMatches, Bool.not_eq_eq_eq_not, Bool.not_true, Bool.and_eq_false_imp,
    beq_iff_eq, beq_eq_false_iff_ne, ne_eq]
  intro hf ht
  exact this ⟨hf, ht⟩

/-- C8, amended: (1) the executor is invoked only on nodes that have an agent whose
name does not contain `stop` and whose type is not `end`; (2) when the entry node has an
agent and is a stop node or an end node, the run invokes no executor and returns status
`completed` with an empty `execution_path` and final output `{}`; (3) when a step
succeeds with an intent that is no completion marker and whose first matching edge leads
to a node that has an agent and is a stop node or an end node, the executor is not
invoked on that node and no record is pushed for it: the run returns status `completed`,
the record of that step is the last of `execution_path`, and the final output is the
output of that step when it is truthy and `{}` when it is falsy. -/
theorem runWorkflow_stop_condition {σ : Type} (exec : StepExecutor σ) (workflowId : String)
    (input : JsValue) (w : World σ) (r : Except JsError RunResult) (w1 : World σ)
    (workflow : Workflow) (new : List ExecCall)
    (h : runWorkflow exec workflowId input w = some (r, w1))
    (hwf : getWorkflow w.db workflowId = .ok workflow)
    (hnew : w1.calls = w.calls ++ new) :
    (∀ call ∈ new, call.node.agents = some call.agent ∧
      ¬ (includes (toLowerCase call.agent.name) "stop".toList = true ∨
        call.node.node_type = "end")) ∧
    (∀ startNode agent, findStartNode workflow.nodes = .ok (some startNode) →
      startNode.agents = some agent →
      (includes (toLowerCase agent.name) "stop".toList = true ∨
        startNode.node_type = "end") →
      new = [] ∧
      ∃ res, r = .ok res ∧ res.status = "completed" ∧ res.execution_path = [] ∧
        res.final_output = emptyObject) ∧
    (∀ i call stepResult nextEdge nextNode nextAgent,
      new[i]? = some call → call.result = .ok stepResult →
      stepResult.output_intent ≠ "workflow_complete" →
      stepResult.output_intent ≠ "workflow_end" →
      IsFirstMatch workflow.edges call.node.id stepResult.output_intent nextEdge →
      workflow.nodes.find? (fun n => n.id == nextEdge.to_node_id) = some nextNode →
      nextNode.agents = some nextAgent →
      (includes (toLowerCase nextAgent.name) "stop".toList = true ∨
        nextNode.node_type = "end") →
      new.length = i + 1 ∧
      ∃ res, r = .ok res ∧ res.status = "completed" ∧
        res.execution_path.length = i + 1 ∧
        res.execution_path.getLast? =
          some (stepRecord (i + 1) call.node call.agent call.input stepResult) ∧
        (stepResult.output.truthy = true → res.final_output = stepResult.output) ∧
        (stepResult.output.truthy = false → res.final_output = emptyObject)) := by
  refine ⟨?_, ?_, ?_⟩
  · intro call hcall
    have hne : new ≠ [] := List.ne_nil_of_mem hcall
    obtain ⟨workflow', startNode, rl, w3, _, _, hloop, _⟩ := runWorkflow_calls_inv h hnew hne
    obtain ⟨ha, hs⟩ := hloop.links.2.1 call hcall
    exact ⟨ha, (stopCondition_eq_false _ _).mp hs⟩
  · intro startNode agent hs hagent hstop
    obtain ⟨new', rl, w3, hloop, hrun⟩ :=
      runWorkflow_started exec workflowId input w workflow startNode hwf hs
    rw [hrun] at h
    have hsettle := Option.some.inj h
    obtain ⟨hnil, hw3, st1, hrl, hpath⟩ := hloop.at_stop startNode agent rfl hagent
      ((stopCondition_eq_true _ _).mpr hstop)
    subst hrl
    have hr : r = (settle workflowId (freshRunId w.db) (.ok st1) w3).1 := by rw [hsettle]
    have hw : w1 = (settle workflowId (freshRunId w.db) (.ok st1) w3).2 := by rw [hsettle]
    have hcalls : w1.calls = w.calls := by
      rw [hw, settle_calls, hw3]
      rfl
    rw [hcalls] at hnew
    rw [settle_ok] at hr
    subst hr
    simp only [initialState] at hpath
    refine ⟨(List.self_eq_append_right.mp hnew), _, rfl, rfl, hpath, ?_⟩
    show finalOutputOf st1.executionPath = emptyObject
    rw [hpath]
    rfl
  · intro i call stepResult nextEdge nextNode nextAgent hcall hok hc1 hc2 hfirst hnode
      hagent hstop
    have hne : new ≠ [] := by
      intro hnil
      rw [hnil] at hcall
      simp at hcall
    obtain ⟨workflow', startNode, rl, w3, hwf', _, hloop, hsettle⟩ :=
      runWorkflow_calls_inv h hnew hne
    rw [hwf] at hwf'
    cases hwf'
    obtain ⟨hlen, st1, hrl, hplen, hlast⟩ := hloop.before_stop i call stepResult nextEdge
      nextNode nextAgent hcall hok (isCompletionIntent_eq_false _ hc1 hc2)
      (find?_of_isFirstMatch _ _ _ _ hfirst) hnode hagent
      ((stopCondition_eq_true _ _).mpr hstop)
    subst hrl
    have hr : r = (settle workflowId (freshRunId w.db) (.ok st1) w3).1 := by rw [← hsettle]
    rw [settle_ok] at hr
    subst hr
    simp only [initialState, List.length_nil, Nat.zero_add] at hplen hlast
    obtain ⟨ht, hf⟩ := finalOutputOf_of_getLast? st1.executionPath _ hlast
    exact ⟨hlen, _, rfl, rfl, hplen, hlast, ht, hf⟩

/-- C8, witness: the router node is routed to the stop node on `go`; the executor is
invoked once, on the router node, and the run returns with that one record. -/
theorem runWorkflow_stop_condition_witness :
    ∃ (r : Except JsError RunResult) (w1 : World Unit) (new : List ExecCall)
      (call : ExecCall) (stepResult : StepResult),
      runWorkflow (constExec .null "go") "wf" emptyObject stopWorld = some (r, w1) ∧
      w1.calls = stopWorld.calls ++ new ∧
      new[0]? = some call ∧ call.result = .ok stepResult ∧
      new.length = 0 + 1 ∧
      ∃ res, r = .ok res ∧ res.status = "completed" ∧
        res.execution_path.length = 0 + 1 ∧
        res.execution_path.getLast? =
          some (stepRecord (0 + 1) call.node call.agent call.input stepResult) ∧
        (stepResult.output.truthy = true → res.final_output = stepResult.output) ∧
        (stepResult.output.truthy = false → res.final_output = emptyObject) :=
  ⟨_, _, _, _, _, rfl, rfl, rfl, rfl,
    (runWorkflow_stop_condition (constExec .null "go") "wf" emptyObject stopWorld _ _
      stopWorkflow _ rfl rfl rfl).2.2 0 _ _ (edge "node-router" "node-stop" "go") stopNode
      stopAgent rfl rfl go_ne_complete go_ne_end ⟨[], [], rfl, by simp, rfl, rfl⟩ rfl rfl
      (Or.inl (by decide))⟩

/-- C8, counterexample: the step on the router node succeeds with output `null` and is
routed to the stop node; the executor is invoked once, the run returns, and the final
output is `{}`, not the output `null` of the last executed step. -/
theorem runWorkflow_stop_condition_counterexample :
    ∃ res w1 call stepResult nextEdge,
      runWorkflow (constExec .null "go") "wf" emptyObject stopWorld = some (.ok res, w1) ∧
      w1.calls[0]? = some call ∧ call.result = .ok stepResult ∧
      stopWorkflow.edges.find? (edgeMatches call.node.id stepResult.output_intent) =
        some nextEdge ∧
      stopWorkflow.nodes.find? (fun n => n.id == nextEdge.to_node_id) = some stopNode ∧
      stopCondition stopAgent stopNode = true ∧
      w1.calls.length = 1 ∧
      stepResult.output = .null ∧
      res.final_output = .object [] ∧
      res.final_output ≠ stepResult.output := by
  refine ⟨_, _, _, _, _, rfl, rfl, rfl, rfl, rfl, rfl, rfl, rfl, rfl, ?_⟩
  intro h
  cases h

/-! ## C9: the entry node -/

/-- On a node that has an agent, the test of the search says whether the node
qualifies. -/
theorem startCondition_iff (agent : Agent) (node : Node) (h : node.agents = some agent) :
    startCondition agent node = true ↔ Qualifies node := by
  simp only [startCondition, Qualifies, h, Option.some.injEq, exists_eq_left', Bool.or_eq_true,
    beq_iff_eq]
  tauto

/-- When every node has an agent and some node qualifies, the search returns the first
node that qualifies. -/
theorem findStartNode_first (nodes : List Node)
    (hbound : ∀ node ∈ nodes, node.agents ≠ none)
    (hq : ∃ node ∈ nodes, Qualifies node) :
    ∃ startNode, findStartNode nodes = .ok (some startNode) ∧
      IsFirstQualifying nodes startNode := by
  induction nodes with
  | nil =>
    obtain ⟨node, hnode, _⟩ := hq
    simp at hnode
  | cons node rest ih =>
    cases ha : node.agents with
    | none => exact absurd ha (hbound node (List.mem_cons_self _ _))
    | some agent =>
      cases hc : startCondition agent node with
      | true =>
        refine ⟨node, by simp [findStartNode, ha, hc], [], rest, rfl, by simp, ?_⟩
        exact (startCondition_iff agent node ha).mp hc
      | false =>
        have hnq : ¬ Qualifies node := by
          intro hqual
          rw [(startCondition_iff agent node ha).mpr hqual] at hc
          cases hc
        have hq' : ∃ n ∈ rest, Qualifies n := by
          obtain ⟨n, hn, hqual⟩ := hq
          rcases List.mem_cons.mp hn with rfl | hn
          · exact absurd hqual hnq
          · exact ⟨n, hn, hqual⟩
        obtain ⟨startNode, hfind, before, after, hsplit, hbefore, hstart⟩ :=
          ih (fun n hn => hbound n (List.mem_cons_of_mem _ hn)) hq'
        refine ⟨startNode, by simp [findStartNode, ha, hc, hfind], node :: before, after,
          by simp [hsplit], ?_, hstart⟩
        intro n hn
        rcases List.mem_cons.mp hn with rfl | hn
        · exact hnq
        · exact hbefore n hn

/-- C9: for a workflow whose nodes all have an agent and at least one of which
qualifies, the node the run starts from is the first node, in the order of
`workflow.nodes`, that qualifies (the nodes before it, which do not qualify, are
skipped): the first invocation of the executor is on that node, and the first record of
a returned `execution_path` is a record of that node. -/
theorem runWorkflow_entry_node {σ : Type} (exec : StepExecutor σ) (workflowId : String)
    (input : JsValue) (w : World σ) (r : Except JsError RunResult) (w1 : World σ)
    (workflow : Workflow) (new : List ExecCall)
    (h : runWorkflow exec workflowId input w = some (r, w1))
    (hwf : getWorkflow w.db workflowId = .ok workflow)
    (hnew : w1.calls = w.calls ++ new)
    (hbound : ∀ node ∈ workflow.nodes, node.agents ≠ none)
    (hq : ∃ node ∈ workflow.nodes, Qualifies node) :
    ∃ startNode, IsFirstQualifying workflow.nodes startNode ∧
      findStartNode workflow.nodes = .ok (some startNode) ∧
      (∀ call, new[0]? = some call → call.node = startNode) ∧
      (∀ res record, r = .ok res → res.execution_path[0]? = some record →
        record.node_id = startNode.id) := by
  obtain ⟨startNode, hs, hfirst⟩ := findStartNode_first workflow.nodes hbound hq
  obtain ⟨new', rl, w3, hloop, hrun⟩ :=
    runWorkflow_started exec workflowId input w workflow startNode hwf hs
  rw [hrun] at h
  have hsettle := Option.some.inj h
  have hr : r = (settle workflowId (freshRunId w.db) rl w3).1 := by rw [hsettle]
  have hw : w1 = (settle workflowId (freshRunId w.db) rl w3).2 := by rw [hsettle]
  have hcalls : w1.calls = w.calls ++ new' := by
    rw [hw, settle_calls, hloop.frame.1]
    rfl
  rw [hcalls] at hnew
  have hnn : new' = new := List.append_cancel_left hnew
  subst hnn
  have hhead : ∀ call, new'[0]? = some call → call.node = startNode := by
    intro call hcall
    have := (hloop.links.1 call hcall).1
    simp only [initialState, Option.some.injEq] at this
    exact this.symm
  refine ⟨startNode, hfirst, hs, hhead, ?_⟩
  intro res record hres hrec
  cases rl with
  | error error => rw [hr, settle_error] at hres; cases hres
  | ok st =>
    rw [hr, settle_ok] at hres
    cases hres
    obtain ⟨hpath, hok, _, _⟩ := hloop.path_eq st rfl
    simp only [initialState, List.nil_append] at hpath
    simp only [hpath] at hrec
    obtain ⟨call, sr, hcall, _, hrecord⟩ := recordsOf_getElem? new' 0 hok 0 record hrec
    rw [hrecord, ← hhead call hcall]
    rfl

/-- C9, witness: the auth node comes first and does not qualify; the run starts from the
router node, which comes second. -/
theorem runWorkflow_entry_node_witness :
    ∃ (r : Except JsError RunResult) (w1 : World Unit) (new : List ExecCall),
      runWorkflow (constExec (.string "done") "go") "wf" emptyObject
        (exampleWorld [authNode, routerNode] []) = some (r, w1) ∧
      w1.calls = (exampleWorld [authNode, routerNode] []).calls ++ new ∧
      ∃ startNode,
        IsFirstQualifying (exampleWorkflow [authNode, routerNode] []).nodes startNode ∧
        findStartNode (exampleWorkflow [authNode, routerNode] []).nodes =
          .ok (some startNode) ∧
        (∀ call, new[0]? = some call → call.node = startNode) ∧
        (∀ res record, r = .ok res → res.execution_path[0]? = some record →
          record.node_id = startNode.id) :=
  ⟨_, _, _, rfl, rfl,
    runWorkflow_entry_node (constExec (.string "done") "go") "wf" emptyObject
      (exampleWorld [authNode, routerNode] []) _ _ (exampleWorkflow [authNode, routerNode] [])
      _ rfl rfl rfl
      (by intro node hnode
          simp only [exampleWorkflow, List.mem_cons, List.mem_singleton, List.not_mem_nil,
            or_false] at hnode
          rcases hnode with rfl | rfl
          · simp [authNode]
          · simp [routerNode])
      ⟨routerNode, by simp [exampleWorkflow], Or.inr ⟨routerAgent, rfl, Or.inl (by decide)⟩⟩⟩

/-! ## C10: failure of the executor -/

/-- An invocation that throws is the last pass of the loop, which throws the same
error. -/
theorem LoopRun.failed_call {σ : Type} {exec : StepExecutor σ} {workflow : Workflow}
    {runId : Nat} {st : LoopState} {w : World σ} {new : List ExecCall}
    {r : Except JsError LoopState} {w1 : World σ}
    (h : LoopRun exec workflow runId st w new r w1) :
    ∀ i call error, new[i]? = some call → call.result = .error error →
      new.length = i + 1 ∧ r = .error error := by
  induction h with
  | exit_none st w _ => intro i call e hc; simp at hc
  | exit_ceiling st w node _ _ => intro i call e hc; simp at hc
  | unbound st w node _ _ _ => intro i call e hc; simp at hc
  | stop st w node agent _ _ _ _ => intro i call e hc; simp at hc
  | exec_error st w node agent error s _ _ _ _ _ =>
    intro i call e hc hres
    cases i with
    | zero =>
      simp only [List.getElem?_cons_zero, Option.some.injEq] at hc
      subst hc
      simp only [callOf, Except.error.injEq] at hres
      subst hres
      exact ⟨rfl, rfl⟩
    | succ i => simp at hc
  | complete st w node agent stepResult s _ _ _ _ _ _ =>
    intro i call e hc hres
    cases i with
    | zero =>
      simp only [List.getElem?_cons_zero, Option.some.injEq] at hc
      subst hc
      simp [callOf] at hres
    | succ i => simp at hc
  | dead_end st w node agent stepResult s _ _ _ _ _ _ _ =>
    intro i call e hc hres
    cases i with
    | zero =>
      simp only [List.getElem?_cons_zero, Option.some.injEq] at hc
      subst hc
      simp [callOf] at hres
    | succ i => simp at hc
  | advance st w node agent stepResult s nextEdge new r w1 _ _ _ _ _ _ _ _ ih =>
    intro i call e hc hres
    cases i with
    | zero =>
      simp only [List.getElem?_cons_zero, Option.some.injEq] at hc
      subst hc
      simp [callOf] at hres
    | succ i =>
      simp only [List.getElem?_cons_succ] at hc
      obtain ⟨hlen, hr⟩ := ih i call e hc hres
      exact ⟨by simp only [List.length_cons]; omega, hr⟩

/-- The events the loop logs are `workflow_step` events of the run. -/
theorem eventsOf_type (runId : Nat) (new : List ExecCall) :
    ∀ k, ∀ event ∈ eventsOf runId k new,
      event.event_type = "workflow_step" ∧ event.workflow_run_id = some runId := by
  induction new with
  | nil => intro k event h; simp [eventsOf] at h
  | cons call rest ih =>
    intro k event h
    unfold eventsOf at h
    split at h
    · rcases List.mem_cons.mp h with rfl | h
      · exact ⟨rfl, rfl⟩
      · exact ih (k + 1) event h
    · exact ih (k + 1) event h

/-- C10: when the invocation number `i + 1` of a run throws, the executor is invoked
exactly `i + 1` times (no retry, no later step), `runWorkflow` throws that same error,
the row of the run is updated to status `failed` with the message of the error, and the
events the run logs end with a `workflow_error` event for the run and hold no
`workflow_complete` event. -/
theorem runWorkflow_executor_failure {σ : Type} (exec : StepExecutor σ)
    (workflowId : String) (input : JsValue) (w : World σ) (r : Except JsError RunResult)
    (w1 : World σ) (new : List ExecCall) (i : Nat) (call : ExecCall) (error : JsError)
    (h : runWorkflow exec workflowId input w = some (r, w1))
    (hnew : w1.calls = w.calls ++ new)
    (hcall : new[i]? = some call)
    (hthrow : call.result = .error error) :
    new.length = i + 1 ∧
    r = .error error ∧
    w1.db.workflow_runs = w.db.workflow_runs ++
      [{ id := freshRunId w.db, workflow_id := workflowId, status := "failed",
         input_data := defaultInput input, error_message := some error.message }] ∧
    ∃ events, w1.db.logs = w.db.logs ++ events ∧
      events.getLast? =
        some { event_type := "workflow_error", workflow_run_id := some (freshRunId w.db),
               details := .workflow_error workflowId error.message } ∧
      ∀ event ∈ events, event.event_type ≠ "workflow_complete" := by
  have hne : new ≠ [] := by
    intro hnil
    rw [hnil] at hcall
    simp at hcall
  obtain ⟨workflow, startNode, rl, w3, _, _, hloop, hsettle⟩ :=
    runWorkflow_calls_inv h hnew hne
  obtain ⟨hlen, hrl⟩ := hloop.failed_call i call error hcall hthrow
  subst hrl
  obtain ⟨_, hlogs, hruns, _⟩ := hloop.frame
  obtain ⟨_, _, b3, b4, _⟩ := beginRun_snd w workflowId workflow (defaultInput input)
  rw [b3] at hruns
  rw [b4] at hlogs
  obtain ⟨c1, _, _, c4, c5, _⟩ :=
    catchBlock_spec w w3 workflowId (defaultInput input) error hruns
  have hr : r = (catchBlock workflowId (freshRunId w.db) error w3).1 := by
    rw [show r = (r, w1).1 from rfl, hsettle]
    rfl
  have hw : w1 = (catchBlock workflowId (freshRunId w.db) error w3).2 := by
    rw [show w1 = (r, w1).2 from rfl, hsettle]
    rfl
  refine ⟨hlen, by rw [hr, c1], by rw [hw, c4], ?_⟩
  refine ⟨[{ event_type := "workflow_start", workflow_run_id := some (freshRunId w.db),
             details := .workflow_start workflowId workflow.name (defaultInput input) }] ++
      eventsOf (freshRunId w.db) 0 new ++
      [{ event_type := "workflow_error", workflow_run_id := some (freshRunId w.db),
         details := .workflow_error workflowId error.message }], ?_, ?_, ?_⟩
  · rw [hw, c5, hlogs]
    simp [initialState]
  · exact List.getLast?_concat _
  · intro event hevent
    simp only [List.mem_append, List.mem_singleton] at hevent
    rcases hevent with (rfl | hstep) | rfl
    · show ("workflow_start" : String) ≠ "workflow_complete"
      decide
    · rw [(eventsOf_type _ _ _ event hstep).1]
      decide
    · show ("workflow_error" : String) ≠ "workflow_complete"
      decide

/-- C10, witness: on the cycle, the step on the router node succeeds and the step on
the auth node, the second invocation, throws. -/
theorem runWorkflow_executor_failure_witness :
    ∃ (r : Except JsError RunResult) (w1 : World Unit) (new : List ExecCall)
      (call : ExecCall) (error : JsError),
      runWorkflow failingExec "wf" emptyObject cycleWorld = some (r, w1) ∧
      w1.calls = cycleWorld.calls ++ new ∧
      new[1]? = some call ∧ call.result = .error error ∧
      error.message = "executor failed" ∧
      new.length = 1 + 1 ∧
      r = .error error ∧
      w1.db.workflow_runs = cycleWorld.db.workflow_runs ++
        [{ id := freshRunId cycleWorld.db, workflow_id := "wf", status := "failed",
           input_data := defaultInput emptyObject,
           error_message := some error.message }] ∧
      ∃ events, w1.db.logs = cycleWorld.db.logs ++ events ∧
        events.getLast? =
          some { event_type := "workflow_error",
                 workflow_run_id := some (freshRunId cycleWorld.db),
                 details := .workflow_error "wf" error.message } ∧
        ∀ event ∈ events, event.event_type ≠ "workflow_complete" :=
  ⟨_, _, _, _, _, rfl, rfl, rfl, rfl, rfl,
    runWorkflow_executor_failure failingExec "wf" emptyObject cycleWorld _ _ _ 1 _ _
      rfl rfl rfl rfl⟩

/-! ## The writes of a run -/

/-- What settling the `try` statement writes, for a loop that wrote nothing to
`workflow_runs`: the terminal update of the row of the run, and the last event. -/
theorem settle_spec {σ : Type} (w w3 : World σ) (workflowId : String)
    (initialInput : JsValue) (rl : Except JsError LoopState)
    (h : w3.db.workflow_runs = w.db.workflow_runs ++
      [{ id := freshRunId w.db, workflow_id := workflowId, status := "running",
         input_data := initialInput }]) :
    (settle workflowId (freshRunId w.db) rl w3).2.db.workflow_runs =
      w.db.workflow_runs ++
        [finalRow (freshRunId w.db) workflowId initialInput
          (settle workflowId (freshRunId w.db) rl w3).1] ∧
    (settle workflowId (freshRunId w.db) rl w3).2.db.logs =
      w3.db.logs ++
        [finalEvent (freshRunId w.db) workflowId
          (settle workflowId (freshRunId w.db) rl w3).1] ∧
    (settle workflowId (freshRunId w.db) rl w3).2.db.run_writes =
      w3.db.run_writes ++
        [.update (freshRunId w.db)
          (finalStatus (settle workflowId (freshRunId w.db) rl w3).1)] := by
  cases rl with
  | error error =>
    obtain ⟨_, _, _, c4, c5, c6⟩ := catchBlock_spec w w3 workflowId initialInput error h
    exact ⟨c4, c5, c6⟩
  | ok st =>
    obtain ⟨_, _, _, c4, c5, c6⟩ := completion_spec w w3 workflowId initialInput st h
    exact ⟨c4, c5, c6⟩

/-- The writes of a call of `runWorkflow` that loaded its workflow: the row of the run,
inserted as `running` and updated once, to `completed` or `failed`; and the events
`workflow_start`, one `workflow_step` for each successful invocation, then
`workflow_complete` or `workflow_error`. -/
theorem runWorkflow_writes {σ : Type} {exec : StepExecutor σ} {workflowId : String}
    {input : JsValue} {w : World σ} {r : Except JsError RunResult} {w1 : World σ}
    {workflow : Workflow} {new : List ExecCall}
    (h : runWorkflow exec workflowId input w = some (r, w1))
    (hwf : getWorkflow w.db workflowId = .ok workflow)
    (hnew : w1.calls = w.calls ++ new) :
    w1.db.workflow_runs = w.db.workflow_runs ++
      [finalRow (freshRunId w.db) workflowId (defaultInput input) r] ∧
    w1.db.run_writes = w.db.run_writes ++
      [.insert (freshRunId w.db) "running", .update (freshRunId w.db) (finalStatus r)] ∧
    w1.db.logs = w.db.logs ++
      (startEvent (freshRunId w.db) workflowId workflow.name (defaultInput input) ::
        eventsOf (freshRunId w.db) 0 new) ++
      [finalEvent (freshRunId w.db) workflowId r] := by
  obtain ⟨_, _, b3, b4, b5⟩ := beginRun_snd w workflowId workflow (defaultInput input)
  rcases runWorkflow_inv h with ⟨error, hwf', _, _⟩ | ⟨workflow', error, hwf', _, hc⟩ |
    ⟨workflow', startNode, new', rl, w3, hwf', hs, hloop, hsettle⟩
  · rw [hwf] at hwf'; cases hwf'
  · rw [hwf] at hwf'; cases hwf'
    have hr : r = .error error := by
      rw [show r = (r, w1).1 from rfl, hc]; rfl
    have hw : w1 = (catchBlock workflowId (freshRunId w.db) error
        (beginRun w workflowId workflow (defaultInput input)).2).2 := by rw [← hc]
    obtain ⟨_, c2, _, c4, c5, c6⟩ := catchBlock_spec w
      (beginRun w workflowId workflow (defaultInput input)).2 workflowId (defaultInput input)
      error b3
    have hcalls : w1.calls = w.calls := by rw [hw, c2]; rfl
    rw [hcalls] at hnew
    have hnil : new = [] := List.self_eq_append_right.mp hnew
    subst hnil
    subst hr
    refine ⟨by rw [hw, c4]; rfl, ?_, ?_⟩
    · rw [hw, c6, b5]; simp [finalStatus]
    · rw [hw, c5, b4]; simp [eventsOf, finalEvent, startEvent]
  · rw [hwf] at hwf'; cases hwf'
    have hr : r = (settle workflowId (freshRunId w.db) rl w3).1 := by rw [← hsettle]
    have hw : w1 = (settle workflowId (freshRunId w.db) rl w3).2 := by rw [← hsettle]
    have hcalls : w1.calls = w.calls ++ new' := by
      rw [hw, settle_calls, hloop.frame.1]
      rfl
    rw [hcalls] at hnew
    have hnn : new' = new := List.append_cancel_left hnew
    subst hnn
    obtain ⟨_, hlogs, hruns, hwrites⟩ := hloop.frame
    rw [b3] at hruns
    rw [b4] at hlogs
    rw [b5] at hwrites
    obtain ⟨s1, s2, s3⟩ := settle_spec w w3 workflowId (defaultInput input) rl hruns
    rw [← hr] at s1 s2 s3
    rw [← hw] at s1 s2 s3
    refine ⟨s1, ?_, ?_⟩
    · rw [s3, hwrites]; simp
    · rw [s2, hlogs]; simp [initialState, startEvent]

/-! ## C11: failure on the second step -/

/-- A trace of two invocations is made of its first and its second. -/
theorem eq_pair_of_getElem? (new : List ExecCall) (c1 c2 : ExecCall)
    (hlen : new.length = 2) (h1 : new[0]? = some c1) (h2 : new[1]? = some c2) :
    new = [c1, c2] := by
  match new, hlen, h1, h2 with
  | [a, b], _, h1, h2 =>
    simp only [List.getElem?_cons_zero, Option.some.injEq] at h1
    simp only [List.getElem?_cons_succ, List.getElem?_cons_zero, Option.some.injEq] at h2
    rw [h1, h2]

/-- C11, amended: when the first step of a run succeeds and is routed to a second node
on which the executor throws, `runWorkflow` throws that error and the row of the run
ends with status `failed` and the message of the error, and without execution path: the
update of the `catch` block writes no `execution_path`, which keeps its value at
insertion (none). The record of step 1 shows only in the events of the run, which are
`workflow_start`, the `workflow_step` of step 1 and `workflow_error`. -/
theorem runWorkflow_failure_on_step_two {σ : Type} (exec : StepExecutor σ)
    (workflowId : String) (input : JsValue) (w : World σ) (r : Except JsError RunResult)
    (w1 : World σ) (workflow : Workflow) (new : List ExecCall) (call1 call2 : ExecCall)
    (stepResult : StepResult) (error : JsError)
    (h : runWorkflow exec workflowId input w = some (r, w1))
    (hwf : getWorkflow w.db workflowId = .ok workflow)
    (hnew : w1.calls = w.calls ++ new)
    (h1 : new[0]? = some call1) (hok : call1.result = .ok stepResult)
    (h2 : new[1]? = some call2) (hthrow : call2.result = .error error) :
    r = .error error ∧
    w1.db.workflow_runs = w.db.workflow_runs ++
      [{ id := freshRunId w.db, workflow_id := workflowId, status := "failed",
         input_data := defaultInput input, output_data := none, execution_path := none,
         error_message := some error.message }] ∧
    w1.db.logs = w.db.logs ++
      [startEvent (freshRunId w.db) workflowId workflow.name (defaultInput input),
       stepEvent (freshRunId w.db) 1 call1.agent call1.input stepResult,
       finalEvent (freshRunId w.db) workflowId (.error error)] := by
  have hne : new ≠ [] := by
    intro hnil
    rw [hnil] at h1
    simp at h1
  obtain ⟨workflow', startNode, rl, w3, _, _, hloop, hsettle⟩ :=
    runWorkflow_calls_inv h hnew hne
  obtain ⟨hlen, hrl⟩ := hloop.failed_call 1 call2 error h2 hthrow
  subst hrl
  have hr : r = .error error := by
    rw [show r = (r, w1).1 from rfl, hsettle]
    rfl
  subst hr
  have hpair := eq_pair_of_getElem? new call1 call2 hlen h1 h2
  obtain ⟨hruns, _, hlogs⟩ := runWorkflow_writes h hwf hnew
  refine ⟨rfl, hruns, ?_⟩
  rw [hlogs, hpair]
  simp [eventsOf, hok, hthrow]

/-- C11, witness: on the cycle, the step on the router node succeeds and the step on
the auth node throws. -/
theorem runWorkflow_failure_on_step_two_witness :
    ∃ (r : Except JsError RunResult) (w1 : World Unit) (new : List ExecCall)
      (call1 call2 : ExecCall) (stepResult : StepResult) (error : JsError),
      runWorkflow failingExec "wf" emptyObject cycleWorld = some (r, w1) ∧
      w1.calls = cycleWorld.calls ++ new ∧
      new[0]? = some call1 ∧ call1.result = .ok stepResult ∧
      new[1]? = some call2 ∧ call2.result = .error error ∧
      r = .error error ∧
      w1.db.workflow_runs = cycleWorld.db.workflow_runs ++
        [{ id := freshRunId cycleWorld.db, workflow_id := "wf", status := "failed",
           input_data := defaultInput emptyObject, output_data := none,
           execution_path := none, error_message := some error.message }] ∧
      w1.db.logs = cycleWorld.db.logs ++
        [startEvent (freshRunId cycleWorld.db) "wf" cycleWorkflow.name
           (defaultInput emptyObject),
         stepEvent (freshRunId cycleWorld.db) 1 call1.agent call1.input stepResult,
         finalEvent (freshRunId cycleWorld.db) "wf" (.error error)] :=
  ⟨_, _, _, _, _, _, _, rfl, rfl, rfl, rfl, rfl, rfl,
    runWorkflow_failure_on_step_two failingExec "wf" emptyObject cycleWorld _ _
      cycleWorkflow _ _ _ _ _ rfl rfl rfl rfl rfl rfl rfl⟩

/-- C11, counterexample: on the cycle, the first step succeeds and is routed to the
auth node, on which the executor throws; the row of the run ends with status `failed`
and the message, and its stored execution path is none, not a path of one record. -/
theorem runWorkflow_failure_on_step_two_counterexample :
    ∃ (r : Except JsError RunResult) (w1 : World Unit) (call1 call2 : ExecCall)
      (stepResult : StepResult) (error : JsError) (row : WorkflowRun),
      runWorkflow failingExec "wf" emptyObject cycleWorld = some (r, w1) ∧
      w1.calls[0]? = some call1 ∧ call1.result = .ok stepResult ∧
      w1.calls[1]? = some call2 ∧ call2.result = .error error ∧
      w1.db.workflow_runs = [row] ∧
      row.status = "failed" ∧
      row.error_message = some "executor failed" ∧
      row.execution_path = none :=
  ⟨_, _, _, _, _, _, _, rfl, rfl, rfl, rfl, rfl, rfl, rfl, rfl, rfl⟩

/-! ## C12: the lifecycle of the run record -/

/-- A call of `runWorkflow` only appends to the trace of invocations. -/
theorem runWorkflow_calls_exist {σ : Type} {exec : StepExecutor σ} {workflowId : String}
    {input : JsValue} {w : World σ} {r : Except JsError RunResult} {w1 : World σ}
    (h : runWorkflow exec workflowId input w = some (r, w1)) :
    ∃ new, w1.calls = w.calls ++ new := by
  rcases runWorkflow_inv h with ⟨error, _, _, hw⟩ | ⟨workflow, error, _, _, hc⟩ |
    ⟨workflow, startNode, new, rl, w3, _, _, hloop, hsettle⟩
  · exact ⟨[], by rw [hw]; simp⟩
  · have hw : w1 = (catchBlock workflowId (freshRunId w.db) error
        (beginRun w workflowId workflow (defaultInput input)).2).2 := by rw [← hc]
    exact ⟨[], by rw [hw]; simp [catchBlock, beginRun, logEvent]⟩
  · have hw : w1 = (settle workflowId (freshRunId w.db) rl w3).2 := by rw [← hsettle]
    refine ⟨new, ?_⟩
    rw [hw, settle_calls, hloop.frame.1]
    rfl

/-- C12: a call of `runWorkflow` whose workflow does not load writes nothing; a call
whose workflow loads writes to `workflow_runs` exactly twice: it inserts the row of the
run with status `running`, and it updates that row once, last, either to `completed`
with the returned final output and execution path and no error message (and the call
returns), or to `failed` with the message of the error and neither output nor path (and
the call throws). The row keeps the initial input as `input_data`. -/
theorem runWorkflow_lifecycle {σ : Type} (exec : StepExecutor σ) (workflowId : String)
    (input : JsValue) (w : World σ) (r : Except JsError RunResult) (w1 : World σ)
    (h : runWorkflow exec workflowId input w = some (r, w1)) :
    (∀ error, getWorkflow w.db workflowId = .error error →
      w1.db.run_writes = w.db.run_writes ∧ w1.db.workflow_runs = w.db.workflow_runs) ∧
    (∀ workflow, getWorkflow w.db workflowId = .ok workflow →
      ∃ row, w1.db.workflow_runs = w.db.workflow_runs ++ [row] ∧
        row.id = freshRunId w.db ∧ row.input_data = defaultInput input ∧
        ((∃ res, r = .ok res ∧
            w1.db.run_writes = w.db.run_writes ++
              [.insert (freshRunId w.db) "running",
               .update (freshRunId w.db) "completed"] ∧
            row.status = "completed" ∧ row.output_data = some res.final_output ∧
            row.execution_path = some res.execution_path ∧ row.error_message = none) ∨
          (∃ error, r = .error error ∧
            w1.db.run_writes = w.db.run_writes ++
              [.insert (freshRunId w.db) "running", .update (freshRunId w.db) "failed"] ∧
            row.status = "failed" ∧ row.error_message = some error.message ∧
            row.output_data = none ∧ row.execution_path = none))) := by
  refine ⟨?_, ?_⟩
  · intro error hwf
    rw [runWorkflow_load_error exec workflowId input w error hwf] at h
    cases h
    exact ⟨rfl, rfl⟩
  · intro workflow hwf
    obtain ⟨new, hnew⟩ := runWorkflow_calls_exist h
    obtain ⟨hruns, hwrites, _⟩ := runWorkflow_writes h hwf hnew
    refine ⟨_, hruns, ?_⟩
    cases r with
    | ok res => exact ⟨rfl, rfl, Or.inl ⟨res, rfl, hwrites, rfl, rfl, rfl, rfl⟩⟩
    | error error => exact ⟨rfl, rfl, Or.inr ⟨error, rfl, hwrites, rfl, rfl, rfl, rfl⟩⟩

/-- C12, witness: the run of one step on the router node alone. -/
theorem runWorkflow_lifecycle_witness :
    ∃ (r : Except JsError RunResult) (w1 : World Unit) (row : WorkflowRun)
      (res : RunResult),
      runWorkflow (constExec (.string "done") "go") "wf" emptyObject
        (exampleWorld [routerNode] []) = some (r, w1) ∧
      w1.db.workflow_runs = (exampleWorld [routerNode] []).db.workflow_runs ++ [row] ∧
      r = .ok res ∧
      w1.db.run_writes = [.insert 0 "running", .update 0 "completed"] ∧
      row.status = "completed" ∧ row.output_data = some res.final_output ∧
      row.execution_path = some res.execution_path ∧ row.error_message = none ∧
      ((∀ error, getWorkflow (exampleWorld [routerNode] []).db "wf" = .error error →
        w1.db.run_writes = (exampleWorld [routerNode] []).db.run_writes ∧
        w1.db.workflow_runs = (exampleWorld [routerNode] []).db.workflow_runs) ∧
       (∀ workflow, getWorkflow (exampleWorld [routerNode] []).db "wf" = .ok workflow →
        ∃ row, w1.db.workflow_runs =
            (exampleWorld [routerNode] []).db.workflow_runs ++ [row] ∧
          row.id = freshRunId (exampleWorld [routerNode] []).db ∧
          row.input_data = defaultInput emptyObject ∧
          ((∃ res, r = .ok res ∧
              w1.db.run_writes = (exampleWorld [routerNode] []).db.run_writes ++
                [.insert (freshRunId (exampleWorld [routerNode] []).db) "running",
                 .update (freshRunId (exampleWorld [routerNode] []).db) "completed"] ∧
              row.status = "completed" ∧ row.output_data = some res.final_output ∧
              row.execution_path = some res.execution_path ∧ row.error_message = none) ∨
            (∃ error, r = .error error ∧
              w1.db.run_writes = (exampleWorld [routerNode] []).db.run_writes ++
                [.insert (freshRunId (exampleWorld [routerNode] []).db) "running",
                 .update (freshRunId (exampleWorld [routerNode] []).db) "failed"] ∧
              row.status = "failed" ∧ row.error_message = some error.message ∧
              row.output_data = none ∧ row.execution_path = none)))) :=
  ⟨_, _, _, _, rfl, rfl, rfl, rfl, rfl, rfl, rfl, rfl,
    runWorkflow_lifecycle (constExec (.string "done") "go") "wf" emptyObject
      (exampleWorld [routerNode] []) _ _ rfl⟩

/-! ## C15: unknown workflow -/

/-- Loading fails when no row of `workflows` has the id. -/
theorem getWorkflow_unknown (db : Db) (id : String)
    (h : ∀ row ∈ db.workflows, row.id ≠ id) :
    getWorkflow db id = .error singleRowError := by
  have hfilter : db.workflows.filter (fun row => row.id == id) = [] := by
    rw [List.filter_eq_nil_iff]
    intro row hrow
    simpa using h row hrow
  simp [getWorkflow, singleWorkflow, hfilter]

/-- C15: when loading the workflow fails, as it does when no workflow has the id,
`runWorkflow` throws the error of the load and leaves the world as it was: no row in
`workflow_runs`, no write to it, no invocation of the executor, no event. -/
theorem runWorkflow_unknown_workflow {σ : Type} (exec : StepExecutor σ)
    (workflowId : String) (input : JsValue) (w : World σ) (error : JsError)
    (hload : getWorkflow w.db workflowId = .error error) :
    ∃ w1, runWorkflow exec workflowId input w = some (.error error, w1) ∧
      w1 = w ∧
      w1.db.workflow_runs = w.db.workflow_runs ∧
      w1.db.run_writes = w.db.run_writes ∧
      w1.calls = w.calls ∧
      w1.db.logs = w.db.logs ∧
      ((∀ row ∈ w.db.workflows, row.id ≠ workflowId) → error = singleRowError) := by
  refine ⟨w, ?_, rfl, rfl, rfl, rfl, rfl, ?_⟩
  · simp only [runWorkflow, hload]
  · intro hno
    rw [getWorkflow_unknown w.db workflowId hno] at hload
    exact (Except.error.inj hload).symm

/-- C15, witness: the example world has no workflow `missing`. -/
theorem runWorkflow_unknown_workflow_witness :
    ∃ w1, runWorkflow (constExec .null "go") "missing" emptyObject
        (exampleWorld [routerNode] []) = some (.error singleRowError, w1) ∧
      w1 = exampleWorld [routerNode] [] ∧
      w1.db.workflow_runs = (exampleWorld [routerNode] []).db.workflow_runs ∧
      w1.db.run_writes = (exampleWorld [routerNode] []).db.run_writes ∧
      w1.calls = (exampleWorld [routerNode] []).calls ∧
      w1.db.logs = (exampleWorld [routerNode] []).db.logs ∧
      ((∀ row ∈ (exampleWorld [routerNode] []).db.workflows, row.id ≠ "missing") →
        singleRowError = singleRowError) :=
  runWorkflow_unknown_workflow (constExec .null "go") "missing" emptyObject
    (exampleWorld [routerNode] []) singleRowError rfl

/-! ## C17: what a run returns is what it stores and logs -/

/-- C17: when `runWorkflow` returns, the returned status is `completed`; the terminal
update of the row of the run, which is the last write to `workflow_runs`, stores the
returned final output as `output_data` and the returned `execution_path`; and the last
event logged is the `workflow_complete` event of the run, which carries the same path
and final output (and the returned `total_steps`). -/
theorem runWorkflow_returns_what_it_stores {σ : Type} (exec : StepExecutor σ)
    (workflowId : String) (input : JsValue) (w : World σ) (res : RunResult) (w1 : World σ)
    (h : runWorkflow exec workflowId input w = some (.ok res, w1)) :
    res.status = "completed" ∧
    res.run_id = freshRunId w.db ∧
    w1.db.workflow_runs = w.db.workflow_runs ++
      [{ id := res.run_id, workflow_id := workflowId, status := "completed",
         input_data := defaultInput input, output_data := some res.final_output,
         execution_path := some res.execution_path }] ∧
    w1.db.run_writes.getLast? = some (.update res.run_id "completed") ∧
    w1.db.logs.getLast? =
      some { event_type := "workflow_complete", workflow_run_id := some res.run_id,
             details := .workflow_complete workflowId res.execution_path res.final_output
               res.total_steps } := by
  obtain ⟨workflow, startNode, new, st, w3, hwf, _, _, _, _, hnew⟩ := runWorkflow_ok_inv h
  obtain ⟨hid, hstatus, _⟩ := runWorkflow_ok_runs h
  obtain ⟨hruns, hwrites, hlogs⟩ := runWorkflow_writes h hwf hnew
  refine ⟨hstatus, hid, ?_, ?_, ?_⟩
  · rw [hruns, hid]; rfl
  · rw [hwrites, hid]; simp [finalStatus]
  · rw [hlogs, hid, List.getLast?_concat]; rfl

/-- C17, witness: the run of one step on the router node alone. -/
theorem runWorkflow_returns_what_it_stores_witness :
    ∃ (res : RunResult) (w1 : World Unit),
      runWorkflow (constExec (.string "done") "go") "wf" emptyObject
        (exampleWorld [routerNode] []) = some (.ok res, w1) ∧
      res.status = "completed" ∧
      res.run_id = freshRunId (exampleWorld [routerNode] []).db ∧
      w1.db.workflow_runs = (exampleWorld [routerNode] []).db.workflow_runs ++
        [{ id := res.run_id, workflow_id := "wf", status := "completed",
           input_data := defaultInput emptyObject, output_data := some res.final_output,
           execution_path := some res.execution_path }] ∧
      w1.db.run_writes.getLast? = some (.update res.run_id "completed") ∧
      w1.db.logs.getLast? =
        some { event_type := "workflow_complete", workflow_run_id := some res.run_id,
               details := .workflow_complete "wf" res.execution_path res.final_output
                 res.total_steps } :=
  ⟨_, _, rfl,
    runWorkflow_returns_what_it_stores (constExec (.string "done") "go") "wf" emptyObject
      (exampleWorld [routerNode] []) _ _ rfl⟩

/-! ## C18: the order of the events of a run -/

/-- When every invocation of a trace succeeded, there is one event for each. -/
theorem eventsOf_length_ok (runId : Nat) (new : List ExecCall) :
    ∀ k, (∀ call ∈ new, ∃ stepResult, call.result = .ok stepResult) →
      (eventsOf runId k new).length = new.length := by
  induction new with
  | nil => intro k _; rfl
  | cons call rest ih =>
    intro k hok
    obtain ⟨stepResult, hres⟩ := hok call (List.mem_cons_self _ _)
    have := ih (k + 1) (fun c hc => hok c (List.mem_cons_of_mem _ hc))
    simp only [eventsOf, hres, List.length_cons, this]

/-- In a trace where every invocation but the last succeeded, the event at position `i`
is the `workflow_step` event of the invocation at position `i`, which succeeded, with
step `k + i + 1`; and every successful invocation has its event. -/
theorem eventsOf_getElem? (runId : Nat) (new : List ExecCall) :
    ∀ k, (∀ i c1 c2, new[i]? = some c1 → new[i + 1]? = some c2 →
        ∃ stepResult, c1.result = .ok stepResult) →
      ∀ i,
        (∀ call stepResult, new[i]? = some call → call.result = .ok stepResult →
          (eventsOf runId k new)[i]? =
            some (stepEvent runId (k + i + 1) call.agent call.input stepResult)) ∧
        (∀ event, (eventsOf runId k new)[i]? = some event →
          ∃ call stepResult, new[i]? = some call ∧ call.result = .ok stepResult ∧
            event = stepEvent runId (k + i + 1) call.agent call.input stepResult) := by
  induction new with
  | nil =>
    intro k _ i
    exact ⟨fun call sr h => by simp at h, fun event h => by simp [eventsOf] at h⟩
  | cons call rest ih =>
    intro k hl i
    have hrest : ∀ i c1 c2, rest[i]? = some c1 → rest[i + 1]? = some c2 →
        ∃ stepResult, c1.result = .ok stepResult := by
      intro j c1 c2 h1 h2
      exact hl (j + 1) c1 c2 (by simpa using h1) (by simpa using h2)
    cases hres : call.result with
    | error error =>
      have hnil : rest = [] := by
        cases rest with
        | nil => rfl
        | cons c2 rest' =>
          obtain ⟨sr, hsr⟩ := hl 0 call c2 (by simp) (by simp)
          rw [hres] at hsr
          cases hsr
      subst hnil
      refine ⟨?_, ?_⟩
      · intro c sr hc hok
        cases i with
        | zero =>
          simp only [List.getElem?_cons_zero, Option.some.injEq] at hc
          subst hc
          rw [hres] at hok
          cases hok
        | succ i => simp at hc
      · intro event hevent
        simp [eventsOf, hres] at hevent
    | ok stepResult =>
      cases i with
      | zero =>
        refine ⟨?_, ?_⟩
        · intro c sr hc hok
          simp only [List.getElem?_cons_zero, Option.some.injEq] at hc
          subst hc
          rw [hres] at hok
          cases hok
          simp [eventsOf, hres]
        · intro event hevent
          simp only [eventsOf, hres, List.getElem?_cons_zero, Option.some.injEq] at hevent
          exact ⟨call, stepResult, by simp, hres, hevent.symm⟩
      | succ i =>
        obtain ⟨ih1, ih2⟩ := ih (k + 1) hrest i
        refine ⟨?_, ?_⟩
        · intro c sr hc hok
          simp only [List.getElem?_cons_succ] at hc
          have := ih1 c sr hc hok
          simp only [eventsOf, hres, List.getElem?_cons_succ, this]
          congr 2
          omega
        · intro event hevent
          simp only [eventsOf, hres, List.getElem?_cons_succ] at hevent
          obtain ⟨c, sr, hc, hok, hev⟩ := ih2 event hevent
          refine ⟨c, sr, by simpa using hc, hok, ?_⟩
          rw [hev]
          congr 1
          omega

/-- In the trace of a run, every invocation that is followed by another succeeded. -/
theorem runWorkflow_trace_ok {σ : Type} {exec : StepExecutor σ} {workflowId : String}
    {input : JsValue} {w : World σ} {r : Except JsError RunResult} {w1 : World σ}
    {new : List ExecCall}
    (h : runWorkflow exec workflowId input w = some (r, w1))
    (hnew : w1.calls = w.calls ++ new) :
    ∀ i c1 c2, new[i]? = some c1 → new[i + 1]? = some c2 →
      ∃ stepResult, c1.result = .ok stepResult := by
  intro i c1 c2 h1 h2
  have hne : new ≠ [] := by
    intro hnil
    rw [hnil] at h1
    simp at h1
  obtain ⟨workflow, startNode, rl, w3, _, _, hloop, _⟩ := runWorkflow_calls_inv h hnew hne
  obtain ⟨sr, _, hsr, _⟩ := hloop.links.2.2 i c1 c2 h1 h2
  exact ⟨sr, hsr⟩

/-- C18: the events a run logs, once its workflow is loaded, are in order: the
`workflow_start` event; then the `workflow_step` events `steps`, the one at position
`i` being the event of invocation `i + 1`, which succeeded, with `step = i + 1` and the
input, output and intent of that step, and every successful invocation having its
event; then one last event, `workflow_complete` when the call returns and
`workflow_error` when it throws. When the call returns, there are as many step events
as records in `execution_path`, and the event at position `i` carries step `i + 1` and
the agent name, input, output and intent of the record at position `i`. -/
theorem runWorkflow_event_order {σ : Type} (exec : StepExecutor σ) (workflowId : String)
    (input : JsValue) (w : World σ) (r : Except JsError RunResult) (w1 : World σ)
    (workflow : Workflow)
    (h : runWorkflow exec workflowId input w = some (r, w1))
    (hwf : getWorkflow w.db workflowId = .ok workflow) :
    ∃ (new : List ExecCall) (steps : List LogEvent), w1.calls = w.calls ++ new ∧
      w1.db.logs = w.db.logs ++
        [startEvent (freshRunId w.db) workflowId workflow.name (defaultInput input)] ++
        steps ++ [finalEvent (freshRunId w.db) workflowId r] ∧
      (finalEvent (freshRunId w.db) workflowId r).event_type =
        (match r with
          | .ok _ => "workflow_complete"
          | .error _ => "workflow_error") ∧
      (∀ event ∈ steps, event.event_type = "workflow_step" ∧
        event.workflow_run_id = some (freshRunId w.db)) ∧
      (∀ (i : Nat) (event : LogEvent), steps[i]? = some event →
        ∃ call stepResult, new[i]? = some call ∧ call.result = .ok stepResult ∧
          event.details = .workflow_step (i + 1) call.agent.name call.input
            stepResult.output stepResult.output_intent) ∧
      (∀ (i : Nat) (call : ExecCall) (stepResult : StepResult),
        new[i]? = some call → call.result = .ok stepResult →
        ∃ event, steps[i]? = some event) ∧
      (∀ res, r = .ok res →
        steps.length = res.execution_path.length ∧
        ∀ (i : Nat) (record : StepRecord), res.execution_path[i]? = some record →
          steps[i]? =
            some { event_type := "workflow_step", workflow_run_id := some (freshRunId w.db),
                   details := .workflow_step (i + 1) record.agent_name record.input
                     record.output record.output_intent }) := by
  obtain ⟨new, hnew⟩ := runWorkflow_calls_exist h
  obtain ⟨_, _, hlogs⟩ := runWorkflow_writes h hwf hnew
  have hlinked := runWorkflow_trace_ok h hnew
  have hevents := eventsOf_getElem? (freshRunId w.db) new 0 hlinked
  refine ⟨new, eventsOf (freshRunId w.db) 0 new, hnew, ?_, ?_, ?_, ?_, ?_, ?_⟩
  · rw [hlogs]; simp
  · cases r <;> rfl
  · exact eventsOf_type _ _ _
  · intro i event hevent
    obtain ⟨call, sr, hc, hok, hev⟩ := (hevents i).2 event hevent
    refine ⟨call, sr, hc, hok, ?_⟩
    rw [hev]
    simp [stepEvent]
  · intro i call sr hc hok
    exact ⟨_, (hevents i).1 call sr hc hok⟩
  · intro res hres
    subst hres
    obtain ⟨workflow', startNode, new', st, w3, _, _, hloop, hres, _, hnew'⟩ :=
      runWorkflow_ok_inv h
    rw [hnew] at hnew'
    have hnn : new = new' := List.append_cancel_left hnew'
    subst hnn
    obtain ⟨hpath, hok, _, _⟩ := hloop.path_eq st rfl
    simp only [initialState, List.nil_append] at hpath
    have hrp : res.execution_path = recordsOf 0 new := by rw [hres]; exact hpath
    refine ⟨?_, ?_⟩
    · rw [hrp, eventsOf_length_ok _ _ _ hok, (recordsOf_ok new 0 hok).1]
    · intro i record hrec
      rw [hrp] at hrec
      obtain ⟨call, sr, hc, hcok, hrecord⟩ := recordsOf_getElem? new 0 hok i record hrec
      rw [(hevents i).1 call sr hc hcok, hrecord]
      simp [stepEvent, stepRecord]

/-- C18, witness: on the cycle, a run that throws on its second step logs
`workflow_start`, one `workflow_step` and `workflow_error`. -/
theorem runWorkflow_event_order_witness :
    ∃ (r : Except JsError RunResult) (w1 : World Unit),
      runWorkflow failingExec "wf" emptyObject cycleWorld = some (r, w1) ∧
      w1.db.logs.map (fun event => event.event_type) =
        ["workflow_start", "workflow_step", "workflow_error"] ∧
      ∃ (new : List ExecCall) (steps : List LogEvent), w1.calls = cycleWorld.calls ++ new ∧
        w1.db.logs = cycleWorld.db.logs ++
          [startEvent (freshRunId cycleWorld.db) "wf" cycleWorkflow.name
            (defaultInput emptyObject)] ++
          steps ++ [finalEvent (freshRunId cycleWorld.db) "wf" r] ∧
        (finalEvent (freshRunId cycleWorld.db) "wf" r).event_type =
          (match r with
            | .ok _ => "workflow_complete"
            | .error _ => "workflow_error") ∧
        (∀ event ∈ steps, event.event_type = "workflow_step" ∧
          event.workflow_run_id = some (freshRunId cycleWorld.db)) ∧
        (∀ (i : Nat) (event : LogEvent), steps[i]? = some event →
          ∃ call stepResult, new[i]? = some call ∧ call.result = .ok stepResult ∧
            event.details = .workflow_step (i + 1) call.agent.name call.input
              stepResult.output stepResult.output_intent) ∧
        (∀ (i : Nat) (call : ExecCall) (stepResult : StepResult),
        new[i]? = some call → call.result = .ok stepResult →
          ∃ event, steps[i]? = some event) ∧
        (∀ res, r = .ok res →
          steps.length = res.execution_path.length ∧
          ∀ (i : Nat) (record : StepRecord), res.execution_path[i]? = some record →
            steps[i]? =
              some { event_type := "workflow_step",
                     workflow_run_id := some (freshRunId cycleWorld.db),
                     details := .workflow_step (i + 1) record.agent_name record.input
                       record.output record.output_intent }) :=
  ⟨_, _, rfl, rfl,
    runWorkflow_event_order failingExec "wf" emptyObject cycleWorld _ _ cycleWorkflow
      rfl rfl⟩

/-! ## C19: the chain of inputs and outputs -/

/-- C19: in the `execution_path` a run returns, the input of the first record is the
initial input of the run (the value of the parameter `initialInput`: the argument, or
`{}` by default when the argument is `undefined`), and the input of every later record
is the output of the record before it. -/
theorem runWorkflow_data_chaining {σ : Type} (exec : StepExecutor σ) (workflowId : String)
    (input : JsValue) (w : World σ) (res : RunResult) (w1 : World σ)
    (h : runWorkflow exec workflowId input w = some (.ok res, w1)) :
    (∀ record, res.execution_path[0]? = some record →
      record.input = defaultInput input ∧ (input ≠ .undefined → record.input = input)) ∧
    (∀ i r1 r2, res.execution_path[i]? = some r1 → res.execution_path[i + 1]? = some r2 →
      r2.input = r1.output) := by
  obtain ⟨workflow, startNode, new, st, w3, _, _, hloop, hres, _, _⟩ := runWorkflow_ok_inv h
  obtain ⟨hpath, hok, _, _⟩ := hloop.path_eq st rfl
  simp only [initialState, List.nil_append] at hpath
  have hrp : res.execution_path = recordsOf 0 new := by rw [hres]; exact hpath
  obtain ⟨hhead, _, hlink⟩ := hloop.links
  refine ⟨?_, ?_⟩
  · intro record hrec
    rw [hrp] at hrec
    obtain ⟨call, sr, hc, _, hrecord⟩ := recordsOf_getElem? new 0 hok 0 record hrec
    have hin : record.input = defaultInput input := by
      rw [hrecord]
      exact (hhead call hc).2
    refine ⟨hin, ?_⟩
    intro hdef
    rw [hin]
    cases input <;> first | rfl | exact absurd rfl hdef
  · intro i r1 r2 h1 h2
    rw [hrp] at h1 h2
    obtain ⟨c1, sr1, hc1, hr1, hrec1⟩ := recordsOf_getElem? new 0 hok i r1 h1
    obtain ⟨c2, sr2, hc2, _, hrec2⟩ := recordsOf_getElem? new 0 hok (i + 1) r2 h2
    obtain ⟨sr, _, hsr, _, _, _, hinput⟩ := hlink i c1 c2 hc1 hc2
    rw [hr1] at hsr
    cases hsr
    rw [hrec1, hrec2]
    exact hinput

/-- C19, witness: the run of ten steps on the cycle, started with input `{}`. -/
theorem runWorkflow_data_chaining_witness :
    ∃ (res : RunResult) (w1 : World Unit),
      runWorkflow (constExec (.string "done") "go") "wf" emptyObject cycleWorld =
        some (.ok res, w1) ∧
      (∀ record, res.execution_path[0]? = some record →
        record.input = defaultInput emptyObject ∧
        (emptyObject ≠ .undefined → record.input = emptyObject)) ∧
      (∀ i r1 r2, res.execution_path[i]? = some r1 →
        res.execution_path[i + 1]? = some r2 → r2.input = r1.output) :=
  ⟨_, _, rfl,
    runWorkflow_data_chaining (constExec (.string "done") "go") "wf" emptyObject cycleWorld
      _ _ rfl⟩

/-! ## C20: the number of steps -/

/-- After a step that is routed on, the node to visit next is determined by the
invocations that follow. -/
theorem nextToVisit_cons (workflow : Workflow) (current : Option Node) (call : ExecCall)
    (rest : List ExecCall) (stepResult : StepResult) (nextEdge : Edge)
    (hres : call.result = .ok stepResult)
    (hc : isCompletionIntent stepResult.output_intent = false)
    (hf : workflow.edges.find? (edgeMatches call.node.id stepResult.output_intent) =
      some nextEdge) :
    nextToVisit workflow current (call :: rest) =
      nextToVisit workflow (workflow.nodes.find? (fun n => n.id == nextEdge.to_node_id))
        rest := by
  cases rest with
  | nil => simp [nextToVisit, hres, hc, hf]
  | cons c2 rest' =>
    have hlast : (c2 :: rest').getLast? = some ((c2 :: rest').getLast (by simp)) :=
      List.getLast?_eq_getLast _ _
    simp [nextToVisit, List.getLast?_cons_cons, hlast]

/-- The step count at the end of a loop that ends normally: one more than the number of
invocations when the loop ends on the stop test, that number otherwise. -/
theorem LoopRun.step_count {σ : Type} {exec : StepExecutor σ} {workflow : Workflow}
    {runId : Nat} {st : LoopState} {w : World σ} {new : List ExecCall}
    {r : Except JsError LoopState} {w1 : World σ}
    (h : LoopRun exec workflow runId st w new r w1) :
    ∀ st1, r = .ok st1 →
      (st1.stepCount = st.stepCount + new.length + 1 ∧
        (st.stepCount + new.length < maxSteps ∧
          ∃ node agent, nextToVisit workflow st.currentNode new = some node ∧
            node.agents = some agent ∧ stopCondition agent node = true)) ∨
      (st1.stepCount = st.stepCount + new.length ∧
        ¬ (st.stepCount + new.length < maxSteps ∧
          ∃ node agent, nextToVisit workflow st.currentNode new = some node ∧
            node.agents = some agent ∧ stopCondition agent node = true)) := by
  induction h with
  | exit_none st w hn =>
    intro st1 h; cases h
    refine Or.inr ⟨rfl, ?_⟩
    rintro ⟨_, node, agent, hnext, _⟩
    simp [nextToVisit, hn] at hnext
  | exit_ceiling st w node hn hlt =>
    intro st1 h; cases h
    refine Or.inr ⟨rfl, ?_⟩
    rintro ⟨hlt', _⟩
    simp only [List.length_nil, Nat.add_zero] at hlt'
    exact hlt hlt'
  | unbound st w node _ _ _ => intro st1 h; cases h
  | stop st w node agent hn hlt ha hstop =>
    intro st1 h; cases h
    exact Or.inl ⟨rfl, by simpa using hlt, node, agent, by simp [nextToVisit, hn], ha, hstop⟩
  | exec_error st w node agent error s _ _ _ _ _ => intro st1 h; cases h
  | complete st w node agent stepResult s _ _ _ _ _ hc =>
    intro st1 h; cases h
    refine Or.inr ⟨rfl, ?_⟩
    rintro ⟨_, node', agent', hnext, _⟩
    simp [nextToVisit, callOf, hc] at hnext
  | dead_end st w node agent stepResult s _ _ _ _ _ hc hf =>
    intro st1 h; cases h
    refine Or.inr ⟨rfl, ?_⟩
    rintro ⟨_, node', agent', hnext, _⟩
    simp [nextToVisit, callOf, hc, hf] at hnext
  | advance st w node agent stepResult s nextEdge new r w1 _ _ _ _ _ hc hf _ ih =>
    intro st1 h
    have hnext := nextToVisit_cons workflow st.currentNode
      (callOf node agent st.currentInput (.ok stepResult)) new stepResult nextEdge rfl hc hf
    have hcount : st.stepCount + (callOf node agent st.currentInput
        (Except.ok stepResult) :: new).length = st.stepCount + 1 + new.length := by
      simp only [List.length_cons]; omega
    rw [hnext, hcount]
    simpa [advanceTo, pushStep] using ih st1 h

/-- The step count at the end of a loop that ends normally is at most the ceiling, and
it is above the count at entry when the loop test passes at entry. -/
theorem LoopRun.step_bounds {σ : Type} {exec : StepExecutor σ} {workflow : Workflow}
    {runId : Nat} {st : LoopState} {w : World σ} {new : List ExecCall}
    {r : Except JsError LoopState} {w1 : World σ}
    (h : LoopRun exec workflow runId st w new r w1) :
    ∀ st1, r = .ok st1 →
      (st.stepCount ≤ maxSteps → st1.stepCount ≤ maxSteps) ∧
      (∀ node, st.currentNode = some node → st.stepCount < maxSteps →
        st.stepCount < st1.stepCount) := by
  induction h with
  | exit_none st w hn =>
    intro st1 h; cases h
    exact ⟨fun hle => hle, fun node hnode => by rw [hn] at hnode; cases hnode⟩
  | exit_ceiling st w node hn hlt =>
    intro st1 h; cases h
    exact ⟨fun hle => hle, fun _ _ hlt' => absurd hlt' hlt⟩
  | unbound st w node _ _ _ => intro st1 h; cases h
  | stop st w node agent hn hlt ha hstop =>
    intro st1 h; cases h
    exact ⟨fun _ => hlt, fun _ _ _ => Nat.lt_succ_self _⟩
  | exec_error st w node agent error s _ _ _ _ _ => intro st1 h; cases h
  | complete st w node agent stepResult s _ hlt _ _ _ _ =>
    intro st1 h; cases h
    exact ⟨fun _ => hlt, fun _ _ _ => Nat.lt_succ_self _⟩
  | dead_end st w node agent stepResult s _ hlt _ _ _ _ _ =>
    intro st1 h; cases h
    exact ⟨fun _ => hlt, fun _ _ _ => Nat.lt_succ_self _⟩
  | advance st w node agent stepResult s nextEdge new r w1 _ hlt _ _ _ _ _ hrun ih =>
    intro st1 h
    obtain ⟨ih1, _⟩ := ih st1 h
    have hmono := (hrun.path_eq st1 h).2.2.1
    simp only [advanceTo, pushStep] at ih1 hmono
    exact ⟨fun _ => ih1 hlt, fun _ _ _ => by omega⟩

/-- C20: for a run that returns, `total_steps` is the number of records of
`execution_path`, or that number plus one; it is that number plus one exactly when the
run ended by visiting a stop node or an end node (entered by the loop, counted, not
recorded); and `1 ≤ total_steps ≤ 10`. -/
theorem runWorkflow_total_steps {σ : Type} (exec : StepExecutor σ) (workflowId : String)
    (input : JsValue) (w : World σ) (res : RunResult) (w1 : World σ)
    (workflow : Workflow) (startNode : Node) (new : List ExecCall)
    (h : runWorkflow exec workflowId input w = some (.ok res, w1))
    (hwf : getWorkflow w.db workflowId = .ok workflow)
    (hstart : findStartNode workflow.nodes = .ok (some startNode))
    (hnew : w1.calls = w.calls ++ new) :
    res.execution_path.length = new.length ∧
    (res.total_steps = res.execution_path.length ∨
      res.total_steps = res.execution_path.length + 1) ∧
    (res.total_steps = res.execution_path.length + 1 ↔
      EndsOnStop workflow startNode new) ∧
    1 ≤ res.total_steps ∧ res.total_steps ≤ 10 := by
  obtain ⟨workflow', startNode', new', st, w3, hwf', hs', hloop, hres, _, hnew'⟩ :=
    runWorkflow_ok_inv h
  rw [hwf] at hwf'
  cases hwf'
  rw [hstart] at hs'
  cases hs'
  rw [hnew] at hnew'
  have hnn : new = new' := List.append_cancel_left hnew'
  subst hnn
  obtain ⟨hpath, hok, _, _⟩ := hloop.path_eq st rfl
  simp only [initialState, List.nil_append] at hpath
  have hlen : res.execution_path.length = new.length := by
    rw [hres]
    show st.executionPath.length = new.length
    rw [hpath, (recordsOf_ok new 0 hok).1]
  have htotal : res.total_steps = st.stepCount := by rw [hres]
  obtain ⟨hupper, hlower⟩ := hloop.step_bounds st rfl
  have h1 : 1 ≤ st.stepCount := by
    have := hlower startNode rfl (by simp [initialState, maxSteps])
    simp only [initialState] at this
    omega
  have h10 : st.stepCount ≤ 10 := hupper (by simp [initialState, maxSteps])
  have hends : (0 + new.length < maxSteps ∧
      ∃ node agent, nextToVisit workflow (some startNode) new = some node ∧
        node.agents = some agent ∧ stopCondition agent node = true) ↔
      EndsOnStop workflow startNode new := by
    simp only [EndsOnStop, Nat.zero_add, stopCondition_eq_true]
  rw [htotal, hlen]
  rcases hloop.step_count st rfl with ⟨hcount, hstop⟩ | ⟨hcount, hnostop⟩
  · simp only [initialState] at hcount hstop
    refine ⟨rfl, Or.inr (by omega), ?_, h1, h10⟩
    exact ⟨fun _ => hends.mp hstop, fun _ => by omega⟩
  · simp only [initialState] at hcount hnostop
    refine ⟨rfl, Or.inl (by omega), ?_, h1, h10⟩
    exact ⟨fun heq => by omega, fun he => absurd (hends.mpr he) hnostop⟩

/-- C20, witness: the router node is routed to the stop node; the run returns one record
and `total_steps = 2`. -/
theorem runWorkflow_total_steps_witness :
    ∃ (res : RunResult) (w1 : World Unit) (new : List ExecCall),
      runWorkflow (constExec (.string "done") "go") "wf" emptyObject stopWorld =
        some (.ok res, w1) ∧
      w1.calls = stopWorld.calls ++ new ∧
      res.total_steps = 2 ∧
      res.execution_path.length = new.length ∧
      (res.total_steps = res.execution_path.length ∨
        res.total_steps = res.execution_path.length + 1) ∧
      (res.total_steps = res.execution_path.length + 1 ↔
        EndsOnStop stopWorkflow routerNode new) ∧
      1 ≤ res.total_steps ∧ res.total_steps ≤ 10 :=
  ⟨_, _, _, rfl, rfl, rfl,
    runWorkflow_total_steps (constExec (.string "done") "go") "wf" emptyObject stopWorld
      _ _ stopWorkflow routerNode _ rfl rfl rfl rfl⟩

/-! ## C13 and C16: the manual step -/

/-- C13: for every run id, node id, input, executor and world, `executeWorkflowStep`
writes nothing to `workflow_runs`: the table and the journal of its writes are the same
after the call as before, whether the call returns or throws, so the lookup of any run
gives the same row, with the same status and the same stored execution path. -/
theorem executeWorkflowStep_frame {σ : Type} (exec : StepExecutor σ) (runId : Nat)
    (nodeId : String) (input : JsValue) (w : World σ) :
    (executeWorkflowStep exec runId nodeId input w).2.db.workflow_runs =
      w.db.workflow_runs ∧
    (executeWorkflowStep exec runId nodeId input w).2.db.run_writes = w.db.run_writes ∧
    ∀ id, singleRun (executeWorkflowStep exec runId nodeId input w).2.db id =
      singleRun w.db id := by
  have hruns : (executeWorkflowStep exec runId nodeId input w).2.db.workflow_runs =
      w.db.workflow_runs ∧
      (executeWorkflowStep exec runId nodeId input w).2.db.run_writes = w.db.run_writes := by
    unfold executeWorkflowStep
    split
    · exact ⟨rfl, rfl⟩
    · split
      · exact ⟨rfl, rfl⟩
      · split
        · exact ⟨rfl, rfl⟩
        · split
          · exact ⟨rfl, rfl⟩
          · exact ⟨rfl, rfl⟩
  refine ⟨hruns.1, hruns.2, ?_⟩
  intro id
  simp only [singleRun, hruns.1]

/-- C16: when the lookup of the run fails, or the lookup of the run succeeds and the
lookup of the node fails, `executeWorkflowStep` throws the error of that lookup and
leaves the world as it was: the executor is not invoked and no event is logged. -/
theorem executeWorkflowStep_unresolved {σ : Type} (exec : StepExecutor σ) (runId : Nat)
    (nodeId : String) (input : JsValue) (w : World σ) (error : JsError)
    (h : singleRun w.db runId = .error error ∨
      (∃ run, singleRun w.db runId = .ok run) ∧ singleNode w.db nodeId = .error error) :
    (executeWorkflowStep exec runId nodeId input w).1 = .error error ∧
    (executeWorkflowStep exec runId nodeId input w).2 = w ∧
    (executeWorkflowStep exec runId nodeId input w).2.calls = w.calls ∧
    (executeWorkflowStep exec runId nodeId input w).2.db.logs = w.db.logs := by
  have hboth : executeWorkflowStep exec runId nodeId input w = (.error error, w) := by
    rcases h with hrun | ⟨⟨run, hrun⟩, hnode⟩
    · simp only [executeWorkflowStep, hrun]
    · simp only [executeWorkflowStep, hrun, hnode]
  rw [hboth]
  exact ⟨rfl, rfl, rfl, rfl⟩

/-- C16, witness: the example world has no run, so the lookup of run `0` fails. -/
theorem executeWorkflowStep_unresolved_witness :
    (executeWorkflowStep (constExec .null "go") 0 "node-router" emptyObject
        (exampleWorld [routerNode] [])).1 = .error singleRowError ∧
    (executeWorkflowStep (constExec .null "go") 0 "node-router" emptyObject
        (exampleWorld [routerNode] [])).2 = exampleWorld [routerNode] [] ∧
    (executeWorkflowStep (constExec .null "go") 0 "node-router" emptyObject
        (exampleWorld [routerNode] [])).2.calls = (exampleWorld [routerNode] []).calls ∧
    (executeWorkflowStep (constExec .null "go") 0 "node-router" emptyObject
        (exampleWorld [routerNode] [])).2.db.logs = (exampleWorld [routerNode] []).db.logs :=
  executeWorkflowStep_unresolved (constExec .null "go") 0 "node-router" emptyObject
    (exampleWorld [routerNode] []) singleRowError (Or.inl rfl)

/-! ## C14: the scenario of the specification -/

/-- C14: on the workflow with nodes Router, Auth, Balance, Stop (agents `RouterAgent`,
`AuthAgent`, `PostpaidBalanceAgent`, `StopAgent`, none with a tool) and edges Router to
Auth on `need_authentication` and Auth to Balance on `need_balance_info`, with input
`{query: "balance?"}`, whatever the clock and the state of the agent service,
`runWorkflow` returns status `completed` with `total_steps = 3` and three records, on
Router, Auth and Balance, with intents `need_authentication`, `need_balance_info`,
`workflow_complete`; the final output has a field `balance`; the executor is invoked
three times, never on the Stop node. -/
theorem runWorkflow_scenario (clock : Clock) (executeTool : ToolExecutor) (s : AgentState) :
    ∃ res w1 fields,
      runWorkflow (executeAgent clock executeTool) "wf" scenarioInput (scenarioWorld s) =
        some (.ok res, w1) ∧
      res.status = "completed" ∧
      res.total_steps = 3 ∧
      res.execution_path.map (fun record => record.output_intent) =
        ["need_authentication", "need_balance_info", "workflow_complete"] ∧
      res.execution_path.map (fun record => record.agent_name) =
        ["RouterAgent", "AuthAgent", "PostpaidBalanceAgent"] ∧
      res.execution_path.map (fun record => record.step) = [1, 2, 3] ∧
      res.final_output = .object fields ∧
      fields.map (fun field => field.1) =
        ["message", "customer_id", "balance", "currency", "last_updated"] ∧
      res.final_output.get "balance" = .ok (.number (171 / 2)) ∧
      w1.calls.map (fun call => call.node.id) =
        ["node-router", "node-auth", "node-balance"] :=
  ⟨_, _, _, rfl, rfl, rfl, rfl, rfl, rfl, rfl, rfl, rfl, rfl⟩

/-! ## C21: completion intents in the path -/

/-- C21: in the `execution_path` a run returns, every record that is followed by another
record has an intent that is neither `workflow_complete` nor `workflow_end`: only the
last record can carry a completion marker. -/
theorem runWorkflow_completion_only_last {σ : Type} (exec : StepExecutor σ)
    (workflowId : String) (input : JsValue) (w : World σ) (res : RunResult) (w1 : World σ)
    (h : runWorkflow exec workflowId input w = some (.ok res, w1)) :
    ∀ i r1 r2, res.execution_path[i]? = some r1 → res.execution_path[i + 1]? = some r2 →
      r1.output_intent ≠ "workflow_complete" ∧ r1.output_intent ≠ "workflow_end" := by
  obtain ⟨workflow, startNode, new, st, w3, _, _, hloop, hres, _, _⟩ := runWorkflow_ok_inv h
  obtain ⟨hpath, hok, _, _⟩ := hloop.path_eq st rfl
  simp only [initialState, List.nil_append] at hpath
  have hrp : res.execution_path = recordsOf 0 new := by rw [hres]; exact hpath
  obtain ⟨_, _, hlink⟩ := hloop.links
  intro i r1 r2 h1 h2
  rw [hrp] at h1 h2
  obtain ⟨c1, sr1, hc1, hr1, hrec1⟩ := recordsOf_getElem? new 0 hok i r1 h1
  obtain ⟨c2, sr2, hc2, _, _⟩ := recordsOf_getElem? new 0 hok (i + 1) r2 h2
  obtain ⟨sr, _, hsr, hnc, _⟩ := hlink i c1 c2 hc1 hc2
  rw [hr1] at hsr
  cases hsr
  have hintent : r1.output_intent = sr1.output_intent := by rw [hrec1]; rfl
  rw [hintent]
  constructor
  · intro heq
    rw [(isCompletionIntent_eq_true _).mpr (Or.inl heq)] at hnc
    cases hnc
  · intro heq
    rw [(isCompletionIntent_eq_true _).mpr (Or.inr heq)] at hnc
    cases hnc

/-- C21, witness: the run of ten steps on the cycle; its first record is followed by
another and has intent `go`. -/
theorem runWorkflow_completion_only_last_witness :
    ∃ (res : RunResult) (w1 : World Unit) (r1 r2 : StepRecord),
      runWorkflow (constExec (.string "done") "go") "wf" emptyObject cycleWorld =
        some (.ok res, w1) ∧
      res.execution_path[0]? = some r1 ∧ res.execution_path[0 + 1]? = some r2 ∧
      r1.output_intent ≠ "workflow_complete" ∧ r1.output_intent ≠ "workflow_end" :=
  ⟨_, _, _, _, rfl, rfl, rfl,
    runWorkflow_completion_only_last (constExec (.string "done") "go") "wf" emptyObject
      cycleWorld _ _ rfl 0 _ _ rfl rfl⟩

/-! ## C22: falsy outputs -/

/-- The falsy values are `undefined`, `null`, `false`, `0` and the empty string. -/
theorem truthy_eq_false_iff (value : JsValue) :
    value.truthy = false ↔
      (value = .null ∨ value = .undefined ∨ value = .bool false ∨ value = .number 0 ∨
        value = .string "") := by
  cases value <;> simp [JsValue.truthy]

/-- C22: for a run that returns, with `last` the record of its last executed step: when
the output of `last` is falsy (`null`, `undefined`, `false`, `0` or the empty string),
the final output, returned and stored as `output_data` of the run, is `{}` and not that
output; when it is any other value, the final output is that output. -/
theorem runWorkflow_falsy_output {σ : Type} (exec : StepExecutor σ) (workflowId : String)
    (input : JsValue) (w : World σ) (res : RunResult) (w1 : World σ) (last : StepRecord)
    (h : runWorkflow exec workflowId input w = some (.ok res, w1))
    (hlast : res.execution_path.getLast? = some last) :
    ((last.output = .null ∨ last.output = .undefined ∨ last.output = .bool false ∨
        last.output = .number 0 ∨ last.output = .string "") →
      res.final_output = .object [] ∧ res.final_output ≠ last.output) ∧
    (¬ (last.output = .null ∨ last.output = .undefined ∨ last.output = .bool false ∨
        last.output = .number 0 ∨ last.output = .string "") →
      res.final_output = last.output) ∧
    w1.db.workflow_runs = w.db.workflow_runs ++
      [{ id := freshRunId w.db, workflow_id := workflowId, status := "completed",
         input_data := defaultInput input, output_data := some res.final_output,
         execution_path := some res.execution_path }] := by
  obtain ⟨_, _, hruns⟩ := runWorkflow_ok_runs h
  obtain ⟨workflow, startNode, new, st, w3, _, _, _, hres, _, _⟩ := runWorkflow_ok_inv h
  have hfinal : res.final_output = finalOutputOf res.execution_path := by rw [hres]
  obtain ⟨ht, hf⟩ := finalOutputOf_of_getLast? res.execution_path last hlast
  refine ⟨?_, ?_, hruns⟩
  · intro hfalsy
    have hfalse := (truthy_eq_false_iff last.output).mpr hfalsy
    have hempty : res.final_output = .object [] := by rw [hfinal]; exact hf hfalse
    refine ⟨hempty, ?_⟩
    rw [hempty]
    intro heq
    rw [← heq] at hfalse
    cases hfalse
  · intro hnot
    have htrue : last.output.truthy = true := by
      cases htr : last.output.truthy with
      | true => rfl
      | false => exact absurd ((truthy_eq_false_iff last.output).mp htr) hnot
    rw [hfinal]
    exact ht htrue

/-- C22, witness: a run whose only step has output `0`. -/
theorem runWorkflow_falsy_output_witness :
    ∃ (res : RunResult) (w1 : World Unit) (last : StepRecord),
      runWorkflow (constExec (.number 0) "workflow_complete") "wf" emptyObject
        completeWorld = some (.ok res, w1) ∧
      res.execution_path.getLast? = some last ∧
      last.output = .number 0 ∧
      ((last.output = .null ∨ last.output = .undefined ∨ last.output = .bool false ∨
          last.output = .number 0 ∨ last.output = .string "") →
        res.final_output = .object [] ∧ res.final_output ≠ last.output) ∧
      (¬ (last.output = .null ∨ last.output = .undefined ∨ last.output = .bool false ∨
          last.output = .number 0 ∨ last.output = .string "") →
        res.final_output = last.output) ∧
      w1.db.workflow_runs = completeWorld.db.workflow_runs ++
        [{ id := freshRunId completeWorld.db, workflow_id := "wf", status := "completed",
           input_data := defaultInput emptyObject, output_data := some res.final_output,
           execution_path := some res.execution_path }] :=
  ⟨_, _, _, rfl, rfl, rfl,
    runWorkflow_falsy_output (constExec (.number 0) "workflow_complete") "wf" emptyObject
      completeWorld _ _ _ rfl rfl⟩

/-! ## C23: an edge to a node that does not exist -/

/-- A loop entered without current node does nothing and ends normally. -/
theorem LoopRun.at_none {σ : Type} {exec : StepExecutor σ} {workflow : Workflow}
    {runId : Nat} {st : LoopState} {w : World σ} {new : List ExecCall}
    {r : Except JsError LoopState} {w1 : World σ}
    (h : LoopRun exec workflow runId st w new r w1) :
    st.currentNode = none → new = [] ∧ w1 = w ∧ r = .ok st := by
  induction h with
  | exit_none st w hn => intro _; exact ⟨rfl, rfl, rfl⟩
  | exit_ceiling st w node hn hlt => intro _; exact ⟨rfl, rfl, rfl⟩
  | unbound st w node hn hlt ha => intro hnone; rw [hn] at hnone; cases hnone
  | stop st w node agent hn hlt ha hstop => intro hnone; rw [hn] at hnone; cases hnone
  | exec_error st w node agent error s hn hlt ha hstop he =>
    intro hnone; rw [hn] at hnone; cases hnone
  | complete st w node agent stepResult s hn hlt ha hstop he hc =>
    intro hnone; rw [hn] at hnone; cases hnone
  | dead_end st w node agent stepResult s hn hlt ha hstop he hc hf =>
    intro hnone; rw [hn] at hnone; cases hnone
  | advance st w node agent stepResult s nextEdge new r w1 hn hlt ha hstop he hc hf hrun _ =>
    intro hnone; rw [hn] at hnone; cases hnone

/-- A successful step whose first matching edge leads to no node is the last pass of
the loop: no invocation follows, the loop ends normally and the record of that step is
the last of the path. -/
theorem LoopRun.before_dangling {σ : Type} {exec : StepExecutor σ} {workflow : Workflow}
    {runId : Nat} {st : LoopState} {w : World σ} {new : List ExecCall}
    {r : Except JsError LoopState} {w1 : World σ}
    (h : LoopRun exec workflow runId st w new r w1) :
    ∀ i call stepResult nextEdge,
      new[i]? = some call → call.result = .ok stepResult →
      isCompletionIntent stepResult.output_intent = false →
      workflow.edges.find? (edgeMatches call.node.id stepResult.output_intent) =
        some nextEdge →
      workflow.nodes.find? (fun n => n.id == nextEdge.to_node_id) = none →
      new.length = i + 1 ∧
      ∃ st1, r = .ok st1 ∧
        st1.executionPath.length = st.executionPath.length + (i + 1) ∧
        st1.executionPath.getLast? =
          some (stepRecord (st.stepCount + (i + 1)) call.node call.agent call.input
            stepResult) := by
  induction h with
  | exit_none st w _ => intro i call sr e hc; simp at hc
  | exit_ceiling st w node _ _ => intro i call sr e hc; simp at hc
  | unbound st w node _ _ _ => intro i call sr e hc; simp at hc
  | stop st w node agent _ _ _ _ => intro i call sr e hc; simp at hc
  | exec_error st w node agent error s _ _ _ _ _ =>
    intro i call sr e hc hres
    cases i with
    | zero =>
      simp only [List.getElem?_cons_zero, Option.some.injEq] at hc
      subst hc
      simp [callOf] at hres
    | succ i => simp at hc
  | complete st w node agent stepResult s _ _ _ _ _ hcompl =>
    intro i call sr e hc hres hnc
    cases i with
    | zero =>
      simp only [List.getElem?_cons_zero, Option.some.injEq] at hc
      subst hc
      simp only [callOf, Except.ok.injEq] at hres
      subst hres
      rw [hcompl] at hnc; cases hnc
    | succ i => simp at hc
  | dead_end st w node agent stepResult s _ _ _ _ _ _ hf =>
    intro i call sr e hc hres _ hfind
    cases i with
    | zero =>
      simp only [List.getElem?_cons_zero, Option.some.injEq] at hc
      subst hc
      simp only [callOf, Except.ok.injEq] at hres
      subst hres
      simp only [callOf] at hfind
      rw [hf] at hfind; cases hfind
    | succ i => simp at hc
  | advance st w node agent stepResult s nextEdge new r w1 _ _ _ _ _ _ hf hrun ih =>
    intro i call sr e hc hres hnc hfind hnode
    cases i with
    | zero =>
      simp only [List.getElem?_cons_zero, Option.some.injEq] at hc
      subst hc
      simp only [callOf, Except.ok.injEq] at hres
      subst hres
      simp only [callOf] at hfind
      rw [hf] at hfind
      cases hfind
      obtain ⟨hnil, _, hr⟩ := hrun.at_none (by simp only [advanceTo]; exact hnode)
      subst hnil
      refine ⟨rfl, _, hr, ?_, ?_⟩
      · simp [advanceTo, pushStep]
      · simp [advanceTo, pushStep, callOf]
    | succ i =>
      simp only [List.getElem?_cons_succ] at hc
      obtain ⟨hlen, st1, hr, hplen, hlast⟩ := ih i call sr e hc hres hnc hfind hnode
      simp only [advanceTo, pushStep] at hplen hlast
      refine ⟨by simp only [List.length_cons]; omega, st1, hr, ?_, ?_⟩
      · simp only [List.length_append, List.length_singleton] at hplen
        omega
      · rw [hlast]
        congr 2
        omega

/-- The lookup of line 206 finds nothing when no node has that id. -/
theorem find?_node_none (nodes : List Node) (id : String)
    (h : ∀ node ∈ nodes, node.id ≠ id) :
    nodes.find? (fun n => n.id == id) = none := by
  rw [List.find?_eq_none]
  intro node hnode hmatch
  exact h node hnode (by simpa using hmatch)

/-- C23, amended: when a step succeeds with an intent that is no completion marker and
the first matching edge has a `to_node_id` that is the id of no node of the workflow,
`runWorkflow` raises no error: the executor is not invoked again, the run returns status
`completed` and is stored so, with the `execution_path` accumulated so far, whose last
record is the record of that step; the final output is the output of that step when it
is truthy, and `{}` when it is falsy. -/
theorem runWorkflow_dangling_edge {σ : Type} (exec : StepExecutor σ) (workflowId : String)
    (input : JsValue) (w : World σ) (r : Except JsError RunResult) (w1 : World σ)
    (workflow : Workflow) (new : List ExecCall) (i : Nat) (call : ExecCall)
    (stepResult : StepResult) (nextEdge : Edge)
    (h : runWorkflow exec workflowId input w = some (r, w1))
    (hwf : getWorkflow w.db workflowId = .ok workflow)
    (hnew : w1.calls = w.calls ++ new)
    (hcall : new[i]? = some call)
    (hok : call.result = .ok stepResult)
    (hc1 : stepResult.output_intent ≠ "workflow_complete")
    (hc2 : stepResult.output_intent ≠ "workflow_end")
    (hfirst : IsFirstMatch workflow.edges call.node.id stepResult.output_intent nextEdge)
    (hmissing : ∀ node ∈ workflow.nodes, node.id ≠ nextEdge.to_node_id) :
    new.length = i + 1 ∧
    ∃ res, r = .ok res ∧ res.status = "completed" ∧
      w1.db.workflow_runs = w.db.workflow_runs ++
        [{ id := freshRunId w.db, workflow_id := workflowId, status := "completed",
           input_data := defaultInput input, output_data := some res.final_output,
           execution_path := some res.execution_path }] ∧
      res.execution_path.length = i + 1 ∧
      res.execution_path.getLast? =
        some (stepRecord (i + 1) call.node call.agent call.input stepResult) ∧
      (stepResult.output.truthy = true → res.final_output = stepResult.output) ∧
      (stepResult.output.truthy = false → res.final_output = emptyObject) := by
  have hne : new ≠ [] := by
    intro hnil
    rw [hnil] at hcall
    simp at hcall
  obtain ⟨workflow', startNode, rl, w3, hwf', _, hloop, hsettle⟩ :=
    runWorkflow_calls_inv h hnew hne
  rw [hwf] at hwf'
  cases hwf'
  obtain ⟨hlen, st1, hrl, hplen, hlast⟩ := hloop.before_dangling i call stepResult nextEdge
    hcall hok (isCompletionIntent_eq_false _ hc1 hc2)
    (find?_of_isFirstMatch _ _ _ _ hfirst) (find?_node_none _ _ hmissing)
  subst hrl
  have hr : r = (settle workflowId (freshRunId w.db) (.ok st1) w3).1 := by rw [← hsettle]
  rw [settle_ok] at hr
  subst hr
  obtain ⟨_, _, hruns⟩ := runWorkflow_ok_runs h
  simp only [initialState, List.length_nil, Nat.zero_add] at hplen hlast
  obtain ⟨ht, hf⟩ := finalOutputOf_of_getLast? st1.executionPath _ hlast
  exact ⟨hlen, _, rfl, rfl, hruns, hplen, hlast, ht, hf⟩

/-- C23, witness: the router node answers `go`, whose edge leads to a node that does not
exist. -/
theorem runWorkflow_dangling_edge_witness :
    ∃ (r : Except JsError RunResult) (w1 : World Unit) (new : List ExecCall)
      (call : ExecCall) (stepResult : StepResult),
      runWorkflow (constExec .null "go") "wf" emptyObject danglingWorld = some (r, w1) ∧
      w1.calls = danglingWorld.calls ++ new ∧
      new[0]? = some call ∧ call.result = .ok stepResult ∧
      new.length = 0 + 1 ∧
      ∃ res, r = .ok res ∧ res.status = "completed" ∧
        w1.db.workflow_runs = danglingWorld.db.workflow_runs ++
          [{ id := freshRunId danglingWorld.db, workflow_id := "wf",
             status := "completed", input_data := defaultInput emptyObject,
             output_data := some res.final_output,
             execution_path := some res.execution_path }] ∧
        res.execution_path.length = 0 + 1 ∧
        res.execution_path.getLast? =
          some (stepRecord (0 + 1) call.node call.agent call.input stepResult) ∧
        (stepResult.output.truthy = true → res.final_output = stepResult.output) ∧
        (stepResult.output.truthy = false → res.final_output = emptyObject) :=
  ⟨_, _, _, _, _, rfl, rfl, rfl, rfl,
    runWorkflow_dangling_edge (constExec .null "go") "wf" emptyObject danglingWorld _ _
      danglingWorkflow _ 0 _ _ (edge "node-router" "node-missing" "go") rfl rfl rfl rfl rfl
      go_ne_complete go_ne_end ⟨[], [], rfl, by simp, rfl, rfl⟩
      (by intro node hnode
          simp only [danglingWorkflow, exampleWorkflow, List.mem_singleton] at hnode
          subst hnode
          decide)⟩

/-- C23, counterexample: the step on the router node succeeds with output `null` and
intent `go`, whose first matching edge leads to `node-missing`, the id of no node; the
run returns with that one record, but its final output is `{}`, not `null`. -/
theorem runWorkflow_dangling_edge_counterexample :
    ∃ res w1 call stepResult nextEdge,
      runWorkflow (constExec .null "go") "wf" emptyObject danglingWorld =
        some (.ok res, w1) ∧
      w1.calls[0]? = some call ∧ call.result = .ok stepResult ∧
      danglingWorkflow.edges.find? (edgeMatches call.node.id stepResult.output_intent) =
        some nextEdge ∧
      danglingWorkflow.nodes.find? (fun n => n.id == nextEdge.to_node_id) = none ∧
      res.execution_path.length = 1 ∧
      stepResult.output = .null ∧
      res.final_output = .object [] ∧
      res.final_output ≠ stepResult.output := by
  refine ⟨_, _, _, _, _, rfl, rfl, rfl, rfl, rfl, rfl, rfl, rfl, ?_⟩
  intro h
  cases h

/-! ## C24: `determineOutputIntent` -/

/-- A property read throws on `null` and `undefined` only. -/
theorem get_ok (value : JsValue) (key : String)
    (hnull : value ≠ .null) (hundef : value ≠ .undefined) :
    ∃ v, value.get key = .ok v := by
  cases value with
  | null => exact absurd rfl hnull
  | undefined => exact absurd rfl hundef
  | bool b => exact ⟨_, rfl⟩
  | number n => exact ⟨_, rfl⟩
  | string s => exact ⟨_, rfl⟩
  | array items => exact ⟨_, rfl⟩
  | object fields =>
    cases hf : fields.find? (fun field => field.1 == key) with
    | none => exact ⟨.undefined, by simp [JsValue.get, hf]⟩
    | some field => exact ⟨field.2, by simp [JsValue.get, hf]⟩

/-- The test `value !== undefined`, in words. -/
theorem isDefined_iff (value : JsValue) : value.isDefined = true ↔ value ≠ .undefined := by
  cases value <;> simp [JsValue.isDefined]

/-- The expression `agent.output_intents[0] || 'workflow_complete'`, in words: the first
output intent of the agent, or `workflow_complete` when there is none or it is empty. -/
theorem firstOutputIntent_eq (agent : Agent) :
    firstOutputIntent agent =
      match agent.output_intents with
      | [] => "workflow_complete"
      | first :: _ => if first = "" then "workflow_complete" else first := by
  unfold firstOutputIntent
  cases agent.output_intents <;> rfl

/-- C24, amended: for every agent and every tool result other than `null` and
`undefined` (on which the first property read throws), `determineOutputIntent` returns,
in this order of priority: `need_balance_info` when `toolResult.authenticated` is
truthy, whatever the other fields; otherwise `workflow_complete` when
`toolResult.balance` is not `undefined` (`null` included); otherwise `workflow_error`
when `toolResult.error` is truthy; otherwise the first output intent of the agent, or
`workflow_complete` when the agent has none or its first one is empty. -/
theorem determineOutputIntent_priority (agent : Agent) (toolResult : JsValue)
    (hnull : toolResult ≠ .null) (hundef : toolResult ≠ .undefined) :
    ∃ authenticated balance err,
      toolResult.get "authenticated" = .ok authenticated ∧
      toolResult.get "balance" = .ok balance ∧
      toolResult.get "error" = .ok err ∧
      (authenticated.truthy = true →
        determineOutputIntent agent toolResult = .ok "need_balance_info") ∧
      (authenticated.truthy = false → balance ≠ .undefined →
        determineOutputIntent agent toolResult = .ok "workflow_complete") ∧
      (authenticated.truthy = false → balance = .undefined → err.truthy = true →
        determineOutputIntent agent toolResult = .ok "workflow_error") ∧
      (authenticated.truthy = false → balance = .undefined → err.truthy = false →
        determineOutputIntent agent toolResult =
          .ok (match agent.output_intents with
            | [] => "workflow_complete"
            | first :: _ => if first = "" then "workflow_complete" else first)) := by
  obtain ⟨authenticated, ha⟩ := get_ok toolResult "authenticated" hnull hundef
  obtain ⟨balance, hb⟩ := get_ok toolResult "balance" hnull hundef
  obtain ⟨err, he⟩ := get_ok toolResult "error" hnull hundef
  refine ⟨authenticated, balance, err, ha, hb, he, ?_, ?_, ?_, ?_⟩
  · intro hat
    simp [determineOutputIntent, ha, hat]
  · intro haf hbd
    have hdef := (isDefined_iff balance).mpr hbd
    simp [determineOutputIntent, ha, haf, hb, hdef]
  · intro haf hbu het
    subst hbu
    simp [determineOutputIntent, ha, haf, hb, JsValue.isDefined, he, het]
  · intro haf hbu hef
    subst hbu
    simp [determineOutputIntent, ha, haf, hb, JsValue.isDefined, he, hef,
      firstOutputIntent_eq]

/-- C24, witness: a tool result with `authenticated: true` and a balance. -/
theorem determineOutputIntent_priority_witness :
    ∃ authenticated balance err,
      (JsValue.object [("balance", .number 10), ("authenticated", .bool true)]).get
        "authenticated" = .ok authenticated ∧
      (JsValue.object [("balance", .number 10), ("authenticated", .bool true)]).get
        "balance" = .ok balance ∧
      (JsValue.object [("balance", .number 10), ("authenticated", .bool true)]).get
        "error" = .ok err ∧
      (authenticated.truthy = true →
        determineOutputIntent authAgent
          (.object [("balance", .number 10), ("authenticated", .bool true)]) =
          .ok "need_balance_info") ∧
      (authenticated.truthy = false → balance ≠ .undefined →
        determineOutputIntent authAgent
          (.object [("balance", .number 10), ("authenticated", .bool true)]) =
          .ok "workflow_complete") ∧
      (authenticated.truthy = false → balance = .undefined → err.truthy = true →
        determineOutputIntent authAgent
          (.object [("balance", .number 10), ("authenticated", .bool true)]) =
          .ok "workflow_error") ∧
      (authenticated.truthy = false → balance = .undefined → err.truthy = false →
        determineOutputIntent authAgent
          (.object [("balance", .number 10), ("authenticated", .bool true)]) =
          .ok (match authAgent.output_intents with
            | [] => "workflow_complete"
            | first :: _ => if first = "" then "workflow_complete" else first)) :=
  determineOutputIntent_priority authAgent
    (.object [("balance", .number 10), ("authenticated", .bool true)])
    (by intro h; cases h) (by intro h; cases h)

/-- C24, counterexample: on the tool result `null`, `determineOutputIntent` returns no
intent: the read of `toolResult.authenticated` throws a `TypeError`. -/
theorem determineOutputIntent_priority_counterexample :
    determineOutputIntent authAgent .null =
      .error (propertyError "null" "authenticated") ∧
    ∀ intent, determineOutputIntent authAgent .null ≠ .ok intent := by
  refine ⟨rfl, ?_⟩
  intro intent h
  cases h

/-! ## C25 and C26: the validators -/

/-- On data that is neither `null` nor `undefined`, the missing fields are the required
fields with a falsy value, in the order of declaration. -/
theorem missingFields_eq (required : List String) (data : JsValue)
    (hnull : data ≠ .null) (hundef : data ≠ .undefined) :
    missingFields required data = .ok (falsyFields required data) := by
  induction required with
  | nil => rfl
  | cons field rest ih =>
    obtain ⟨value, hv⟩ := get_ok data field hnull hundef
    have hprop : data.prop field = value := by simp [JsValue.prop, hv]
    cases ht : value.truthy <;>
      simp [missingFields, hv, ih, falsyFields, List.filter_cons, hprop, ht]

/-- An error for missing fields is not the error of line 53. -/
theorem missingError_ne_arraysError (missing : List String) :
    missingError missing ≠ arraysError := by
  intro h
  have hm := congrArg JsError.message h
  have hd := congrArg String.data hm
  simp [missingError, arraysError, String.data_append] at hd

/-- Some required field is falsy exactly when the list of falsy fields is not empty. -/
theorem falsyFields_ne_nil_iff (required : List String) (data : JsValue) :
    falsyFields required data ≠ [] ↔
      ∃ field ∈ required, (data.prop field).truthy = false := by
  simp [falsyFields, List.filter_eq_nil_iff]

/-- The contract on missing fields, for a validator that throws the error for missing
fields when some required field is falsy and no such error otherwise. -/
theorem missingFieldsContract_of (validate : JsValue → Except JsError JsValue)
    (required : List String) (data : JsValue)
    (hmissing : falsyFields required data ≠ [] →
      validate data = .error (missingError (falsyFields required data)))
    (hcomplete : falsyFields required data = [] →
      ∀ names, validate data ≠ .error (missingError names)) :
    MissingFieldsContract validate required data := by
  refine ⟨⟨?_, ?_⟩, ?_⟩
  · rintro ⟨names, hnames⟩
    by_cases hnil : falsyFields required data = []
    · exact absurd hnames (hcomplete hnil names)
    · exact (falsyFields_ne_nil_iff required data).mp hnil
  · intro hfalsy
    exact ⟨_, hmissing ((falsyFields_ne_nil_iff required data).mpr hfalsy)⟩
  · intro hfalsy
    exact hmissing ((falsyFields_ne_nil_iff required data).mpr hfalsy)

/-- A list that is not empty has a positive length. -/
theorem length_pos_of_ne_nil_string (names : List String) (h : names ≠ []) :
    names.length > 0 := List.length_pos.mpr h

/-- `AgentModel.validate` on data that is neither `null` nor `undefined`. -/
theorem agentModel_validate_eq (data : JsValue) (hnull : data ≠ .null)
    (hundef : data ≠ .undefined) :
    (falsyFields AgentModel.required data ≠ [] →
      AgentModel.validate data =
        .error (missingError (falsyFields AgentModel.required data))) ∧
    (falsyFields AgentModel.required data = [] →
      AgentModel.validate data =
        .ok (.object
          [("name", data.prop "name"),
           ("description", (data.prop "description").or (.string "")),
           ("system_prompt", data.prop "system_prompt"),
           ("model_name", data.prop "model_name"),
           ("input_intents", (data.prop "input_intents").or (.array [])),
           ("output_intents", (data.prop "output_intents").or (.array [])),
           ("tool_id", (data.prop "tool_id").or .null),
           ("is_active", .bool (data.prop "is_active").notFalse)])) := by
  constructor
  · intro hne
    simp [AgentModel.validate, missingFields_eq _ _ hnull hundef,
      length_pos_of_ne_nil_string _ hne]
  · intro hnil
    simp [AgentModel.validate, missingFields_eq _ _ hnull hundef, hnil]

/-- `ToolModel.validate` on data that is neither `null` nor `undefined`. -/
theorem toolModel_validate_eq (data : JsValue) (hnull : data ≠ .null)
    (hundef : data ≠ .undefined) :
    (falsyFields ToolModel.required data ≠ [] →
      ToolModel.validate data =
        .error (missingError (falsyFields ToolModel.required data))) ∧
    (falsyFields ToolModel.required data = [] →
      ToolModel.validate data =
        .ok (.object
          [("name", data.prop "name"),
           ("description", (data.prop "description").or (.string "")),
           ("function_code", data.prop "function_code"),
           ("parameters", (data.prop "parameters").or (.object [])),
           ("is_active", .bool (data.prop "is_active").notFalse)])) := by
  constructor
  · intro hne
    simp [ToolModel.validate, missingFields_eq _ _ hnull hundef,
      length_pos_of_ne_nil_string _ hne]
  · intro hnil
    simp [ToolModel.validate, missingFields_eq _ _ hnull hundef, hnil]

/-- `WorkflowModel.validate` on data that is neither `null` nor `undefined`. -/
theorem workflowModel_validate_eq (data : JsValue) (hnull : data ≠ .null)
    (hundef : data ≠ .undefined) :
    (falsyFields WorkflowModel.required data ≠ [] →
      WorkflowModel.validate data =
        .error (missingError (falsyFields WorkflowModel.required data))) ∧
    (falsyFields WorkflowModel.required data = [] →
      ((data.prop "nodes").isArray = false ∨ (data.prop "edges").isArray = false) →
      WorkflowModel.validate data = .error arraysError) ∧
    (falsyFields WorkflowModel.required data = [] →
      (data.prop "nodes").isArray = true → (data.prop "edges").isArray = true →
      WorkflowModel.validate data =
        .ok (.object
          [("name", data.prop "name"),
           ("description", (data.prop "description").or (.string "")),
           ("nodes", data.prop "nodes"),
           ("edges", data.prop "edges"),
           ("is_active", .bool (data.prop "is_active").notFalse)])) := by
  refine ⟨?_, ?_, ?_⟩
  · intro hne
    simp [WorkflowModel.validate, missingFields_eq _ _ hnull hundef,
      length_pos_of_ne_nil_string _ hne]
  · intro hnil harr
    rcases harr with harr | harr <;>
      simp [WorkflowModel.validate, missingFields_eq _ _ hnull hundef, hnil, harr]
  · intro hnil hn he
    simp [WorkflowModel.validate, missingFields_eq _ _ hnull hundef, hnil, hn, he]

/-- `WorkflowRunModel.validate` on data that is neither `null` nor `undefined`. -/
theorem workflowRunModel_validate_eq (data : JsValue) (hnull : data ≠ .null)
    (hundef : data ≠ .undefined) :
    (falsyFields WorkflowRunModel.required data ≠ [] →
      WorkflowRunModel.validate data =
        .error (missingError (falsyFields WorkflowRunModel.required data))) ∧
    (falsyFields WorkflowRunModel.required data = [] →
      WorkflowRunModel.validate data =
        .ok (.object
          [("workflow_id", data.prop "workflow_id"),
           ("input_data", (data.prop "input_data").or (.object [])),
           ("status", (data.prop "status").or (.string "pending"))])) := by
  constructor
  · intro hne
    simp [WorkflowRunModel.validate, missingFields_eq _ _ hnull hundef,
      length_pos_of_ne_nil_string _ hne]
  · intro hnil
    simp [WorkflowRunModel.validate, missingFields_eq _ _ hnull hundef, hnil]

/-- No required field is falsy exactly when the list of falsy fields is empty. -/
theorem falsyFields_eq_nil_iff (required : List String) (data : JsValue) :
    falsyFields required data = [] ↔
      ∀ field ∈ required, (data.prop field).truthy = true := by
  simp [falsyFields, List.filter_eq_nil_iff]

/-- An object is neither `null` nor `undefined`. -/
theorem object_ne (fields : List (String × JsValue)) :
    JsValue.object fields ≠ .null ∧ JsValue.object fields ≠ .undefined :=
  ⟨fun h => JsValue.noConfusion h, fun h => JsValue.noConfusion h⟩

/-- C25: for every object `data` and each of `AgentModel`, `ToolModel`, `WorkflowModel`
and `WorkflowRunModel`, `validate` throws `Missing required fields: ...` if and only if
at least one required field of the model has a falsy value in `data`, and the message
lists exactly those fields, in the order of declaration, joined by `', '`; when no
required field is falsy, the validators of agents, tools and runs return, and that of
workflows throws `Nodes and edges must be arrays` when `nodes` or `edges` is not an
array and returns otherwise; in particular it accepts empty arrays. -/
theorem validate_missing_fields (fields : List (String × JsValue)) :
    MissingFieldsContract AgentModel.validate AgentModel.required (.object fields) ∧
    MissingFieldsContract ToolModel.validate ToolModel.required (.object fields) ∧
    MissingFieldsContract WorkflowModel.validate WorkflowModel.required (.object fields) ∧
    MissingFieldsContract WorkflowRunModel.validate WorkflowRunModel.required
      (.object fields) ∧
    ((∀ field ∈ AgentModel.required,
        ((JsValue.object fields).prop field).truthy = true) →
      ∃ v, AgentModel.validate (.object fields) = .ok v) ∧
    ((∀ field ∈ ToolModel.required,
        ((JsValue.object fields).prop field).truthy = true) →
      ∃ v, ToolModel.validate (.object fields) = .ok v) ∧
    ((∀ field ∈ WorkflowRunModel.required,
        ((JsValue.object fields).prop field).truthy = true) →
      ∃ v, WorkflowRunModel.validate (.object fields) = .ok v) ∧
    ((∀ field ∈ WorkflowModel.required,
        ((JsValue.object fields).prop field).truthy = true) →
      (((JsValue.object fields).prop "nodes").isArray = false ∨
        ((JsValue.object fields).prop "edges").isArray = false) →
      WorkflowModel.validate (.object fields) = .error arraysError) ∧
    ((∀ field ∈ WorkflowModel.required,
        ((JsValue.object fields).prop field).truthy = true) →
      ((JsValue.object fields).prop "nodes").isArray = true →
      ((JsValue.object fields).prop "edges").isArray = true →
      ∃ v, WorkflowModel.validate (.object fields) = .ok v) ∧
    (∀ name : String, name ≠ "" →
      WorkflowModel.validate
        (.object [("name", .string name), ("nodes", .array []), ("edges", .array [])]) =
        .ok (.object
          [("name", .string name), ("description", .string ""), ("nodes", .array []),
           ("edges", .array []), ("is_active", .bool true)])) := by
  obtain ⟨hnull, hundef⟩ := object_ne fields
  obtain ⟨a1, a2⟩ := agentModel_validate_eq (.object fields) hnull hundef
  obtain ⟨t1, t2⟩ := toolModel_validate_eq (.object fields) hnull hundef
  obtain ⟨w1, w2, w3⟩ := workflowModel_validate_eq (.object fields) hnull hundef
  obtain ⟨r1, r2⟩ := workflowRunModel_validate_eq (.object fields) hnull hundef
  refine ⟨?_, ?_, ?_, ?_, ?_, ?_, ?_, ?_, ?_, ?_⟩
  · refine missingFieldsContract_of _ _ _ a1 ?_
    intro hnil names heq
    rw [a2 hnil] at heq
    cases heq
  · refine missingFieldsContract_of _ _ _ t1 ?_
    intro hnil names heq
    rw [t2 hnil] at heq
    cases heq
  · refine missingFieldsContract_of _ _ _ w1 ?_
    intro hnil names heq
    by_cases harr : ((JsValue.object fields).prop "nodes").isArray = true ∧
        ((JsValue.object fields).prop "edges").isArray = true
    · rw [w3 hnil harr.1 harr.2] at heq
      cases heq
    · have hor : ((JsValue.object fields).prop "nodes").isArray = false ∨
          ((JsValue.object fields).prop "edges").isArray = false := by
        by_cases hn : ((JsValue.object fields).prop "nodes").isArray = true
        · right
          cases he : ((JsValue.object fields).prop "edges").isArray with
          | false => rfl
          | true => exact absurd ⟨hn, he⟩ harr
        · left
          simpa using hn
      rw [w2 hnil hor] at heq
      exact missingError_ne_arraysError names (Except.error.inj heq).symm
  · refine missingFieldsContract_of _ _ _ r1 ?_
    intro hnil names heq
    rw [r2 hnil] at heq
    cases heq
  · intro hall
    exact ⟨_, a2 ((falsyFields_eq_nil_iff _ _).mpr hall)⟩
  · intro hall
    exact ⟨_, t2 ((falsyFields_eq_nil_iff _ _).mpr hall)⟩
  · intro hall
    exact ⟨_, r2 ((falsyFields_eq_nil_iff _ _).mpr hall)⟩
  · intro hall harr
    exact w2 ((falsyFields_eq_nil_iff _ _).mpr hall) harr
  · intro hall hn he
    exact ⟨_, w3 ((falsyFields_eq_nil_iff _ _).mpr hall) hn he⟩
  · intro name hname
    obtain ⟨hnull', hundef'⟩ := object_ne
      [("name", .string name), ("nodes", .array []), ("edges", .array [])]
    obtain ⟨_, _, w3'⟩ := workflowModel_validate_eq _ hnull' hundef'
    have hnil : falsyFields WorkflowModel.required
        (.object [("name", .string name), ("nodes", .array []), ("edges", .array [])]) =
        [] := by
      rw [falsyFields_eq_nil_iff]
      intro field hfield
      simp only [WorkflowModel.required, List.mem_cons, List.mem_singleton,
        List.not_mem_nil, or_false] at hfield
      rcases hfield with rfl | rfl | rfl
      · simpa [JsValue.prop, JsValue.get, JsValue.truthy] using hname
      · rfl
      · rfl
    exact w3' hnil rfl rfl

/-- Applying `|| b` twice is applying it once. -/
theorem or_or_self (a b : JsValue) : (a.or b).or b = a.or b := by
  unfold JsValue.or
  cases ha : a.truthy with
  | true => simp [ha]
  | false => simp

/-- The test `!== false` on the result of that test gives the same result. -/
theorem notFalse_bool (value : JsValue) :
    (JsValue.bool value.notFalse).notFalse = value.notFalse := by
  cases h : value.notFalse <;> rfl

/-- A validator built on `missingFields` with a required field returns only on data
that is neither `null` nor `undefined`. -/
theorem missingFields_ok_ne (field : String) (rest : List String) (data : JsValue)
    (missing : List String) (h : missingFields (field :: rest) data = .ok missing) :
    data ≠ .null ∧ data ≠ .undefined := by
  constructor
  · intro hd
    subst hd
    simp [missingFields, JsValue.get] at h
  · intro hd
    subst hd
    simp [missingFields, JsValue.get] at h

/-- `AgentModel.validate` is the identity on what it returns. -/
theorem agentModel_validate_twice (data v : JsValue)
    (h : AgentModel.validate data = .ok v) : AgentModel.validate v = .ok v := by
  have hne : data ≠ .null ∧ data ≠ .undefined := by
    cases hm : missingFields AgentModel.required data with
    | error error => simp [AgentModel.validate, hm] at h
    | ok missing => exact missingFields_ok_ne _ _ data missing hm
  obtain ⟨a1, a2⟩ := agentModel_validate_eq data hne.1 hne.2
  by_cases hnil : falsyFields AgentModel.required data = []
  · rw [a2 hnil] at h
    have hv := (Except.ok.inj h).symm
    have hall := (falsyFields_eq_nil_iff _ _).mp hnil
    have h1 : (data.prop "name").truthy = true := hall "name" (by simp [AgentModel.required])
    have h2 : (data.prop "system_prompt").truthy = true :=
      hall "system_prompt" (by simp [AgentModel.required])
    have h3 : (data.prop "model_name").truthy = true :=
      hall "model_name" (by simp [AgentModel.required])
    obtain ⟨hnull', hundef'⟩ : v ≠ .null ∧ v ≠ .undefined := by
      rw [hv]; exact object_ne _
    obtain ⟨_, b2⟩ := agentModel_validate_eq v hnull' hundef'
    have p1 : v.prop "name" = data.prop "name" := by rw [hv]; rfl
    have p2 : v.prop "description" = (data.prop "description").or (.string "") := by
      rw [hv]; rfl
    have p3 : v.prop "system_prompt" = data.prop "system_prompt" := by rw [hv]; rfl
    have p4 : v.prop "model_name" = data.prop "model_name" := by rw [hv]; rfl
    have p5 : v.prop "input_intents" = (data.prop "input_intents").or (.array []) := by
      rw [hv]; rfl
    have p6 : v.prop "output_intents" = (data.prop "output_intents").or (.array []) := by
      rw [hv]; rfl
    have p7 : v.prop "tool_id" = (data.prop "tool_id").or .null := by rw [hv]; rfl
    have p8 : v.prop "is_active" = .bool (data.prop "is_active").notFalse := by
      rw [hv]; rfl
    have hnil' : falsyFields AgentModel.required v = [] := by
      rw [falsyFields_eq_nil_iff]
      intro field hfield
      simp only [AgentModel.required, List.mem_cons, List.mem_singleton, List.not_mem_nil,
        or_false] at hfield
      rcases hfield with rfl | rfl | rfl
      · rw [p1]; exact h1
      · rw [p3]; exact h2
      · rw [p4]; exact h3
    rw [b2 hnil', p1, p2, p3, p4, p5, p6, p7, p8, or_or_self, or_or_self, or_or_self,
      or_or_self, notFalse_bool, hv]
  · rw [a1 hnil] at h
    cases h

/-- `ToolModel.validate` is the identity on what it returns. -/
theorem toolModel_validate_twice (data v : JsValue)
    (h : ToolModel.validate data = .ok v) : ToolModel.validate v = .ok v := by
  have hne : data ≠ .null ∧ data ≠ .undefined := by
    cases hm : missingFields ToolModel.required data with
    | error error => simp [ToolModel.validate, hm] at h
    | ok missing => exact missingFields_ok_ne _ _ data missing hm
  obtain ⟨a1, a2⟩ := toolModel_validate_eq data hne.1 hne.2
  by_cases hnil : falsyFields ToolModel.required data = []
  · rw [a2 hnil] at h
    have hv := (Except.ok.inj h).symm
    have hall := (falsyFields_eq_nil_iff _ _).mp hnil
    have h1 : (data.prop "name").truthy = true := hall "name" (by simp [ToolModel.required])
    have h2 : (data.prop "function_code").truthy = true :=
      hall "function_code" (by simp [ToolModel.required])
    obtain ⟨hnull', hundef'⟩ : v ≠ .null ∧ v ≠ .undefined := by
      rw [hv]; exact object_ne _
    obtain ⟨_, b2⟩ := toolModel_validate_eq v hnull' hundef'
    have p1 : v.prop "name" = data.prop "name" := by rw [hv]; rfl
    have p2 : v.prop "description" = (data.prop "description").or (.string "") := by
      rw [hv]; rfl
    have p3 : v.prop "function_code" = data.prop "function_code" := by rw [hv]; rfl
    have p4 : v.prop "parameters" = (data.prop "parameters").or (.object []) := by
      rw [hv]; rfl
    have p5 : v.prop "is_active" = .bool (data.prop "is_active").notFalse := by
      rw [hv]; rfl
    have hnil' : falsyFields ToolModel.required v = [] := by
      rw [falsyFields_eq_nil_iff]
      intro field hfield
      simp only [ToolModel.required, List.mem_cons, List.mem_singleton, List.not_mem_nil,
        or_false] at hfield
      rcases hfield with rfl | rfl
      · rw [p1]; exact h1
      · rw [p3]; exact h2
    rw [b2 hnil', p1, p2, p3, p4, p5, or_or_self, or_or_self, notFalse_bool, hv]
  · rw [a1 hnil] at h
    cases h

/-- `WorkflowModel.validate` is the identity on what it returns. -/
theorem workflowModel_validate_twice (data v : JsValue)
    (h : WorkflowModel.validate data = .ok v) : WorkflowModel.validate v = .ok v := by
  have hne : data ≠ .null ∧ data ≠ .undefined := by
    cases hm : missingFields WorkflowModel.required data with
    | error error => simp [WorkflowModel.validate, hm] at h
    | ok missing => exact missingFields_ok_ne _ _ data missing hm
  obtain ⟨a1, a2, a3⟩ := workflowModel_validate_eq data hne.1 hne.2
  by_cases hnil : falsyFields WorkflowModel.required data = []
  · cases hn : (data.prop "nodes").isArray with
    | false =>
      rw [a2 hnil (Or.inl hn)] at h
      cases h
    | true =>
      cases he : (data.prop "edges").isArray with
      | false =>
        rw [a2 hnil (Or.inr he)] at h
        cases h
      | true =>
        rw [a3 hnil hn he] at h
        have hv := (Except.ok.inj h).symm
        have hall := (falsyFields_eq_nil_iff _ _).mp hnil
        have h1 : (data.prop "name").truthy = true :=
          hall "name" (by simp [WorkflowModel.required])
        have h2 : (data.prop "nodes").truthy = true :=
          hall "nodes" (by simp [WorkflowModel.required])
        have h3 : (data.prop "edges").truthy = true :=
          hall "edges" (by simp [WorkflowModel.required])
        obtain ⟨hnull', hundef'⟩ : v ≠ .null ∧ v ≠ .undefined := by
          rw [hv]; exact object_ne _
        obtain ⟨_, _, b3⟩ := workflowModel_validate_eq v hnull' hundef'
        have p1 : v.prop "name" = data.prop "name" := by rw [hv]; rfl
        have p2 : v.prop "description" = (data.prop "description").or (.string "") := by
          rw [hv]; rfl
        have p3 : v.prop "nodes" = data.prop "nodes" := by rw [hv]; rfl
        have p4 : v.prop "edges" = data.prop "edges" := by rw [hv]; rfl
        have p5 : v.prop "is_active" = .bool (data.prop "is_active").notFalse := by
          rw [hv]; rfl
        have hnil' : falsyFields WorkflowModel.required v = [] := by
          rw [falsyFields_eq_nil_iff]
          intro field hfield
          simp only [WorkflowModel.required, List.mem_cons, List.mem_singleton,
            List.not_mem_nil, or_false] at hfield
          rcases hfield with rfl | rfl | rfl
          · rw [p1]; exact h1
          · rw [p3]; exact h2
          · rw [p4]; exact h3
        rw [b3 hnil' (by rw [p3]; exact hn) (by rw [p4]; exact he), p1, p2, p3, p4, p5,
          or_or_self, notFalse_bool, hv]
  · rw [a1 hnil] at h
    cases h

/-- `WorkflowRunModel.validate` is the identity on what it returns. -/
theorem workflowRunModel_validate_twice (data v : JsValue)
    (h : WorkflowRunModel.validate data = .ok v) : WorkflowRunModel.validate v = .ok v := by
  have hne : data ≠ .null ∧ data ≠ .undefined := by
    cases hm : missingFields WorkflowRunModel.required data with
    | error error => simp [WorkflowRunModel.validate, hm] at h
    | ok missing => exact missingFields_ok_ne _ _ data missing hm
  obtain ⟨a1, a2⟩ := workflowRunModel_validate_eq data hne.1 hne.2
  by_cases hnil : falsyFields WorkflowRunModel.required data = []
  · rw [a2 hnil] at h
    have hv := (Except.ok.inj h).symm
    have hall := (falsyFields_eq_nil_iff _ _).mp hnil
    have h1 : (data.prop "workflow_id").truthy = true :=
      hall "workflow_id" (by simp [WorkflowRunModel.required])
    obtain ⟨hnull', hundef'⟩ : v ≠ .null ∧ v ≠ .undefined := by
      rw [hv]; exact object_ne _
    obtain ⟨_, b2⟩ := workflowRunModel_validate_eq v hnull' hundef'
    have p1 : v.prop "workflow_id" = data.prop "workflow_id" := by rw [hv]; rfl
    have p2 : v.prop "input_data" = (data.prop "input_data").or (.object []) := by
      rw [hv]; rfl
    have p3 : v.prop "status" = (data.prop "status").or (.string "pending") := by
      rw [hv]; rfl
    have hnil' : falsyFields WorkflowRunModel.required v = [] := by
      rw [falsyFields_eq_nil_iff]
      intro field hfield
      simp only [WorkflowRunModel.required, List.mem_singleton] at hfield
      subst hfield
      rw [p1]; exact h1
    rw [b2 hnil', p1, p2, p3, or_or_self, or_or_self, hv]
  · rw [a1 hnil] at h
    cases h

/-- C26: for each of `AgentModel`, `ToolModel`, `WorkflowModel` and `WorkflowRunModel`
and every `data` on which `validate` returns a value `v`, `validate` returns on `v` and
returns `v` itself: the defaults it fills in (`description` `''`, `input_intents` and
`output_intents` `[]`, `tool_id` `null`, `parameters` `{}`, `input_data` `{}`, `status`
`'pending'`, `is_active` true unless it is `false` itself) are left as they are. -/
theorem validate_idempotent (data v : JsValue) :
    (AgentModel.validate data = .ok v → AgentModel.validate v = .ok v) ∧
    (ToolModel.validate data = .ok v → ToolModel.validate v = .ok v) ∧
    (WorkflowModel.validate data = .ok v → WorkflowModel.validate v = .ok v) ∧
    (WorkflowRunModel.validate data = .ok v → WorkflowRunModel.validate v = .ok v) :=
  ⟨agentModel_validate_twice data v, toolModel_validate_twice data v,
    workflowModel_validate_twice data v, workflowRunModel_validate_twice data v⟩

/-- C25, witness: an agent with an empty name and no system prompt; the message lists
`name` and `system_prompt`, in that order. -/
theorem validate_missing_fields_witness :
    AgentModel.validate (.object [("name", .string ""), ("model_name", .string "m")]) =
      .error (missingError (falsyFields AgentModel.required
        (.object [("name", .string ""), ("model_name", .string "m")]))) ∧
    (missingError (falsyFields AgentModel.required
        (.object [("name", .string ""), ("model_name", .string "m")]))).message =
      "Missing required fields: name, system_prompt" :=
  ⟨(validate_missing_fields [("name", .string ""), ("model_name", .string "m")]).1.2
      ⟨"name", by simp [AgentModel.required], rfl⟩,
    by decide⟩

/-- C26, witness: the values the four validators return on data that has the required
fields only are returned as they are by a second validation. -/
theorem validate_idempotent_witness :
    (AgentModel.validate
        (.object [("name", .string "a"), ("system_prompt", .string "p"),
          ("model_name", .string "m")]) =
      .ok (.object
        [("name", .string "a"), ("description", .string ""),
         ("system_prompt", .string "p"), ("model_name", .string "m"),
         ("input_intents", .array []), ("output_intents", .array []),
         ("tool_id", .null), ("is_active", .bool true)]) ∧
     AgentModel.validate
        (.object
          [("name", .string "a"), ("description", .string ""),
           ("system_prompt", .string "p"), ("model_name", .string "m"),
           ("input_intents", .array []), ("output_intents", .array []),
           ("tool_id", .null), ("is_active", .bool true)]) =
      .ok (.object
        [("name", .string "a"), ("description", .string ""),
         ("system_prompt", .string "p"), ("model_name", .string "m"),
         ("input_intents", .array []), ("output_intents", .array []),
         ("tool_id", .null), ("is_active", .bool true)])) ∧
    (WorkflowRunModel.validate (.object [("workflow_id", .string "wf")]) =
      .ok (.object
        [("workflow_id", .string "wf"), ("input_data", .object []),
         ("status", .string "pending")]) ∧
     WorkflowRunModel.validate
        (.object
          [("workflow_id", .string "wf"), ("input_data", .object []),
           ("status", .string "pending")]) =
      .ok (.object
        [("workflow_id", .string "wf"), ("input_data", .object []),
         ("status", .string "pending")])) :=
  ⟨⟨rfl,
      (validate_idempotent
        (.object [("name", .string "a"), ("system_prompt", .string "p"),
          ("model_name", .string "m")]) _).1 rfl⟩,
    ⟨rfl, (validate_idempotent (.object [("workflow_id", .string "wf")]) _).2.2.2 rfl⟩⟩

end AgenticBackend
